import Mathlib

/-!
Verification development for the Bulletify summarizer extension.

The definitions below are a shallow embedding of the repository's
JavaScript source:

* `parseAIResponse` — the response normalizer (useAISummary.js, named
  `parseAIResponse` in the source) with its ordered fallback chain:
  strict JSON parse of the greedy brace span, a regex repair pass,
  quoted-run extraction, bullet-marker lines, and sentence splitting.
* `fetchPageContentGeneric` — the generic HTML extraction path of
  `fetchPageContent` in background.js (regex tag stripping, article/main
  preference, entity decoding, whitespace collapse, truncation).
* `extractYouTubeContent` / `extractYouTubeDescriptionFromHtml` — the
  video extraction path of background.js, with external collaborators
  (tab query, in-page probe, network fetch) modelled as oracle results.
* `getSummary` — the orchestrator of useAISummary.js, with the memory
  cache, durable storage, settings, fetch and provider collaborators
  modelled as oracle results; an `Except.error` outcome models an
  exception escaping the function.

JavaScript strings are modelled as Lean `String`/`List Char` (code
points rather than UTF-16 units; all inputs relevant to the claims are
in the Basic Multilingual Plane where the two coincide).  Regex
operations are modelled as explicit left-to-right scanners with the
exact leftmost-match, greedy/lazy and global-continuation semantics of
the source patterns.
-/

/-! ### JavaScript character classes and string primitives -/

/-- The character set of JavaScript `\s` (and of `String.prototype.trim`):
ECMAScript WhiteSpace plus LineTerminator. -/
def jsWhitespace (c : Char) : Bool :=
  c = ' ' || c = '\t' || c = '\n' || c = '\r' ||
  c.val = 0x0B || c.val = 0x0C || c.val = 0xA0 || c.val = 0x1680 ||
  (0x2000 ≤ c.val && c.val ≤ 0x200A) || c.val = 0x2028 || c.val = 0x2029 ||
  c.val = 0x202F || c.val = 0x205F || c.val = 0x3000 || c.val = 0xFEFF

/-- JavaScript line terminators (the characters *not* matched by `.`). -/
def lineTerm (c : Char) : Bool :=
  c = '\n' || c = '\r' || c.val = 0x2028 || c.val = 0x2029

/-- A control character in the sense of the repair pass's
`[\x00-\x1F\x7F]` class. -/
def ctrlChar (c : Char) : Bool :=
  c.toNat ≤ 0x1F || c.toNat = 0x7F

/-- The opening brace character (written via its code point). -/
def obrace : Char := Char.ofNat 123

/-- The closing brace character (written via its code point). -/
def cbrace : Char := Char.ofNat 125

/-- `String.prototype.trim` on a character list. -/
def jsTrimL (l : List Char) : List Char :=
  ((l.dropWhile jsWhitespace).reverse.dropWhile jsWhitespace).reverse

/-- `String.prototype.trim`. -/
def jsTrim (s : String) : String :=
  String.mk (jsTrimL s.toList)

/-! ### JSON values and a model of `JSON.parse` -/

/-- A JSON value as produced by `JSON.parse`.  Numbers keep their source
lexeme (nothing in the claims depends on numeric value). -/
inductive JsValue where
  | jnull : JsValue
  | jbool : Bool → JsValue
  | jnum : String → JsValue
  | jstr : String → JsValue
  | jarr : List JsValue → JsValue
  | jobj : List (String × JsValue) → JsValue

/-- JSON token-separating whitespace (stricter than JavaScript `\s`). -/
def jsonWs (c : Char) : Bool :=
  c = ' ' || c = '\t' || c = '\n' || c = '\r'

/-- Skip JSON whitespace. -/
def skipWs (l : List Char) : List Char :=
  l.dropWhile jsonWs

/-- Value of a hexadecimal digit. -/
def hexVal (c : Char) : Option Nat :=
  if '0' ≤ c ∧ c ≤ '9' then some (c.toNat - '0'.toNat)
  else if 'a' ≤ c ∧ c ≤ 'f' then some (c.toNat - 'a'.toNat + 10)
  else if 'A' ≤ c ∧ c ≤ 'F' then some (c.toNat - 'A'.toNat + 10)
  else none

/-- Decode a code point into a `Char`, mapping invalid scalar values
(lone surrogates) to U+FFFD as JavaScript strings cannot be represented
exactly by Unicode scalar sequences there. -/
def codePointChar (n : Nat) : Char :=
  if n.isValidChar then Char.ofNat n else Char.ofNat 0xFFFD

/-- Parse the body of a JSON string literal (after the opening quote).
Returns the decoded characters and the remainder after the closing
quote.  Raw control characters below U+0020 are a parse error, exactly
as in `JSON.parse`. -/
def parseStrBody : Nat → List Char → Option (List Char × List Char)
  | 0, _ => none
  | _ + 1, [] => none
  | fuel + 1, c :: rest =>
    if c = '"' then some ([], rest)
    else if c.toNat < 0x20 then none
    else if c = '\\' then
      match rest with
      | [] => none
      | e :: rest2 =>
        if e = '"' then
          (parseStrBody fuel rest2).map (fun p => ('"' :: p.1, p.2))
        else if e = '\\' then
          (parseStrBody fuel rest2).map (fun p => ('\\' :: p.1, p.2))
        else if e = '/' then
          (parseStrBody fuel rest2).map (fun p => ('/' :: p.1, p.2))
        else if e = 'b' then
          (parseStrBody fuel rest2).map (fun p => (Char.ofNat 8 :: p.1, p.2))
        else if e = 'f' then
          (parseStrBody fuel rest2).map (fun p => (Char.ofNat 12 :: p.1, p.2))
        else if e = 'n' then
          (parseStrBody fuel rest2).map (fun p => ('\n' :: p.1, p.2))
        else if e = 'r' then
          (parseStrBody fuel rest2).map (fun p => ('\r' :: p.1, p.2))
        else if e = 't' then
          (parseStrBody fuel rest2).map (fun p => ('\t' :: p.1, p.2))
        else if e = 'u' then
          match rest2 with
          | h1 :: h2 :: h3 :: h4 :: rest3 =>
            match hexVal h1, hexVal h2, hexVal h3, hexVal h4 with
            | some a, some b, some c2, some d =>
              let n := ((a * 16 + b) * 16 + c2) * 16 + d
              (parseStrBody fuel rest3).map
                (fun p => (codePointChar n :: p.1, p.2))
            | _, _, _, _ => none
          | _ => none
        else none
    else (parseStrBody fuel rest).map (fun p => (c :: p.1, p.2))

/-- Parse a JSON number lexeme starting at `l`; returns the lexeme and
the remainder, or `none` when `l` does not start with a valid number. -/
def parseNumLex (l : List Char) : Option (List Char × List Char) :=
  let (sign, l1) :=
    match l with
    | '-' :: t => (['-'], t)
    | _ => (([] : List Char), l)
  match l1 with
  | [] => none
  | d :: _ =>
    if ¬ d.isDigit then none
    else
      let intPart := l1.takeWhile Char.isDigit
      let l2 := l1.dropWhile Char.isDigit
      if intPart.length > 1 ∧ d = '0' then none
      else
        let (frac, l3) :=
          match l2 with
          | '.' :: t =>
            let ds := t.takeWhile Char.isDigit
            if ds = [] then ([], l2)
            else ('.' :: ds, t.dropWhile Char.isDigit)
          | _ => (([] : List Char), l2)
        if l2 ≠ l3 ∨ frac = [] then
          match l2, frac with
          | '.' :: _, [] => none
          | _, _ =>
            let (ex, l4) :=
              match l3 with
              | e :: t =>
                if e = 'e' ∨ e = 'E' then
                  let (es, t2) :=
                    match t with
                    | s :: t3 => if s = '+' ∨ s = '-' then ([s], t3) else ([], t)
                    | [] => (([] : List Char), t)
                  let ds := t2.takeWhile Char.isDigit
                  if ds = [] then (([] : List Char), l3)
                  else (e :: es ++ ds, t2.dropWhile Char.isDigit)
                else (([] : List Char), l3)
              | [] => (([] : List Char), l3)
            match l3, ex with
            | e :: _, [] =>
              if e = 'e' ∨ e = 'E' then none
              else some (sign ++ intPart ++ frac, l4)
            | _, _ => some (sign ++ intPart ++ frac ++ ex, l4)
        else none

/-- Insert a field into a JSON object, replacing the value of an
existing key in place (JavaScript object semantics for duplicate keys:
the last value wins, the first position is kept). -/
def insertField (fs : List (String × JsValue)) (k : String) (v : JsValue) :
    List (String × JsValue) :=
  match fs with
  | [] => [(k, v)]
  | (k', v') :: t =>
    if k' = k then (k, v) :: t else (k', v') :: insertField t k v

mutual

/-- Parse one JSON value (leading whitespace allowed);
returns the value and the unconsumed remainder. -/
def jparse : Nat → List Char → Option (JsValue × List Char)
  | 0, _ => none
  | fuel + 1, l =>
    match skipWs l with
    | [] => none
    | c :: rest =>
      if c = '"' then
        (parseStrBody (rest.length + 1) rest).map
          (fun p => (JsValue.jstr (String.mk p.1), p.2))
      else if c = obrace then jobjStart fuel rest
      else if c = '[' then jarrStart fuel rest
      else if c = 't' then
        match rest with
        | 'r' :: 'u' :: 'e' :: r => some (JsValue.jbool true, r)
        | _ => none
      else if c = 'f' then
        match rest with
        | 'a' :: 'l' :: 's' :: 'e' :: r => some (JsValue.jbool false, r)
        | _ => none
      else if c = 'n' then
        match rest with
        | 'u' :: 'l' :: 'l' :: r => some (JsValue.jnull, r)
        | _ => none
      else
        (parseNumLex (c :: rest)).map
          (fun p => (JsValue.jnum (String.mk p.1), p.2))

/-- Parse an array after its `[`. -/
def jarrStart : Nat → List Char → Option (JsValue × List Char)
  | 0, _ => none
  | fuel + 1, l =>
    match skipWs l with
    | ']' :: rest => some (JsValue.jarr [], rest)
    | _ => jarrLoop fuel l []

/-- Parse the remaining elements of a non-empty array; `acc` holds the
elements parsed so far in reverse. -/
def jarrLoop : Nat → List Char → List JsValue → Option (JsValue × List Char)
  | 0, _, _ => none
  | fuel + 1, l, acc =>
    match jparse fuel l with
    | none => none
    | some (v, rest) =>
      match skipWs rest with
      | ',' :: rest2 => jarrLoop fuel rest2 (v :: acc)
      | ']' :: rest2 => some (JsValue.jarr (v :: acc).reverse, rest2)
      | _ => none

/-- Parse an object after its opening brace. -/
def jobjStart : Nat → List Char → Option (JsValue × List Char)
  | 0, _ => none
  | fuel + 1, l =>
    match skipWs l with
    | c :: rest =>
      if c = cbrace then some (JsValue.jobj [], rest)
      else jobjLoop fuel l []
    | [] => none

/-- Parse the remaining members of a non-empty object; `acc` holds the
members parsed so far (duplicate keys already collapsed). -/
def jobjLoop : Nat → List Char → List (String × JsValue) →
    Option (JsValue × List Char)
  | 0, _, _ => none
  | fuel + 1, l, acc =>
    match skipWs l with
    | '"' :: rest =>
      match parseStrBody (rest.length + 1) rest with
      | none => none
      | some (key, rest2) =>
        match skipWs rest2 with
        | ':' :: rest3 =>
          match jparse fuel rest3 with
          | none => none
          | some (v, rest4) =>
            let acc2 := insertField acc (String.mk key) v
            match skipWs rest4 with
            | ',' :: rest5 => jobjLoop fuel rest5 acc2
            | c :: rest5 =>
              if c = cbrace then some (JsValue.jobj acc2, rest5) else none
            | [] => none
        | _ => none
    | _ => none

end

/-- `JSON.parse` on a character list: parse one value and require only
whitespace afterwards. -/
def jsonParseL (l : List Char) : Option JsValue :=
  match jparse (l.length + 1) l with
  | some (v, rest) => if skipWs rest = [] then some v else none
  | none => none

/-- `JSON.parse` on a string (`none` models a thrown `SyntaxError`). -/
def jsonParse (s : String) : Option JsValue :=
  jsonParseL s.toList

/-! ### The response normalizer `parseAIResponse` -/

/-- The greedy brace match `text.match` of the pattern "brace, anything,
brace": the span from the first opening brace to the last closing brace,
provided the latter comes after the former. -/
def braceSpanL (l : List Char) : Option (List Char) :=
  let s := l.dropWhile (fun c => c ≠ obrace)
  let r := s.reverse.dropWhile (fun c => c ≠ cbrace)
  if r = [] then none else some r.reverse

/-- String-level version of `braceSpanL`. -/
def braceSpan (s : String) : Option String :=
  (braceSpanL s.toList).map String.mk

/-- The value returned by the normalizer: the cleaned `bullets` array
plus (for the JSON-parse stages, which return the parsed object itself)
the object's remaining fields. -/
structure SummaryOut where
  bullets : List String
  fields : List (String × JsValue)

/-- `b => typeof b === 'string' ? b.trim() : ''`. -/
def bulletToStr (v : JsValue) : String :=
  match v with
  | .jstr s => jsTrim s
  | _ => ""

/-- Map each element to a trimmed string (non-strings to the empty
string) and drop the empties. -/
def cleanBullets (bs : List JsValue) : List String :=
  (bs.map bulletToStr).filter (fun s => s ≠ "")

/-- Field lookup in a parsed object. -/
def lookupF : List (String × JsValue) → String → Option JsValue
  | [], _ => none
  | (k', v) :: t, k => if k' = k then some v else lookupF t k

/-- The fields of the parsed object other than `bullets` (these are kept
on the returned object by the JSON-parse stages). -/
def otherFields (fs : List (String × JsValue)) : List (String × JsValue) :=
  fs.filter (fun p => p.1 ≠ "bullets")

/-- One JSON-parse attempt: parse, require an array-valued `bullets`
field (arrays are always truthy in JavaScript, so `parsed.bullets &&
Array.isArray(parsed.bullets)` is exactly this), clean the bullets and
return the object. -/
def tryBullets (s : List Char) : Option SummaryOut :=
  match jsonParseL s with
  | some (.jobj fs) =>
    match lookupF fs "bullets" with
    | some (.jarr bs) => some ⟨cleanBullets bs, otherFields fs⟩
    | _ => none
  | _ => none

/-- Scanner state for the repair pass's first rewrite, the global
replace of pattern: quote, optional whitespace, colon, optional
whitespace, bracket, lazily up to the first closing bracket — replacing
newlines inside each match. -/
inductive NfState where
  | scan : NfState
  | afterQuote : List Char → NfState
  | afterColon : List Char → NfState
  | body : List Char → NfState

/-- The scanner for the newline-collapsing rewrite.  Buffers hold the
current tentative match in reverse; on failure the buffer is flushed
unchanged and scanning resumes at the failing character, which matches
the regex engine's retry-from-next-position behaviour (buffers never
contain a quote after their first character, and a failed
bracket-body search cannot be rescued at a later start). -/
def nlFixGo : List Char → NfState → List Char
  | [], .scan => []
  | [], .afterQuote buf => buf.reverse
  | [], .afterColon buf => buf.reverse
  | [], .body buf => buf.reverse
  | c :: rest, .scan =>
    if c = '"' then nlFixGo rest (.afterQuote ['"'])
    else c :: nlFixGo rest .scan
  | c :: rest, .afterQuote buf =>
    if c = ':' then nlFixGo rest (.afterColon (c :: buf))
    else if jsWhitespace c then nlFixGo rest (.afterQuote (c :: buf))
    else if c = '"' then buf.reverse ++ nlFixGo rest (.afterQuote ['"'])
    else buf.reverse ++ c :: nlFixGo rest .scan
  | c :: rest, .afterColon buf =>
    if c = '[' then nlFixGo rest (.body (c :: buf))
    else if jsWhitespace c then nlFixGo rest (.afterColon (c :: buf))
    else if c = '"' then buf.reverse ++ nlFixGo rest (.afterQuote ['"'])
    else buf.reverse ++ c :: nlFixGo rest .scan
  | c :: rest, .body buf =>
    if c = ']' then
      (buf.reverse ++ [c]).map (fun x => if x = '\n' then ' ' else x) ++
        nlFixGo rest .scan
    else nlFixGo rest (.body (c :: buf))

/-- Collapse newlines inside array-valued segments (first rewrite of the
repair pass). -/
def newlineFix (l : List Char) : List Char :=
  nlFixGo l .scan

/-- Replace control characters by spaces (second rewrite). -/
def ctrlFix (l : List Char) : List Char :=
  l.map (fun c => if ctrlChar c then ' ' else c)

/-- Scanner for the trailing-comma rewrites: a comma, optional
whitespace, then `close` is replaced by `close` alone. -/
def commaFixGo (close : Char) : List Char → Option (List Char) → List Char
  | [], none => []
  | [], some buf => buf.reverse
  | c :: rest, none =>
    if c = ',' then commaFixGo close rest (some [c])
    else c :: commaFixGo close rest none
  | c :: rest, some buf =>
    if c = close then close :: commaFixGo close rest none
    else if jsWhitespace c then commaFixGo close rest (some (c :: buf))
    else if c = ',' then buf.reverse ++ commaFixGo close rest (some [c])
    else buf.reverse ++ c :: commaFixGo close rest none

/-- Remove a trailing comma before `close`. -/
def commaFix (close : Char) (l : List Char) : List Char :=
  commaFixGo close l none

/-- Collapse whitespace runs to single spaces (last rewrite). -/
def wsCollapseGo : List Char → Bool → List Char
  | [], _ => []
  | c :: rest, inWs =>
    if jsWhitespace c then
      if inWs then wsCollapseGo rest true else ' ' :: wsCollapseGo rest true
    else c :: wsCollapseGo rest false

/-- Collapse whitespace runs to single spaces. -/
def wsCollapse (l : List Char) : List Char :=
  wsCollapseGo l false

/-- The full repair pass applied to the brace span before the second
parse attempt, in source order: newline collapsing, control-character
replacement, trailing-comma removal before both closers, whitespace
collapsing. -/
def fixJsonStr (l : List Char) : List Char :=
  wsCollapse (commaFix cbrace (commaFix ']' (ctrlFix (newlineFix l))))

/-- Successive non-overlapping matches of: quote, at least twenty
non-quote characters, quote.  When the gap between two quotes is too
short the closing quote becomes the next candidate opener, exactly as
the regex engine retries from the next position. -/
def quotedRunsGo : List Char → Option (List Char) → List (List Char)
  | [], _ => []
  | c :: rest, none =>
    if c = '"' then quotedRunsGo rest (some []) else quotedRunsGo rest none
  | c :: rest, some inner =>
    if c = '"' then
      if inner.length ≥ 20 then inner.reverse :: quotedRunsGo rest none
      else quotedRunsGo rest (some [])
    else quotedRunsGo rest (some (c :: inner))

/-- Stage three: extract quoted runs of at least twenty characters from
the brace span, trim each, and keep those that do not look like key
names (no colon, or longer than fifty characters). -/
def regexBullets (l : List Char) : List String :=
  (quotedRunsGo l none).filterMap (fun inner =>
    let b := jsTrimL inner
    if (¬ b.contains ':') ∨ b.length > 50 then some (String.mk b) else none)

/-- Split on a separator character (JavaScript `split` semantics). -/
def splitCharGo (sep : Char) : List Char → List Char → List (List Char)
  | [], cur => [cur.reverse]
  | c :: rest, cur =>
    if c = sep then cur.reverse :: splitCharGo sep rest []
    else splitCharGo sep rest (c :: cur)

/-- The leading bullet-marker alternatives: a dash, bullet or asterisk,
or a digit run followed by a period or closing parenthesis; returns the
remainder of the line after the marker. -/
def bulletMarkerRest (t : List Char) : Option (List Char) :=
  match t with
  | c :: rest =>
    if c = '-' ∨ c = '•' ∨ c = '*' then some rest
    else
      let ds := t.takeWhile Char.isDigit
      if ds = [] then none
      else
        match t.drop ds.length with
        | p :: rest2 => if p = '.' ∨ p = ')' then some rest2 else none
        | [] => none
  | [] => none

/-- The capture of greedy optional whitespace followed by a greedy
non-empty dot-run: skip the whitespace run; if a character remains it
starts the capture, otherwise backtrack to the last whitespace character
that is not a line terminator. -/
def captureRest (rest : List Char) : Option (List Char) :=
  let wsRun := rest.takeWhile jsWhitespace
  let tail := rest.dropWhile jsWhitespace
  match tail with
  | _ :: _ => some (tail.takeWhile (fun x => ¬ lineTerm x))
  | [] =>
    match wsRun.reverse.dropWhile lineTerm with
    | x :: _ => some [x]
    | [] => none

/-- Stage four: split the raw text into lines, trim each, match the
bullet-marker pattern and keep captures longer than ten characters,
trimmed. -/
def lineBullets (l : List Char) : List String :=
  (splitCharGo '\n' l []).filterMap (fun line =>
    match bulletMarkerRest (jsTrimL line) with
    | some rest =>
      match captureRest rest with
      | some cap =>
        if cap.length > 10 then some (String.mk (jsTrimL cap)) else none
      | none => none
    | none => none)

/-- Sentence terminators. -/
def sentTerm (c : Char) : Bool :=
  c = '.' || c = '!' || c = '?'

/-- Split on runs of sentence terminators (JavaScript `split` with a
one-or-more character-class regex). -/
def splitSentGo : List Char → List Char → Bool → List (List Char)
  | [], cur, _ => [cur.reverse]
  | c :: rest, cur, inTerm =>
    if sentTerm c then
      if inTerm then splitSentGo rest [] true
      else cur.reverse :: splitSentGo rest [] true
    else splitSentGo rest (c :: cur) false

/-- Stage five: split on sentence terminators, keep pieces whose trimmed
length exceeds twenty, take at most ten, trim each. -/
def sentenceBullets (l : List Char) : List String :=
  (((splitSentGo l [] false).filter (fun s => (jsTrimL s).length > 20)).take 10).map
    (fun s => String.mk (jsTrimL s))

/-- The normalizer `parseAIResponse`, exactly as in the source: locate
the greedy brace span; try a strict parse, then a parse of the repaired
span, then quoted-run extraction on the original span; failing all of
those (or with no brace span at all), try bullet-marker lines, then
sentence splitting; otherwise throw. -/
def parseAIResponseL (text : List Char) : Except String SummaryOut :=
  let fromJson : Option SummaryOut :=
    match braceSpanL text with
    | none => none
    | some jsonStr =>
      match tryBullets jsonStr with
      | some r => some r
      | none =>
        match tryBullets (fixJsonStr jsonStr) with
        | some r => some r
        | none =>
          let bs := regexBullets jsonStr
          if bs ≠ [] then some ⟨bs, []⟩ else none
  match fromJson with
  | some r => Except.ok r
  | none =>
    let lb := lineBullets text
    if lb ≠ [] then Except.ok ⟨lb, []⟩
    else
      let sb := sentenceBullets text
      if sb ≠ [] then Except.ok ⟨sb, []⟩
      else Except.error "Could not parse AI response"

/-- String-level entry point of the normalizer. -/
def parseAIResponse (text : String) : Except String SummaryOut :=
  parseAIResponseL text.toList

/-- Stage one viewed on its own: strict parse of the brace span. -/
def stageDirect (text : String) : Option SummaryOut :=
  (braceSpanL text.toList).bind tryBullets

/-- Stage two viewed on its own: parse of the repaired brace span. -/
def stageRepair (text : String) : Option SummaryOut :=
  (braceSpanL text.toList).bind (fun s => tryBullets (fixJsonStr s))

/-- Stage three viewed on its own: quoted-run bullets of the brace span. -/
def stageRegex (text : String) : List String :=
  match braceSpanL text.toList with
  | some s => regexBullets s
  | none => []

/-! ### Basic lemmas about trimming and the per-stage bullet shapes -/

theorem toList_mk (l : List Char) : (String.mk l).toList = l := rfl

theorem mk_ne_empty_iff (l : List Char) : String.mk l ≠ "" ↔ l ≠ [] := by
  constructor
  · intro h hl
    exact h (by rw [hl])
  · intro h hm
    exact h (congrArg String.toList hm)

theorem dropWhile_idem (p : Char → Bool) (l : List Char) :
    (l.dropWhile p).dropWhile p = l.dropWhile p := by
  induction l with
  | nil => rfl
  | cons c t ih =>
    cases h : p c <;> simp [List.dropWhile_cons, h, ih]

theorem not_p_head_dropWhile (p : Char → Bool) :
    ∀ (l : List Char) (c : Char) (t : List Char),
      l.dropWhile p = c :: t → p c = false := by
  intro l
  induction l with
  | nil => intro c t h; simp [List.dropWhile] at h
  | cons a l ih =>
    intro c t h
    cases hp : p a
    · rw [List.dropWhile_cons, hp] at h
      simp at h
      obtain ⟨h1, _⟩ := h
      rw [← h1]; exact hp
    · rw [List.dropWhile_cons, hp] at h
      simp at h
      exact ih _ _ h

theorem jsTrimL_idem (l : List Char) : jsTrimL (jsTrimL l) = jsTrimL l := by
  have hsplit : List.takeWhile jsWhitespace (l.dropWhile jsWhitespace).reverse ++
      (l.dropWhile jsWhitespace).reverse.dropWhile jsWhitespace =
      (l.dropWhile jsWhitespace).reverse :=
    List.takeWhile_append_dropWhile _ _
  have hAeq : l.dropWhile jsWhitespace =
      ((l.dropWhile jsWhitespace).reverse.dropWhile jsWhitespace).reverse ++
      (List.takeWhile jsWhitespace (l.dropWhile jsWhitespace).reverse).reverse := by
    have h2 := congrArg List.reverse hsplit
    rw [List.reverse_append, List.reverse_reverse] at h2
    exact h2.symm
  have step1 :
      ((l.dropWhile jsWhitespace).reverse.dropWhile jsWhitespace).reverse.dropWhile
        jsWhitespace =
      ((l.dropWhile jsWhitespace).reverse.dropWhile jsWhitespace).reverse := by
    generalize hT :
      (List.takeWhile jsWhitespace (l.dropWhile jsWhitespace).reverse).reverse = T at hAeq
    cases hB : ((l.dropWhile jsWhitespace).reverse.dropWhile jsWhitespace).reverse with
    | nil => rfl
    | cons c t =>
      have hcw : jsWhitespace c = false := by
        apply not_p_head_dropWhile jsWhitespace l c (t ++ T)
        rw [hAeq, hB, List.cons_append]
      rw [List.dropWhile_cons, hcw]
      simp
  unfold jsTrimL
  rw [step1, List.reverse_reverse, dropWhile_idem]

theorem jsTrim_mk (l : List Char) : jsTrim (String.mk l) = String.mk (jsTrimL l) := rfl

theorem jsTrim_idem (s : String) : jsTrim (jsTrim s) = jsTrim s := by
  show jsTrim (String.mk (jsTrimL s.toList)) = String.mk (jsTrimL s.toList)
  rw [jsTrim_mk, jsTrimL_idem]

theorem lineTerm_ws (c : Char) (h : lineTerm c = true) : jsWhitespace c = true := by
  simp only [lineTerm, Bool.or_eq_true, decide_eq_true_eq] at h
  simp only [jsWhitespace, Bool.or_eq_true, Bool.and_eq_true, decide_eq_true_eq]
  tauto

theorem jsTrimL_ne_nil_of_not_ws (l : List Char) (c : Char)
    (hc : c ∈ l) (hw : jsWhitespace c = false) : jsTrimL l ≠ [] := by
  intro h
  unfold jsTrimL at h
  have h2 : (l.dropWhile jsWhitespace).reverse.dropWhile jsWhitespace = [] := by
    have := congrArg List.reverse h
    simpa using this
  rw [List.dropWhile_eq_nil_iff] at h2
  have hcmem : c ∈ l.dropWhile jsWhitespace := by
    have hsplit : l.takeWhile jsWhitespace ++ l.dropWhile jsWhitespace = l :=
      List.takeWhile_append_dropWhile _ _
    rw [← hsplit] at hc
    rcases List.mem_append.mp hc with hmem | hmem
    · exact absurd (List.mem_takeWhile_imp hmem) (by simp [hw])
    · exact hmem
  have := h2 c (by simpa using hcmem)
  rw [hw] at this
  exact absurd this (by simp)

theorem mem_cleanBullets (bs : List JsValue) (b : String)
    (h : b ∈ cleanBullets bs) : jsTrim b = b ∧ b ≠ "" := by
  unfold cleanBullets at h
  rw [List.mem_filter] at h
  obtain ⟨hm, hne⟩ := h
  rw [List.mem_map] at hm
  obtain ⟨v, _, hv⟩ := hm
  have hne' : b ≠ "" := by simpa using hne
  refine ⟨?_, hne'⟩
  cases v with
  | jstr s => rw [← hv]; show jsTrim (jsTrim s) = jsTrim s; exact jsTrim_idem s
  | jnull => exact absurd hv.symm hne'
  | jbool _ => exact absurd hv.symm hne'
  | jnum _ => exact absurd hv.symm hne'
  | jarr _ => exact absurd hv.symm hne'
  | jobj _ => exact absurd hv.symm hne'

theorem mem_regexBullets (l : List Char) (b : String)
    (h : b ∈ regexBullets l) : jsTrim b = b := by
  unfold regexBullets at h
  rw [List.mem_filterMap] at h
  obtain ⟨inner, _, hb⟩ := h
  simp only at hb
  split at hb
  · cases hb
    rw [jsTrim_mk, jsTrimL_idem]
  · exact absurd hb (by simp)

theorem capture_not_all_ws (rest cap : List Char)
    (hcap : captureRest rest = some cap) (hlen : cap.length > 10) :
    jsTrimL cap ≠ [] := by
  unfold captureRest at hcap
  simp only at hcap
  cases htail : rest.dropWhile jsWhitespace with
  | nil =>
    rw [htail] at hcap
    cases hbt : (rest.takeWhile jsWhitespace).reverse.dropWhile lineTerm with
    | nil => rw [hbt] at hcap; exact absurd hcap (by simp)
    | cons x xs =>
      rw [hbt] at hcap
      simp only [Option.some.injEq] at hcap
      rw [← hcap] at hlen
      simp at hlen
  | cons c t =>
    rw [htail] at hcap
    simp only [Option.some.injEq] at hcap
    have hcw : jsWhitespace c = false :=
      not_p_head_dropWhile jsWhitespace rest c t htail
    have hclt : lineTerm c = false := by
      cases hl : lineTerm c
      · rfl
      · exact absurd (lineTerm_ws c hl) (by simp [hcw])
    have hcm : c ∈ cap := by
      rw [← hcap, List.takeWhile_cons]
      simp [hclt]
    exact jsTrimL_ne_nil_of_not_ws _ c hcm hcw

theorem mem_lineBullets (l : List Char) (b : String)
    (h : b ∈ lineBullets l) : jsTrim b = b ∧ b ≠ "" := by
  unfold lineBullets at h
  rw [List.mem_filterMap] at h
  obtain ⟨line, _, hb⟩ := h
  split at hb
  next rest _ =>
    split at hb
    next cap hcap =>
      split at hb
      next hlen =>
        simp only [Option.some.injEq] at hb
        rw [← hb]
        constructor
        · rw [jsTrim_mk, jsTrimL_idem]
        · rw [mk_ne_empty_iff]
          exact capture_not_all_ws rest cap hcap hlen
      next => exact absurd hb (by simp)
    next => exact absurd hb (by simp)
  next => exact absurd hb (by simp)

theorem mem_sentenceBullets (l : List Char) (b : String)
    (h : b ∈ sentenceBullets l) : jsTrim b = b ∧ b ≠ "" := by
  unfold sentenceBullets at h
  rw [List.mem_map] at h
  obtain ⟨s, hs, hb⟩ := h
  have hs2 : s ∈ (splitSentGo l [] false).filter
      (fun s => (jsTrimL s).length > 20) := List.mem_of_mem_take hs
  rw [List.mem_filter] at hs2
  have hlen : (jsTrimL s).length > 20 := by simpa using hs2.2
  constructor
  · rw [← hb, jsTrim_mk, jsTrimL_idem]
  · rw [← hb, mk_ne_empty_iff]
    intro hnil
    rw [hnil] at hlen
    simp at hlen

theorem cleanBullets_filterMap (bs : List JsValue) :
    cleanBullets bs = bs.filterMap (fun v =>
      match v with
      | JsValue.jstr t => if jsTrim t = "" then none else some (jsTrim t)
      | _ => none) := by
  induction bs with
  | nil => rfl
  | cons v t ih =>
    cases v with
    | jstr s =>
      by_cases hs : jsTrim s = "" <;>
        simp [cleanBullets, bulletToStr, hs, List.filter_cons] at ih ⊢ <;>
        exact ih
    | jnull => simpa [cleanBullets, bulletToStr, List.filter_cons] using ih
    | jbool b => simpa [cleanBullets, bulletToStr, List.filter_cons] using ih
    | jnum n => simpa [cleanBullets, bulletToStr, List.filter_cons] using ih
    | jarr a => simpa [cleanBullets, bulletToStr, List.filter_cons] using ih
    | jobj o => simpa [cleanBullets, bulletToStr, List.filter_cons] using ih

theorem tryBullets_shape (s : List Char) (r : SummaryOut)
    (h : tryBullets s = some r) :
    ∃ fs bs, jsonParseL s = some (JsValue.jobj fs) ∧
      lookupF fs "bullets" = some (JsValue.jarr bs) ∧
      r = ⟨cleanBullets bs, otherFields fs⟩ := by
  unfold tryBullets at h
  split at h
  next fs hp =>
    split at h
    next bs hf =>
      simp only [Option.some.injEq] at h
      exact ⟨fs, bs, hp, hf, h.symm⟩
    next => exact absurd h (by simp)
  next => exact absurd h (by simp)

/-! ### Claim C1 -/

/-- C1: for every input string whose first brace-delimited span (the
greedy brace match) parses as a JSON object with an array-valued
`bullets` field, `parseAIResponse` returns that object with its bullets
replaced by exactly the trimmed, non-empty string elements in original
order, non-string elements being mapped to the empty string and
dropped. -/
theorem C1_normalize_wellformed (text s : String) (fs : List (String × JsValue))
    (bs : List JsValue)
    (hspan : braceSpan text = some s)
    (hparse : jsonParse s = some (JsValue.jobj fs))
    (hfield : lookupF fs "bullets" = some (JsValue.jarr bs)) :
    parseAIResponse text = Except.ok ⟨cleanBullets bs, otherFields fs⟩ ∧
    cleanBullets bs = bs.filterMap (fun v =>
      match v with
      | JsValue.jstr t => if jsTrim t = "" then none else some (jsTrim t)
      | _ => none) := by
  refine ⟨?_, cleanBullets_filterMap bs⟩
  unfold braceSpan at hspan
  cases hbl : braceSpanL text.toList with
  | none => rw [hbl] at hspan; exact absurd hspan (by simp)
  | some sl =>
    rw [hbl] at hspan
    simp only [Option.map_some', Option.some.injEq] at hspan
    have hsl : s.toList = sl := by rw [← hspan]; rfl
    have hparseL : jsonParseL sl = some (JsValue.jobj fs) := by
      unfold jsonParse at hparse
      rw [hsl] at hparse
      exact hparse
    have htb : tryBullets sl = some ⟨cleanBullets bs, otherFields fs⟩ := by
      unfold tryBullets
      rw [hparseL]
      simp [hfield]
    unfold parseAIResponse parseAIResponseL
    rw [hbl]
    simp [htb]

/-- Concrete input for the witness of C1 (the spec's end-to-end
example). -/
def c1ex : String := "\x7b\"bullets\": [\"a\", \"\", \"  b  \", 5]\x7d"

/-- The fields of the parsed C1 example object. -/
def c1fs : List (String × JsValue) :=
  [("bullets", JsValue.jarr
    [JsValue.jstr "a", JsValue.jstr "", JsValue.jstr "  b  ", JsValue.jnum "5"])]

/-- The bullets array of the parsed C1 example object. -/
def c1bs : List JsValue :=
  [JsValue.jstr "a", JsValue.jstr "", JsValue.jstr "  b  ", JsValue.jnum "5"]

/-- Witness for C1 at the spec's example: the hypotheses hold for the
raw text and the normalizer yields exactly the bullet list of `a` and
`b`. -/
theorem C1_normalize_wellformed_witness :
    (braceSpan c1ex = some c1ex ∧
     jsonParse c1ex = some (JsValue.jobj c1fs) ∧
     lookupF c1fs "bullets" = some (JsValue.jarr c1bs)) ∧
    (parseAIResponse c1ex = Except.ok ⟨cleanBullets c1bs, otherFields c1fs⟩ ∧
     cleanBullets c1bs = c1bs.filterMap (fun v =>
      match v with
      | JsValue.jstr t => if jsTrim t = "" then none else some (jsTrim t)
      | _ => none)) ∧
    cleanBullets c1bs = ["a", "b"] :=
  ⟨⟨rfl, rfl, rfl⟩, C1_normalize_wellformed c1ex c1ex c1fs c1bs rfl rfl rfl, rfl⟩

/-! ### Claim C2 -/

/-- C2 counterexample: on the input consisting of a brace span holding a
single quoted run of twenty spaces, both JSON parse attempts fail and
the quoted-run extraction stage returns a bullets list containing the
empty string — so a returned `SummaryOut` can contain an empty
(whitespace-only) bullet, contrary to the claimed invariant. -/
theorem C2_counterexample :
    parseAIResponse "\x7b\"                    \"\x7d" =
      Except.ok ⟨[""], []⟩ ∧ "" ∈ ([""] : List String) :=
  ⟨rfl, by simp⟩

/-- C2 as amended: every bullet in a returned result is trimmed; the
parsed object's other fields (which may include an `error` field) are
carried through only by the two JSON-parse stages; and an empty bullet
can arise only from the quoted-run extraction stage, whose output the
result then equals. -/
theorem C2_amended (text : String) (r : SummaryOut)
    (h : parseAIResponse text = Except.ok r) :
    (∀ b ∈ r.bullets, jsTrim b = b) ∧
    (r.fields ≠ [] → stageDirect text = some r ∨ stageRepair text = some r) ∧
    ("" ∈ r.bullets →
      stageDirect text = none ∧ stageRepair text = none ∧
      r.bullets = stageRegex text) := by
  unfold parseAIResponse parseAIResponseL at h
  cases hbl : braceSpanL text.toList with
  | none =>
    rw [hbl] at h
    simp only at h
    split at h
    next hlb =>
      simp only [Except.ok.injEq] at h
      rw [← h]
      refine ⟨?_, ?_, ?_⟩
      · intro b hb
        exact (mem_lineBullets text.toList b hb).1
      · intro hf
        exact absurd rfl hf
      · intro hmem
        exact absurd rfl (mem_lineBullets text.toList "" hmem).2
    next hlb =>
      split at h
      next hsb =>
        simp only [Except.ok.injEq] at h
        rw [← h]
        refine ⟨?_, ?_, ?_⟩
        · intro b hb
          exact (mem_sentenceBullets text.toList b hb).1
        · intro hf
          exact absurd rfl hf
        · intro hmem
          exact absurd rfl (mem_sentenceBullets text.toList "" hmem).2
      next => exact absurd h (by simp)
  | some sl =>
    rw [hbl] at h
    simp only at h
    cases htb : tryBullets sl with
    | some r0 =>
      rw [htb] at h
      simp only [Except.ok.injEq] at h
      obtain ⟨fs, bs, _, _, hr0⟩ := tryBullets_shape sl r0 htb
      have hdir : stageDirect text = some r := by
        unfold stageDirect
        rw [hbl]
        simp [htb, h]
      refine ⟨?_, ?_, ?_⟩
      · intro b hb
        rw [← h, hr0] at hb
        exact (mem_cleanBullets bs b hb).1
      · intro _
        exact Or.inl hdir
      · intro hmem
        rw [← h, hr0] at hmem
        exact absurd rfl (mem_cleanBullets bs "" hmem).2
    | none =>
      rw [htb] at h
      cases htb2 : tryBullets (fixJsonStr sl) with
      | some r0 =>
        rw [htb2] at h
        simp only [Except.ok.injEq] at h
        obtain ⟨fs, bs, _, _, hr0⟩ := tryBullets_shape _ r0 htb2
        have hrep : stageRepair text = some r := by
          unfold stageRepair
          rw [hbl]
          simp [htb2, h]
        refine ⟨?_, ?_, ?_⟩
        · intro b hb
          rw [← h, hr0] at hb
          exact (mem_cleanBullets bs b hb).1
        · intro _
          exact Or.inr hrep
        · intro hmem
          rw [← h, hr0] at hmem
          exact absurd rfl (mem_cleanBullets bs "" hmem).2
      | none =>
        rw [htb2] at h
        by_cases hrb : regexBullets sl = []
        · rw [if_neg (fun hc => hc hrb)] at h
          simp only at h
          split at h
          next hlb =>
            simp only [Except.ok.injEq] at h
            rw [← h]
            refine ⟨?_, ?_, ?_⟩
            · intro b hb
              exact (mem_lineBullets text.toList b hb).1
            · intro hf
              exact absurd rfl hf
            · intro hmem
              exact absurd rfl (mem_lineBullets text.toList "" hmem).2
          next hlb =>
            split at h
            next hsb =>
              simp only [Except.ok.injEq] at h
              rw [← h]
              refine ⟨?_, ?_, ?_⟩
              · intro b hb
                exact (mem_sentenceBullets text.toList b hb).1
              · intro hf
                exact absurd rfl hf
              · intro hmem
                exact absurd rfl (mem_sentenceBullets text.toList "" hmem).2
            next => exact absurd h (by simp)
        · rw [if_pos hrb] at h
          simp only [Except.ok.injEq] at h
          refine ⟨?_, ?_, ?_⟩
          · intro b hb
            rw [← h] at hb
            exact mem_regexBullets sl b hb
          · intro hf
            rw [← h] at hf
            exact absurd rfl hf
          · intro _
            refine ⟨?_, ?_, ?_⟩
            · unfold stageDirect
              rw [hbl]
              simp [htb]
            · unfold stageRepair
              rw [hbl]
              simp [htb2]
            · unfold stageRegex
              rw [hbl, ← h]

/-- Concrete input for the C2 amended witness: well-formed JSON carrying
both a `bullets` and an `error` field. -/
def c2wit : String := "\x7b\"bullets\": [\"hello\"], \"error\": \"boom\"\x7d"

/-- The result the normalizer returns on `c2wit`. -/
def c2witOut : SummaryOut := ⟨["hello"], [("error", JsValue.jstr "boom")]⟩

/-- Witness for the amended C2 at a concrete input on which the
normalizer passes an `error` field through next to `bullets`. -/
theorem C2_amended_witness :
    parseAIResponse c2wit = Except.ok c2witOut ∧
    ((∀ b ∈ c2witOut.bullets, jsTrim b = b) ∧
     (c2witOut.fields ≠ [] →
       stageDirect c2wit = some c2witOut ∨ stageRepair c2wit = some c2witOut) ∧
     ("" ∈ c2witOut.bullets →
       stageDirect c2wit = none ∧ stageRepair c2wit = none ∧
       c2witOut.bullets = stageRegex c2wit)) :=
  ⟨rfl, C2_amended c2wit c2witOut rfl⟩

/-! ### Claim C3 -/

/-- C3 counterexample: the input whose brace span is a JSON object with
an empty `bullets` array parses successfully at stage one, which returns
it even though zero bullets were produced — so the normalizer can
return a result whose bullets list is empty instead of failing, and a
stage is not re-attempted only on producing at least one bullet. -/
theorem C3_counterexample :
    parseAIResponse "\x7b\"bullets\": []\x7d" = Except.ok ⟨[], []⟩ := rfl

/-- C3 as amended: the normalizer throws its parse failure exactly when
no stage produces a result at all — both JSON-parse stages decline
(which, unlike the claim, happens only when parsing fails or no
array-valued `bullets` field exists, not when the cleaned list is
empty), the quoted-run stage finds no candidate, and the line and
sentence stages find no bullets. -/
theorem C3_amended (text : String) :
    (∃ e, parseAIResponse text = Except.error e) ↔
      (stageDirect text = none ∧ stageRepair text = none ∧ stageRegex text = [] ∧
       lineBullets text.toList = [] ∧ sentenceBullets text.toList = []) := by
  unfold parseAIResponse parseAIResponseL stageDirect stageRepair stageRegex
  cases hbl : braceSpanL text.toList with
  | none =>
    by_cases hlb : lineBullets text.data = []
    · by_cases hsb : sentenceBullets text.data = []
      · simp [hbl, hlb, hsb]
      · simp [hbl, hlb, hsb]
    · simp [hbl, hlb]
  | some sl =>
    cases htb : tryBullets sl with
    | some r0 => simp [hbl, htb]
    | none =>
      cases htb2 : tryBullets (fixJsonStr sl) with
      | some r0 => simp [hbl, htb, htb2]
      | none =>
        by_cases hrb : regexBullets sl = []
        · by_cases hlb : lineBullets text.data = []
          · by_cases hsb : sentenceBullets text.data = []
            · simp [hbl, htb, htb2, hrb, hlb, hsb]
            · simp [hbl, htb, htb2, hrb, hlb, hsb]
          · simp [hbl, htb, htb2, hrb, hlb]
        · simp [hbl, htb, htb2, hrb]

/-! ### Claim C4: rendered bullet objects and the repair pass -/

/-- A bullet character that the repair pass cannot disturb: not a quote
or backslash (so string parsing is literal), not a control character,
not a closing bracket or brace (so the trailing-comma rewrites and the
lazy bracket-body search cannot fire inside it), and whitespace only as
a plain space. -/
def plainCharB (c : Char) : Bool :=
  (c ≠ '"' : Bool) && (c ≠ '\\' : Bool) && (0x20 ≤ c.toNat : Bool) &&
  (c.toNat ≠ 0x7F : Bool) && (c ≠ ']' : Bool) && (c ≠ cbrace : Bool) &&
  (!(jsWhitespace c) || (c = ' ' : Bool))

/-- No two adjacent whitespace characters (so the whitespace-collapsing
rewrite is the identity on the bullet). -/
def noTwoSpaces : List Char → Bool
  | c1 :: c2 :: t => (!(jsWhitespace c1 && jsWhitespace c2)) && noTwoSpaces (c2 :: t)
  | _ => true

/-- A bullet the repair pass leaves intact. -/
def plainBullet (b : List Char) : Bool :=
  b.all plainCharB && noTwoSpaces b

/-- A JSON string literal for a bullet. -/
def quoteWrap (b : List Char) : List Char :=
  '"' :: b ++ ['"']

/-- The comma-separated bullet literals. -/
def renderItemsL : List (List Char) → List Char
  | [] => []
  | [b] => quoteWrap b
  | b :: t => quoteWrap b ++ ',' :: renderItemsL t

/-- The characters of the rendered object up to the opening bracket of
the bullets array. -/
def renderHead : List Char :=
  [obrace, '"', 'b', 'u', 'l', 'l', 'e', 't', 's', '"', ':', '[']

/-- The well-formed rendering of a bullets object. -/
def renderL (lbs : List (List Char)) : List Char :=
  renderHead ++ renderItemsL lbs ++ [']', cbrace]

/-- The rendering with a trailing comma before the closing bracket. -/
def renderTCL (lbs : List (List Char)) : List Char :=
  renderHead ++ renderItemsL lbs ++ [',', ']', cbrace]

/-- String-level well-formed rendering. -/
def render (bs : List String) : String :=
  String.mk (renderL (bs.map String.toList))

/-- String-level trailing-comma rendering. -/
def renderTC (bs : List String) : String :=
  String.mk (renderTCL (bs.map String.toList))

/-- The parsed values of the bullets array. -/
def bulletVals (lbs : List (List Char)) : List JsValue :=
  lbs.map (fun b => JsValue.jstr (String.mk b))

theorem plainChar_spec (c : Char) (h : plainCharB c = true) :
    c ≠ '"' ∧ c ≠ '\\' ∧ ¬(c.toNat < 0x20) ∧ c.toNat ≠ 0x7F ∧ c ≠ ']' ∧
    c ≠ cbrace ∧ (jsWhitespace c = true → c = ' ') ∧ ctrlChar c = false ∧
    c ≠ '\n' := by
  simp only [plainCharB, Bool.and_eq_true, Bool.or_eq_true, Bool.not_eq_true',
    decide_eq_true_eq] at h
  obtain ⟨⟨⟨⟨⟨⟨h1, h2⟩, h3⟩, h4⟩, h5⟩, h6⟩, h7⟩ := h
  have hws : jsWhitespace c = true → c = ' ' := by
    intro hw
    rcases h7 with h7 | h7
    · rw [hw] at h7; cases h7
    · exact h7
  refine ⟨h1, h2, by omega, h4, h5, h6, hws, ?_, ?_⟩
  · simp only [ctrlChar, Bool.or_eq_false_iff]
    constructor
    · simp only [decide_eq_false_iff_not]
      omega
    · simp only [decide_eq_false_iff_not]
      exact h4
  · intro hn
    have : c = ' ' := hws (by rw [hn]; rfl)
    rw [hn] at this
    cases this

theorem mem_renderItems (lbs : List (List Char)) (c : Char)
    (h : c ∈ renderItemsL lbs) :
    c = '"' ∨ c = ',' ∨ ∃ b ∈ lbs, c ∈ b := by
  induction lbs with
  | nil => simp [renderItemsL] at h
  | cons b t ih =>
    cases t with
    | nil =>
      simp only [renderItemsL, quoteWrap] at h
      rcases List.mem_cons.mp h with h | h
      · exact Or.inl h
      · rcases List.mem_append.mp h with h | h
        · exact Or.inr (Or.inr ⟨b, by simp, h⟩)
        · simp at h
          exact Or.inl h
    | cons b2 t2 =>
      simp only [renderItemsL, quoteWrap] at h
      rcases List.mem_append.mp h with h | h
      · rcases List.mem_cons.mp h with h | h
        · exact Or.inl h
        · rcases List.mem_append.mp h with h | h
          · exact Or.inr (Or.inr ⟨b, by simp, h⟩)
          · simp at h
            exact Or.inl h
      · rcases List.mem_cons.mp h with h | h
        · exact Or.inr (Or.inl h)
        · rcases ih h with h | h | ⟨b3, hb3, hc⟩
          · exact Or.inl h
          · exact Or.inr (Or.inl h)
          · exact Or.inr (Or.inr ⟨b3, by simp [hb3], hc⟩)

theorem renderItems_len (lbs : List (List Char)) :
    lbs.length ≤ (renderItemsL lbs).length := by
  induction lbs with
  | nil => simp [renderItemsL]
  | cons b t ih =>
    cases t with
    | nil => simp [renderItemsL, quoteWrap]
    | cons b2 t2 =>
      show (b :: b2 :: t2).length ≤ (quoteWrap b ++ ',' :: renderItemsL (b2 :: t2)).length
      simp only [List.length_cons] at ih
      simp only [List.length_cons, List.length_append, quoteWrap, List.length_cons]
      omega

theorem parseStrBody_plain (b : List Char) :
    ∀ (fuel : Nat) (rest : List Char),
      b.length + 1 ≤ fuel → (∀ c ∈ b, plainCharB c = true) →
      parseStrBody fuel (b ++ '"' :: rest) = some (b, rest) := by
  induction b with
  | nil =>
    intro fuel rest hf _
    cases fuel with
    | zero => omega
    | succ f => simp [parseStrBody]
  | cons c t ih =>
    intro fuel rest hf hp
    cases fuel with
    | zero => omega
    | succ f =>
      obtain ⟨h1, h2, h3, _⟩ := plainChar_spec c (hp c (by simp))
      show parseStrBody (f + 1) (c :: (t ++ '"' :: rest)) = _
      simp only [parseStrBody, h1, h3, if_neg, ite_false]
      rw [if_neg h2]
      rw [ih f rest (by simp at hf; omega) (fun c2 hc2 => hp c2 (by simp [hc2]))]
      rfl

theorem skipWs_quote (l : List Char) : skipWs ('"' :: l) = '"' :: l := by
  simp [skipWs, List.dropWhile_cons, jsonWs]

theorem jparse_str (b : List Char) (rest : List Char) (fuel : Nat)
    (hf : 1 ≤ fuel) (hp : ∀ c ∈ b, plainCharB c = true) :
    jparse fuel ('"' :: (b ++ '"' :: rest)) =
      some (JsValue.jstr (String.mk b), rest) := by
  cases fuel with
  | zero => omega
  | succ f =>
    simp only [jparse, skipWs_quote, if_true]
    rw [parseStrBody_plain b ((b ++ '"' :: rest).length + 1) rest
      (by simp [List.length_append]) hp]
    rfl

theorem jparse_at_close (fuel : Nat) (rest : List Char) :
    jparse fuel (']' :: rest) = none := by
  cases fuel with
  | zero => rfl
  | succ f =>
    simp [jparse, skipWs, List.dropWhile_cons, jsonWs, parseNumLex, obrace]

theorem jarrLoop_at_close (fuel : Nat) (acc : List JsValue) (rest : List Char) :
    jarrLoop fuel (']' :: rest) acc = none := by
  cases fuel with
  | zero => rfl
  | succ f => simp [jarrLoop, jparse_at_close]

theorem jarrLoop_ok (lbs : List (List Char)) :
    ∀ (fuel : Nat) (acc : List JsValue) (rest : List Char),
      lbs.length + 1 ≤ fuel → lbs ≠ [] →
      (∀ b ∈ lbs, ∀ c ∈ b, plainCharB c = true) →
      jarrLoop fuel (renderItemsL lbs ++ ']' :: rest) acc =
        some (JsValue.jarr (acc.reverse ++ bulletVals lbs), rest) := by
  induction lbs with
  | nil => intro _ _ _ _ hne _; exact absurd rfl hne
  | cons b t ih =>
    intro fuel acc rest hf _ hp
    cases fuel with
    | zero => omega
    | succ f =>
      cases t with
      | nil =>
        rw [show renderItemsL [b] ++ ']' :: rest =
          '"' :: (b ++ '"' :: (']' :: rest)) from by
            simp [renderItemsL, quoteWrap]]
        simp only [jarrLoop]
        rw [jparse_str b (']' :: rest) f (by simp at hf; omega)
          (fun c hc => hp b (by simp) c hc)]
        simp [skipWs, List.dropWhile_cons, jsonWs, bulletVals]
      | cons b2 t2 =>
        rw [show renderItemsL (b :: b2 :: t2) ++ ']' :: rest =
          '"' :: (b ++ '"' :: (',' :: (renderItemsL (b2 :: t2) ++ ']' :: rest))) from by
            simp [renderItemsL, quoteWrap]]
        simp only [jarrLoop]
        rw [jparse_str b (',' :: (renderItemsL (b2 :: t2) ++ ']' :: rest)) f
          (by simp at hf; omega) (fun c hc => hp b (by simp) c hc)]
        have hsw : skipWs (',' :: (renderItemsL (b2 :: t2) ++ ']' :: rest)) =
            ',' :: (renderItemsL (b2 :: t2) ++ ']' :: rest) := by
          simp [skipWs, List.dropWhile_cons, jsonWs]
        simp only [hsw]
        rw [ih f (JsValue.jstr (String.mk b) :: acc) rest (by simp at hf ⊢; omega)
          (by simp) (fun b3 hb3 c hc => hp b3 (by simp [hb3]) c hc)]
        simp [bulletVals]

theorem jarrLoop_tc (lbs : List (List Char)) :
    ∀ (fuel : Nat) (acc : List JsValue) (rest : List Char),
      lbs.length + 1 ≤ fuel → lbs ≠ [] →
      (∀ b ∈ lbs, ∀ c ∈ b, plainCharB c = true) →
      jarrLoop fuel (renderItemsL lbs ++ ',' :: ']' :: rest) acc = none := by
  induction lbs with
  | nil => intro _ _ _ _ hne _; exact absurd rfl hne
  | cons b t ih =>
    intro fuel acc rest hf _ hp
    cases fuel with
    | zero => omega
    | succ f =>
      cases t with
      | nil =>
        rw [show renderItemsL [b] ++ ',' :: ']' :: rest =
          '"' :: (b ++ '"' :: (',' :: ']' :: rest)) from by
            simp [renderItemsL, quoteWrap]]
        simp only [jarrLoop]
        rw [jparse_str b (',' :: ']' :: rest) f (by simp at hf; omega)
          (fun c hc => hp b (by simp) c hc)]
        have hsw : skipWs (',' :: ']' :: rest) = ',' :: ']' :: rest := by
          simp [skipWs, List.dropWhile_cons, jsonWs]
        simp only [hsw]
        simp [jarrLoop_at_close]
      | cons b2 t2 =>
        rw [show renderItemsL (b :: b2 :: t2) ++ ',' :: ']' :: rest =
          '"' :: (b ++ '"' :: (',' :: (renderItemsL (b2 :: t2) ++ ',' :: ']' :: rest))) from by
            simp [renderItemsL, quoteWrap]]
        simp only [jarrLoop]
        rw [jparse_str b (',' :: (renderItemsL (b2 :: t2) ++ ',' :: ']' :: rest)) f
          (by simp at hf; omega) (fun c hc => hp b (by simp) c hc)]
        have hsw : skipWs (',' :: (renderItemsL (b2 :: t2) ++ ',' :: ']' :: rest)) =
            ',' :: (renderItemsL (b2 :: t2) ++ ',' :: ']' :: rest) := by
          simp [skipWs, List.dropWhile_cons, jsonWs]
        simp only [hsw]
        rw [ih f (JsValue.jstr (String.mk b) :: acc) rest (by simp at hf ⊢; omega)
          (by simp) (fun b3 hb3 c hc => hp b3 (by simp [hb3]) c hc)]

theorem jparse_obrace (fuel : Nat) (l : List Char) :
    jparse (fuel + 1) (obrace :: l) = jobjStart fuel l := by
  simp [jparse, skipWs, List.dropWhile_cons, jsonWs, obrace]

theorem jobjStart_quote (fuel : Nat) (l : List Char) :
    jobjStart (fuel + 1) ('"' :: l) = jobjLoop fuel ('"' :: l) [] := by
  simp [jobjStart, skipWs, List.dropWhile_cons, jsonWs, cbrace]

theorem jparse_bracket (fuel : Nat) (l : List Char) :
    jparse (fuel + 1) ('[' :: l) = jarrStart fuel l := by
  simp [jparse, skipWs, List.dropWhile_cons, jsonWs, obrace]

theorem jarrStart_items (fuel : Nat) (lbs : List (List Char)) (rest : List Char)
    (hne : lbs ≠ []) :
    jarrStart (fuel + 1) (renderItemsL lbs ++ rest) =
      jarrLoop fuel (renderItemsL lbs ++ rest) [] := by
  cases lbs with
  | nil => exact absurd rfl hne
  | cons b t =>
    cases t <;>
      simp [renderItemsL, quoteWrap, jarrStart, skipWs, List.dropWhile_cons, jsonWs]

theorem jparse_render_ok (lbs : List (List Char)) (fuel : Nat)
    (hf : lbs.length + 6 ≤ fuel) (hne : lbs ≠ [])
    (hp : ∀ b ∈ lbs, ∀ c ∈ b, plainCharB c = true) :
    jparse fuel (renderL lbs) =
      some (JsValue.jobj [("bullets", JsValue.jarr (bulletVals lbs))], []) := by
  cases fuel with
  | zero => omega
  | succ f1 =>
  cases f1 with
  | zero => omega
  | succ f2 =>
  cases f2 with
  | zero => omega
  | succ f3 =>
  cases f3 with
  | zero => omega
  | succ f4 =>
  cases f4 with
  | zero => omega
  | succ f =>
  show jparse (f + 1 + 1 + 1 + 1 + 1)
    (obrace :: ('"' :: (['b', 'u', 'l', 'l', 'e', 't', 's'] ++
      '"' :: (':' :: ('[' :: (renderItemsL lbs ++ ']' :: [cbrace])))))) = _
  rw [jparse_obrace, jobjStart_quote]
  simp only [jobjLoop, skipWs_quote]
  rw [parseStrBody_plain ['b', 'u', 'l', 'l', 'e', 't', 's'] _ _
    (by simp [List.length_append]) (by decide)]
  have hsw : skipWs (':' :: ('[' :: (renderItemsL lbs ++ ']' :: [cbrace]))) =
      ':' :: ('[' :: (renderItemsL lbs ++ ']' :: [cbrace])) := by
    simp [skipWs, List.dropWhile_cons, jsonWs]
  simp only [hsw]
  rw [jparse_bracket, jarrStart_items _ _ _ hne]
  rw [jarrLoop_ok lbs f [] [cbrace] (by simp at hf; omega) hne hp]
  simp [insertField, skipWs, List.dropWhile_cons, jsonWs, cbrace]

theorem jparse_renderTC_none (lbs : List (List Char)) (fuel : Nat)
    (hf : lbs.length + 6 ≤ fuel) (hne : lbs ≠ [])
    (hp : ∀ b ∈ lbs, ∀ c ∈ b, plainCharB c = true) :
    jparse fuel (renderTCL lbs) = none := by
  cases fuel with
  | zero => omega
  | succ f1 =>
  cases f1 with
  | zero => omega
  | succ f2 =>
  cases f2 with
  | zero => omega
  | succ f3 =>
  cases f3 with
  | zero => omega
  | succ f4 =>
  cases f4 with
  | zero => omega
  | succ f =>
  show jparse (f + 1 + 1 + 1 + 1 + 1)
    (obrace :: ('"' :: (['b', 'u', 'l', 'l', 'e', 't', 's'] ++
      '"' :: (':' :: ('[' :: (renderItemsL lbs ++ ',' :: ']' :: [cbrace])))))) = none
  rw [jparse_obrace, jobjStart_quote]
  simp only [jobjLoop, skipWs_quote]
  rw [parseStrBody_plain ['b', 'u', 'l', 'l', 'e', 't', 's'] _ _
    (by simp [List.length_append]) (by decide)]
  have hsw : skipWs (':' :: ('[' :: (renderItemsL lbs ++ ',' :: ']' :: [cbrace]))) =
      ':' :: ('[' :: (renderItemsL lbs ++ ',' :: ']' :: [cbrace])) := by
    simp [skipWs, List.dropWhile_cons, jsonWs]
  simp only [hsw]
  rw [jparse_bracket, jarrStart_items _ _ _ hne]
  rw [jarrLoop_tc lbs f [] [cbrace] (by simp at hf; omega) hne hp]

theorem render_len_bound (lbs : List (List Char)) :
    lbs.length + 6 ≤ (renderL lbs).length + 1 ∧
    lbs.length + 6 ≤ (renderTCL lbs).length + 1 := by
  have := renderItems_len lbs
  constructor <;> simp [renderL, renderTCL, renderHead, List.length_append] <;> omega

theorem jsonParseL_render (lbs : List (List Char)) (hne : lbs ≠ [])
    (hp : ∀ b ∈ lbs, ∀ c ∈ b, plainCharB c = true) :
    jsonParseL (renderL lbs) =
      some (JsValue.jobj [("bullets", JsValue.jarr (bulletVals lbs))]) := by
  unfold jsonParseL
  rw [jparse_render_ok lbs ((renderL lbs).length + 1) (render_len_bound lbs).1 hne hp]
  simp [skipWs]

theorem jsonParseL_renderTC (lbs : List (List Char)) (hne : lbs ≠ [])
    (hp : ∀ b ∈ lbs, ∀ c ∈ b, plainCharB c = true) :
    jsonParseL (renderTCL lbs) = none := by
  unfold jsonParseL
  rw [jparse_renderTC_none lbs ((renderTCL lbs).length + 1) (render_len_bound lbs).2 hne hp]

/-- The pending buffer of a scanner state. -/
def nfBuf : NfState → List Char
  | .scan => []
  | .afterQuote buf => buf
  | .afterColon buf => buf
  | .body buf => buf

theorem nl_map_id (l : List Char) (h : '\n' ∉ l) :
    l.map (fun x => if x = '\n' then ' ' else x) = l := by
  induction l with
  | nil => rfl
  | cons c t ih =>
    have hc : c ≠ '\n' := fun he => h (by simp [he])
    simp only [List.map_cons, if_neg hc]
    rw [ih (fun he => h (by simp [he]))]

theorem nlFixGo_no_nl (l : List Char) :
    ∀ (st : NfState), '\n' ∉ l → '\n' ∉ nfBuf st →
      nlFixGo l st = (nfBuf st).reverse ++ l := by
  induction l with
  | nil =>
    intro st _ _
    cases st <;> simp [nlFixGo, nfBuf]
  | cons c rest ih =>
    intro st hl hb
    have hc : c ≠ '\n' := fun h => hl (by simp [h])
    have hrest : '\n' ∉ rest := fun h => hl (by simp [h])
    have hcb : ∀ buf : List Char, '\n' ∉ buf → '\n' ∉ c :: buf := by
      intro buf hbuf hmem
      rcases List.mem_cons.mp hmem with h | h
      · exact hc h.symm
      · exact hbuf h
    cases st with
    | scan =>
      simp only [nlFixGo]
      by_cases hq : c = '"'
      · rw [if_pos hq, ih (.afterQuote ['"']) hrest (by simp [nfBuf])]
        simp [nfBuf, hq]
      · rw [if_neg hq, ih .scan hrest (by simp [nfBuf])]
        simp [nfBuf]
    | afterQuote buf =>
      simp only [nfBuf] at hb
      simp only [nlFixGo]
      by_cases hcol : c = ':'
      · rw [if_pos hcol, ih (.afterColon (c :: buf)) hrest (hcb buf hb)]
        simp [nfBuf]
      · rw [if_neg hcol]
        by_cases hw : jsWhitespace c
        · rw [if_pos hw, ih (.afterQuote (c :: buf)) hrest (hcb buf hb)]
          simp [nfBuf]
        · rw [if_neg hw]
          by_cases hq : c = '"'
          · rw [if_pos hq, ih (.afterQuote ['"']) hrest (by simp [nfBuf])]
            simp [nfBuf, hq]
          · rw [if_neg hq, ih .scan hrest (by simp [nfBuf])]
            simp [nfBuf]
    | afterColon buf =>
      simp only [nfBuf] at hb
      simp only [nlFixGo]
      by_cases hbr : c = '['
      · rw [if_pos hbr, ih (.body (c :: buf)) hrest (hcb buf hb)]
        simp [nfBuf]
      · rw [if_neg hbr]
        by_cases hw : jsWhitespace c
        · rw [if_pos hw, ih (.afterColon (c :: buf)) hrest (hcb buf hb)]
          simp [nfBuf]
        · rw [if_neg hw]
          by_cases hq : c = '"'
          · rw [if_pos hq, ih (.afterQuote ['"']) hrest (by simp [nfBuf])]
            simp [nfBuf, hq]
          · rw [if_neg hq, ih .scan hrest (by simp [nfBuf])]
            simp [nfBuf]
    | body buf =>
      simp only [nfBuf] at hb
      simp only [nlFixGo]
      by_cases hcl : c = ']'
      · rw [if_pos hcl, ih .scan hrest (by simp [nfBuf])]
        rw [nl_map_id (buf.reverse ++ [c]) ?hnl]
        · simp [nfBuf, hcl]
        · intro hmem
          rcases List.mem_append.mp hmem with h | h
          · exact hb (List.mem_reverse.mp h)
          · simp at h
            exact hc h.symm
      · rw [if_neg hcl, ih (.body (c :: buf)) hrest (hcb buf hb)]
        simp [nfBuf]

theorem newlineFix_no_nl (l : List Char) (h : '\n' ∉ l) : newlineFix l = l := by
  unfold newlineFix
  rw [nlFixGo_no_nl l .scan h (by simp [nfBuf])]
  simp [nfBuf]

theorem ctrlFix_id (l : List Char) (h : ∀ c ∈ l, ctrlChar c = false) :
    ctrlFix l = l := by
  unfold ctrlFix
  induction l with
  | nil => rfl
  | cons c t ih =>
    simp only [List.map_cons]
    rw [if_neg (by simp [h c (by simp)])]
    rw [ih (fun c2 hc2 => h c2 (by simp [hc2]))]

theorem plainBullet_spec (b : List Char) (h : plainBullet b = true) :
    (∀ c ∈ b, plainCharB c = true) ∧ noTwoSpaces b = true := by
  simp only [plainBullet, Bool.and_eq_true, List.all_eq_true] at h
  exact ⟨fun c hc => h.1 c hc, h.2⟩

theorem no_nl_renderTCL (lbs : List (List Char))
    (hp : ∀ b ∈ lbs, plainBullet b = true) : '\n' ∉ renderTCL lbs := by
  intro h
  unfold renderTCL at h
  rcases List.mem_append.mp h with h | h
  · rcases List.mem_append.mp h with h | h
    · exact absurd h (by decide)
    · rcases mem_renderItems lbs '\n' h with h | h | ⟨b, hb, hc⟩
      · cases h
      · cases h
      · have := (plainChar_spec _ ((plainBullet_spec b (hp b hb)).1 '\n' hc)).2.2.2.2.2.2.2.2
        exact this rfl
  · exact absurd h (by decide)

theorem ctrl_free_renderTCL (lbs : List (List Char))
    (hp : ∀ b ∈ lbs, plainBullet b = true) :
    ∀ c ∈ renderTCL lbs, ctrlChar c = false := by
  intro c h
  unfold renderTCL at h
  rcases List.mem_append.mp h with h | h
  · rcases List.mem_append.mp h with h | h
    · have hh : ∀ c2 ∈ renderHead, ctrlChar c2 = false := by decide
      exact hh c h
    · rcases mem_renderItems lbs c h with h | h | ⟨b, hb, hc⟩
      · rw [h]; rfl
      · rw [h]; rfl
      · exact (plainChar_spec _ ((plainBullet_spec b (hp b hb)).1 c hc)).2.2.2.2.2.2.2.1
  · simp at h
    rcases h with h | h | h <;> rw [h] <;> rfl

theorem commaFixGo_bullet (close : Char) (hcl : close = ']' ∨ close = cbrace)
    (b : List Char) (hp : ∀ c ∈ b, plainCharB c = true) :
    (∀ X, commaFixGo close (b ++ '"' :: X) none = b ++ '"' :: commaFixGo close X none) ∧
    (∀ X buf, commaFixGo close (b ++ '"' :: X) (some buf) =
      buf.reverse ++ (b ++ '"' :: commaFixGo close X none)) := by
  have hqc : ('"' : Char) ≠ close := by
    rcases hcl with rfl | rfl <;> decide
  have hwq : jsWhitespace '"' = false := by decide
  induction b with
  | nil =>
    constructor
    · intro X
      simp [commaFixGo]
    · intro X buf
      simp [commaFixGo, hqc, hwq]
  | cons c t ih =>
    have hpc := plainChar_spec c (hp c (by simp))
    have hcc : c ≠ close := by
      rcases hcl with rfl | rfl
      · exact hpc.2.2.2.2.1
      · exact hpc.2.2.2.2.2.1
    have hpt : ∀ c2 ∈ t, plainCharB c2 = true := fun c2 hc2 => hp c2 (by simp [hc2])
    obtain ⟨ih1, ih2⟩ := ih hpt
    constructor
    · intro X
      show commaFixGo close (c :: (t ++ '"' :: X)) none = _
      simp only [commaFixGo]
      by_cases hcm : c = ','
      · rw [if_pos hcm, ih2 X [c]]
        simp [hcm]
      · rw [if_neg hcm, ih1 X]
        simp
    · intro X buf
      show commaFixGo close (c :: (t ++ '"' :: X)) (some buf) = _
      simp only [commaFixGo]
      rw [if_neg hcc]
      by_cases hw : jsWhitespace c
      · rw [if_pos hw, ih2 X (c :: buf)]
        simp
      · rw [if_neg hw]
        by_cases hcm : c = ','
        · rw [if_pos hcm, ih2 X [c]]
          simp [hcm]
        · rw [if_neg hcm, ih1 X]
          simp

theorem renderItems_quote_head (lbs : List (List Char)) (hne : lbs ≠ []) :
    ∃ Y, renderItemsL lbs = '"' :: Y := by
  cases lbs with
  | nil => exact absurd rfl hne
  | cons b t =>
    cases t with
    | nil => exact ⟨b ++ ['"'], by simp [renderItemsL, quoteWrap]⟩
    | cons b2 t2 =>
      exact ⟨b ++ '"' :: ',' :: renderItemsL (b2 :: t2),
        by simp [renderItemsL, quoteWrap]⟩

theorem commaFixGo_quote_some (close : Char) (hqc : ('"' : Char) ≠ close)
    (l : List Char) (buf : List Char) :
    commaFixGo close ('"' :: l) (some buf) =
      buf.reverse ++ commaFixGo close ('"' :: l) none := by
  simp [commaFixGo, hqc, show jsWhitespace '"' = false from by decide]

theorem commaFixGo_items (close : Char) (hcl : close = ']' ∨ close = cbrace)
    (lbs : List (List Char))
    (hp : ∀ b ∈ lbs, ∀ c ∈ b, plainCharB c = true) :
    ∀ X, commaFixGo close (renderItemsL lbs ++ X) none =
      renderItemsL lbs ++ commaFixGo close X none := by
  have hqc : ('"' : Char) ≠ close := by
    rcases hcl with rfl | rfl <;> decide
  induction lbs with
  | nil => intro X; simp [renderItemsL]
  | cons b t ih =>
    intro X
    have hpb : ∀ c ∈ b, plainCharB c = true := fun c hc => hp b (by simp) c hc
    obtain ⟨p1, _⟩ := commaFixGo_bullet close hcl b hpb
    cases t with
    | nil =>
      rw [show renderItemsL [b] ++ X = '"' :: (b ++ '"' :: X) from by
        simp [renderItemsL, quoteWrap]]
      show (if ('"' : Char) = ',' then _ else _) = _
      rw [if_neg (by decide), p1 X]
      simp [renderItemsL, quoteWrap]
    | cons b2 t2 =>
      rw [show renderItemsL (b :: b2 :: t2) ++ X =
        '"' :: (b ++ '"' :: (',' :: (renderItemsL (b2 :: t2) ++ X))) from by
          simp [renderItemsL, quoteWrap]]
      show (if ('"' : Char) = ',' then _ else _) = _
      rw [if_neg (by decide), p1 (',' :: (renderItemsL (b2 :: t2) ++ X))]
      have hih := ih (fun b3 hb3 c hc => hp b3 (by simp [hb3]) c hc) X
      obtain ⟨Y, hY⟩ := renderItems_quote_head (b2 :: t2) (by simp)
      have hstep : commaFixGo close (',' :: (renderItemsL (b2 :: t2) ++ X)) none =
          ',' :: commaFixGo close (renderItemsL (b2 :: t2) ++ X) none := by
        show (if (',' : Char) = ',' then _ else _) = _
        rw [if_pos rfl]
        rw [hY, List.cons_append, commaFixGo_quote_some close hqc (Y ++ X) [',']]
        simp
      rw [hstep, hih]
      simp [renderItemsL, quoteWrap, hY]

theorem commaFixGo_head (close : Char) (hcl : close = ']' ∨ close = cbrace) :
    ∀ R, commaFixGo close (renderHead ++ R) none =
      renderHead ++ commaFixGo close R none := by
  intro R
  rcases hcl with rfl | rfl <;>
    simp [renderHead, commaFixGo, obrace, cbrace]

theorem commaFix_renderTC (lbs : List (List Char))
    (hp : ∀ b ∈ lbs, ∀ c ∈ b, plainCharB c = true) :
    commaFix ']' (renderTCL lbs) = renderL lbs := by
  unfold commaFix renderTCL renderL
  simp only [List.append_assoc]
  rw [commaFixGo_head ']' (Or.inl rfl), commaFixGo_items ']' (Or.inl rfl) lbs hp]
  rfl

theorem commaFix_render_cbrace (lbs : List (List Char))
    (hp : ∀ b ∈ lbs, ∀ c ∈ b, plainCharB c = true) :
    commaFix cbrace (renderL lbs) = renderL lbs := by
  unfold commaFix renderL
  simp only [List.append_assoc]
  rw [commaFixGo_head cbrace (Or.inr rfl), commaFixGo_items cbrace (Or.inr rfl) lbs hp]
  rfl

/-- The head of the list is not whitespace (or the list is empty). -/
def headNonWs : List Char → Bool
  | [] => true
  | c :: _ => !(jsWhitespace c)

/-- Every whitespace character is a single space followed by
non-whitespace: the whitespace-collapsing rewrite is the identity on
such lists. -/
def wsOkL : List Char → Bool
  | [] => true
  | c :: t => (!(jsWhitespace c) || ((c = ' ' : Bool) && headNonWs t)) && wsOkL t

theorem wsCollapseGo_ok (l : List Char) (h : wsOkL l = true) :
    wsCollapseGo l false = l ∧
      (headNonWs l = true → wsCollapseGo l true = l) := by
  induction l with
  | nil => exact ⟨rfl, fun _ => rfl⟩
  | cons c t ih =>
    simp only [wsOkL, Bool.and_eq_true, Bool.or_eq_true, Bool.not_eq_true',
      decide_eq_true_eq] at h
    obtain ⟨hc, ht⟩ := h
    obtain ⟨g1, g2⟩ := ih ht
    cases hw : jsWhitespace c with
    | false =>
      constructor
      · show wsCollapseGo (c :: t) false = c :: t
        simp [wsCollapseGo, hw, g1]
      · intro _
        show wsCollapseGo (c :: t) true = c :: t
        simp [wsCollapseGo, hw, g1]
    | true =>
      rcases hc with hc | hc
      · rw [hw] at hc
        cases hc
      · obtain ⟨hsp, hhd⟩ := hc
        constructor
        · show wsCollapseGo (c :: t) false = c :: t
          simp [wsCollapseGo, hw, hsp, g2 hhd]
          intro h
          exact absurd h (by decide)
        · intro hcontra
          simp [headNonWs, hw] at hcontra
  
theorem noTwoSpaces_tail (c : Char) (t : List Char)
    (h : noTwoSpaces (c :: t) = true) : noTwoSpaces t = true := by
  cases t with
  | nil => rfl
  | cons c2 t2 =>
    simp only [noTwoSpaces, Bool.and_eq_true] at h
    exact h.2

theorem wsOkL_bullet (b : List Char) :
    (∀ c ∈ b, plainCharB c = true) → noTwoSpaces b = true →
    ∀ X, wsOkL ('"' :: X) = true → wsOkL (b ++ '"' :: X) = true := by
  induction b with
  | nil =>
    intro _ _ X hX
    exact hX
  | cons c t ih =>
    intro hp hts X hX
    show wsOkL (c :: (t ++ '"' :: X)) = true
    simp only [wsOkL, Bool.and_eq_true]
    constructor
    · by_cases hw : jsWhitespace c = true
      · have hsp : c = ' ' :=
          (plainChar_spec c (hp c (by simp))).2.2.2.2.2.2.1 hw
        have hhd : headNonWs (t ++ '"' :: X) = true := by
          cases t with
          | nil => simp [headNonWs, show jsWhitespace '"' = false from by decide]
          | cons c2 t2 =>
            simp only [noTwoSpaces, Bool.and_eq_true, Bool.not_eq_true'] at hts
            have h2 : jsWhitespace c2 = false := by
              rcases Bool.and_eq_false_iff.mp hts.1 with h | h
              · rw [hw] at h
                cases h
              · exact h
            simp [headNonWs, h2]
        simp [hw, hsp, hhd]
      · simp only [Bool.not_eq_true] at hw
        simp [hw]
    · exact ih (fun c2 h2 => hp c2 (by simp [h2])) (noTwoSpaces_tail c t hts) X hX

theorem wsOkL_quote (X : List Char) (h : wsOkL X = true) :
    wsOkL ('"' :: X) = true := by
  simp [wsOkL, show jsWhitespace '"' = false from by decide, h, headNonWs]

theorem wsOkL_items (lbs : List (List Char))
    (hp : ∀ b ∈ lbs, plainBullet b = true) :
    ∀ X, wsOkL X = true → wsOkL (renderItemsL lbs ++ X) = true := by
  induction lbs with
  | nil => intro X hX; simpa [renderItemsL] using hX
  | cons b t ih =>
    intro X hX
    have hb := plainBullet_spec b (hp b (by simp))
    cases t with
    | nil =>
      rw [show renderItemsL [b] ++ X = '"' :: (b ++ '"' :: X) from by
        simp [renderItemsL, quoteWrap]]
      exact wsOkL_quote _ (wsOkL_bullet b hb.1 hb.2 X (wsOkL_quote X hX))
    | cons b2 t2 =>
      rw [show renderItemsL (b :: b2 :: t2) ++ X =
        '"' :: (b ++ '"' :: (',' :: (renderItemsL (b2 :: t2) ++ X))) from by
          simp [renderItemsL, quoteWrap]]
      apply wsOkL_quote
      apply wsOkL_bullet b hb.1 hb.2
      apply wsOkL_quote
      show wsOkL (',' :: (renderItemsL (b2 :: t2) ++ X)) = true
      have hih := ih (fun b3 h3 => hp b3 (by simp [h3])) X hX
      simp [wsOkL, show jsWhitespace ',' = false from by decide, hih]

theorem wsOkL_renderL (lbs : List (List Char))
    (hp : ∀ b ∈ lbs, plainBullet b = true) : wsOkL (renderL lbs) = true := by
  have htail : wsOkL ([']', cbrace] : List Char) = true := by decide
  have hitems := wsOkL_items lbs hp [']', cbrace] htail
  show wsOkL (renderHead ++ (renderItemsL lbs ++ [']', cbrace])) = true
  revert hitems
  generalize renderItemsL lbs ++ [']', cbrace] = Y
  intro hY
  simp [renderHead, wsOkL, headNonWs, obrace, hY]
  decide

theorem wsCollapse_renderL (lbs : List (List Char))
    (hp : ∀ b ∈ lbs, plainBullet b = true) :
    wsCollapse (renderL lbs) = renderL lbs :=
  (wsCollapseGo_ok _ (wsOkL_renderL lbs hp)).1

theorem fixJsonStr_renderTC (lbs : List (List Char))
    (hp : ∀ b ∈ lbs, plainBullet b = true) :
    fixJsonStr (renderTCL lbs) = renderL lbs := by
  have hp2 : ∀ b ∈ lbs, ∀ c ∈ b, plainCharB c = true :=
    fun b hb c hc => (plainBullet_spec b (hp b hb)).1 c hc
  unfold fixJsonStr
  rw [newlineFix_no_nl _ (no_nl_renderTCL lbs hp),
      ctrlFix_id _ (ctrl_free_renderTCL lbs hp),
      commaFix_renderTC lbs hp2,
      commaFix_render_cbrace lbs hp2]
  exact wsCollapse_renderL lbs hp

theorem braceSpan_wrapped (mid : List Char) :
    braceSpanL (obrace :: (mid ++ [cbrace])) = some (obrace :: (mid ++ [cbrace])) := by
  have h1 : (obrace :: (mid ++ [cbrace])).dropWhile (fun c => c ≠ obrace) =
      obrace :: (mid ++ [cbrace]) := by
    rw [List.dropWhile_cons]
    simp
  have h2 : (obrace :: (mid ++ [cbrace])).reverse =
      cbrace :: (mid.reverse ++ [obrace]) := by
    simp
  have h3 : (cbrace :: (mid.reverse ++ [obrace])).dropWhile (fun c => c ≠ cbrace) =
      cbrace :: (mid.reverse ++ [obrace]) := by
    rw [List.dropWhile_cons]
    simp
  unfold braceSpanL
  simp only [h1, h2, h3]
  simp

theorem braceSpanL_renderL (lbs : List (List Char)) :
    braceSpanL (renderL lbs) = some (renderL lbs) := by
  have hsh : renderL lbs =
      obrace :: ((['"', 'b', 'u', 'l', 'l', 'e', 't', 's', '"', ':', '['] ++
        (renderItemsL lbs ++ [']'])) ++ [cbrace]) := by
    simp [renderL, renderHead]
  rw [hsh]
  exact braceSpan_wrapped _

theorem braceSpanL_renderTC (lbs : List (List Char)) :
    braceSpanL (renderTCL lbs) = some (renderTCL lbs) := by
  have hsh : renderTCL lbs =
      obrace :: ((['"', 'b', 'u', 'l', 'l', 'e', 't', 's', '"', ':', '['] ++
        (renderItemsL lbs ++ [',', ']'])) ++ [cbrace]) := by
    simp [renderTCL, renderHead]
  rw [hsh]
  exact braceSpan_wrapped _

theorem tryBullets_render (lbs : List (List Char)) (hne : lbs ≠ [])
    (hp : ∀ b ∈ lbs, ∀ c ∈ b, plainCharB c = true) :
    tryBullets (renderL lbs) = some ⟨cleanBullets (bulletVals lbs), []⟩ := by
  unfold tryBullets
  rw [jsonParseL_render lbs hne hp]
  simp [lookupF, otherFields]

theorem tryBullets_renderTC (lbs : List (List Char)) (hne : lbs ≠ [])
    (hp : ∀ b ∈ lbs, ∀ c ∈ b, plainCharB c = true) :
    tryBullets (renderTCL lbs) = none := by
  unfold tryBullets
  rw [jsonParseL_renderTC lbs hne hp]

/-- C4 counterexample: both repair situations named by the claim change
the recovered bullet text.  A trailing-comma-only difference forces the
repair pass, whose whitespace collapse rewrites the bullet `a  b c d e f`
into `a b c d e f`; an embedded raw newline is likewise recovered as a
space while the well-formed equivalent (with the newline escaped) keeps
the newline — so the recovered bullet set differs from the well-formed
equivalent's. -/
theorem C4_counterexample :
    parseAIResponse "\x7b\"bullets\": [\"a  b c d e f\",]\x7d" =
      Except.ok ⟨["a b c d e f"], []⟩ ∧
    parseAIResponse "\x7b\"bullets\": [\"a  b c d e f\"]\x7d" =
      Except.ok ⟨["a  b c d e f"], []⟩ ∧
    (["a b c d e f"] : List String) ≠ ["a  b c d e f"] ∧
    parseAIResponse "\x7b\"bullets\": [\"aa\nbb cc dd\"]\x7d" =
      Except.ok ⟨["aa bb cc dd"], []⟩ ∧
    parseAIResponse "\x7b\"bullets\": [\"aa\\nbb cc dd\"]\x7d" =
      Except.ok ⟨["aa\nbb cc dd"], []⟩ ∧
    (["aa bb cc dd"] : List String) ≠ ["aa\nbb cc dd"] :=
  ⟨rfl, rfl, by decide, rfl, rfl, by decide⟩

/-- C4 as amended: when the JSON differs from a well-formed
`bullets`-object rendering only by a trailing comma before the closing
bracket, and the bullets contain no character the repair pass itself
rewrites (no quotes, backslashes, control characters, closing brackets
or braces, and whitespace only as single spaces), the normalizer
recovers exactly the same result as on the well-formed equivalent; for
other bullets the recovery agrees only up to the repair pass's rewriting
of bullet text, as the counterexample shows. -/
theorem C4_amended (bs : List String) (hne : bs ≠ [])
    (hp : ∀ b ∈ bs, plainBullet b.toList = true) :
    parseAIResponse (renderTC bs) = parseAIResponse (render bs) := by
  have hne' : bs.map String.toList ≠ [] := by
    intro h
    exact hne (List.map_eq_nil_iff.mp h)
  have hpl : ∀ b ∈ bs.map String.toList, plainBullet b = true := by
    intro b hb
    obtain ⟨s0, hs0, hmap⟩ := List.mem_map.mp hb
    rw [← hmap]
    exact hp s0 hs0
  have hp2 : ∀ b ∈ bs.map String.toList, ∀ c ∈ b, plainCharB c = true :=
    fun b hb c hc => (plainBullet_spec b (hpl b hb)).1 c hc
  show parseAIResponseL (renderTC bs).toList = parseAIResponseL (render bs).toList
  unfold render renderTC
  rw [toList_mk, toList_mk]
  unfold parseAIResponseL
  rw [braceSpanL_renderL, braceSpanL_renderTC]
  simp only [tryBullets_render _ hne' hp2, tryBullets_renderTC _ hne' hp2,
    fixJsonStr_renderTC _ hpl]

/-- Witness bullet list for the amended C4. -/
def c4wit : List String := ["ab, cd"]

/-- Witness for the amended C4: a bullet containing a comma and a space
round-trips identically through the trailing-comma variant. -/
theorem C4_amended_witness :
    (c4wit ≠ [] ∧ ∀ b ∈ c4wit, plainBullet b.toList = true) ∧
    parseAIResponse (renderTC c4wit) = parseAIResponse (render c4wit) :=
  ⟨⟨by decide, by decide⟩, C4_amended c4wit (by decide) (by decide)⟩

/-! ### The generic page extractor of background.js -/

/-- Case-insensitive character comparison against a lowercase pattern
character, as the `i` regex flag performs on ASCII. -/
def ciEq (c d : Char) : Bool :=
  (c.toNat = d.toNat : Bool) ||
  ((65 ≤ c.toNat && c.toNat ≤ 90) && (c.toNat + 32 = d.toNat : Bool))

/-- Scanner state for stripping one tag-bounded block kind: matching the
opening pattern, inside the opening tag looking for its end, or inside
the body looking for the closing pattern.  Buffers hold the tentative
match in reverse for flushing when no closing tag ever appears. -/
inductive SbState where
  | seek : Nat → List Char → SbState
  | inTag : List Char → SbState
  | closeSt : Nat → List Char → SbState

/-- The global replace of `<tag[^>]*>` lazily through `</tag>` (case
insensitive) by nothing: leftmost match, resuming after each removed
block; an unterminated block is left untouched (flushed at end of
input), which matches the regex's failure to match in that case. -/
def sbGo (tag : List Char) : List Char → SbState → List Char
  | [], .seek _ pending => pending.reverse
  | [], .inTag pending => pending.reverse
  | [], .closeSt _ pending => pending.reverse
  | c :: rest, .seek k pending =>
    match ('<' :: tag).get? k with
    | some d =>
      if ciEq c d then
        if k + 1 = ('<' :: tag).length then sbGo tag rest (.inTag (c :: pending))
        else sbGo tag rest (.seek (k + 1) (c :: pending))
      else
        if c = '<' then pending.reverse ++ sbGo tag rest (.seek 1 [c])
        else pending.reverse ++ c :: sbGo tag rest (.seek 0 [])
    | none => pending.reverse ++ c :: sbGo tag rest (.seek 0 [])
  | c :: rest, .inTag pending =>
    if c = '>' then sbGo tag rest (.closeSt 0 (c :: pending))
    else sbGo tag rest (.inTag (c :: pending))
  | c :: rest, .closeSt m pending =>
    match ('<' :: '/' :: (tag ++ ['>'])).get? m with
    | some d =>
      if ciEq c d then
        if m + 1 = ('<' :: '/' :: (tag ++ ['>'])).length then sbGo tag rest (.seek 0 [])
        else sbGo tag rest (.closeSt (m + 1) (c :: pending))
      else
        if c = '<' then sbGo tag rest (.closeSt 1 (c :: pending))
        else sbGo tag rest (.closeSt 0 (c :: pending))
    | none => pending.reverse ++ c :: sbGo tag rest (.seek 0 [])

/-- Strip every `<tag ...> ... </tag>` block. -/
def stripBlock (tag : List Char) (l : List Char) : List Char :=
  sbGo tag l (.seek 0 [])

/-- Scanner state for the first-match capture of
`<tag[^>]*>(lazy)</tag>`. -/
inductive CapState where
  | seekC : Nat → CapState
  | inTagC : CapState
  | bodyC : Nat → List Char → List Char → CapState

/-- First-match capture of the body between an opening `<tag...>` and
the first subsequent `</tag>` (case insensitive); `none` when no such
block exists.  In the body state the first buffer holds a tentative
closing-tag prefix and the second the confirmed body, both reversed. -/
def capGo (tag : List Char) : List Char → CapState → Option (List Char)
  | [], _ => none
  | c :: rest, .seekC k =>
    match ('<' :: tag).get? k with
    | some d =>
      if ciEq c d then
        if k + 1 = ('<' :: tag).length then capGo tag rest .inTagC
        else capGo tag rest (.seekC (k + 1))
      else
        if c = '<' then capGo tag rest (.seekC 1)
        else capGo tag rest (.seekC 0)
    | none => capGo tag rest (.seekC 0)
  | c :: rest, .inTagC =>
    if c = '>' then capGo tag rest (.bodyC 0 [] [])
    else capGo tag rest .inTagC
  | c :: rest, .bodyC m cbuf acc =>
    match ('<' :: '/' :: (tag ++ ['>'])).get? m with
    | some d =>
      if ciEq c d then
        if m + 1 = ('<' :: '/' :: (tag ++ ['>'])).length then some acc.reverse
        else capGo tag rest (.bodyC (m + 1) (c :: cbuf) acc)
      else
        if c = '<' then capGo tag rest (.bodyC 1 [c] (cbuf ++ acc))
        else capGo tag rest (.bodyC 0 [] (c :: (cbuf ++ acc)))
    | none => none

/-- First-match capture entry point. -/
def tagCapture (tag : List Char) (l : List Char) : Option (List Char) :=
  capGo tag l (.seekC 0)

/-- The global replace of `<[^>]+>` by a space: a `<`, at least one
non-`>` character, then `>`. -/
def tagStripGo : List Char → Option (List Char × Nat) → List Char
  | [], none => []
  | [], some (buf, _) => buf.reverse
  | c :: rest, none =>
    if c = '<' then tagStripGo rest (some ([c], 0))
    else c :: tagStripGo rest none
  | c :: rest, some (buf, n) =>
    if c = '>' then
      if n ≥ 1 then ' ' :: tagStripGo rest none
      else buf.reverse ++ c :: tagStripGo rest none
    else tagStripGo rest (some (c :: buf, n + 1))

/-- Strip remaining tags, replacing each by a space. -/
def tagStrip (l : List Char) : List Char :=
  tagStripGo l none

/-- Global replace of a literal pattern (whose first character does not
recur inside it) by a replacement. -/
def replaceLitGo (pat rep : List Char) : List Char → Nat → List Char → List Char
  | [], _, pending => pending.reverse
  | c :: rest, k, pending =>
    match pat.get? k with
    | some d =>
      if c = d then
        if k + 1 = pat.length then rep ++ replaceLitGo pat rep rest 0 []
        else replaceLitGo pat rep rest (k + 1) (c :: pending)
      else
        match pat.get? 0 with
        | some d0 =>
          if c = d0 then pending.reverse ++ replaceLitGo pat rep rest 1 [c]
          else pending.reverse ++ c :: replaceLitGo pat rep rest 0 []
        | none => pending.reverse ++ c :: replaceLitGo pat rep rest 0 []
    | none => pending.reverse ++ c :: replaceLitGo pat rep rest 0 []

/-- Global literal replacement entry point. -/
def replaceLit (pat rep : List Char) (l : List Char) : List Char :=
  replaceLitGo pat rep l 0 []

/-- The generic extraction path of `fetchPageContent` for an already
fetched document: strip script, style, nav, header and footer blocks in
source order; prefer the first article body, else the first main body,
else the whole stripped document; strip remaining tags, decode the six
named entities in source order, collapse whitespace, trim, and truncate
to thirty thousand characters. -/
def fetchPageContentGenericL (html : List Char) : List Char :=
  let t1 := stripBlock ['s', 'c', 'r', 'i', 'p', 't'] html
  let t2 := stripBlock ['s', 't', 'y', 'l', 'e'] t1
  let t3 := stripBlock ['n', 'a', 'v'] t2
  let t4 := stripBlock ['h', 'e', 'a', 'd', 'e', 'r'] t3
  let t5 := stripBlock ['f', 'o', 'o', 't', 'e', 'r'] t4
  let text :=
    match tagCapture ['a', 'r', 't', 'i', 'c', 'l', 'e'] t5 with
    | some a => a
    | none =>
      match tagCapture ['m', 'a', 'i', 'n'] t5 with
      | some m => m
      | none => t5
  let u1 := tagStrip text
  let u2 := replaceLit ['&', 'n', 'b', 's', 'p', ';'] [' '] u1
  let u3 := replaceLit ['&', 'a', 'm', 'p', ';'] ['&'] u2
  let u4 := replaceLit ['&', 'l', 't', ';'] ['<'] u3
  let u5 := replaceLit ['&', 'g', 't', ';'] ['>'] u4
  let u6 := replaceLit ['&', 'q', 'u', 'o', 't', ';'] ['"'] u5
  let u7 := replaceLit ['&', '#', '3', '9', ';'] ['\''] u6
  (jsTrimL (wsCollapse u7)).take 30000

/-- String-level generic extraction. -/
def fetchPageContentGeneric (html : String) : String :=
  String.mk (fetchPageContentGenericL html.toList)

theorem char_eq_of_toNat_eq (c d : Char) (h : c.toNat = d.toNat) : c = d :=
  Char.eq_of_val_eq (UInt32.ext h)

theorem ciEq_lt_iff (c : Char) : ciEq c '<' = true ↔ c = '<' := by
  constructor
  · intro h
    simp only [ciEq, Bool.or_eq_true, Bool.and_eq_true, decide_eq_true_eq] at h
    rcases h with h | ⟨⟨h1, h2⟩, h3⟩
    · exact char_eq_of_toNat_eq c '<' h
    · have h60 : ('<' : Char).toNat = 60 := rfl
      omega
  · intro h
    rw [h]
    rfl

theorem ciEq_lt_false (c : Char) (h : c ≠ '<') : ciEq c '<' = false := by
  cases hc : ciEq c '<'
  · rfl
  · exact absurd ((ciEq_lt_iff c).mp hc) h

theorem sbGo_step_nonlt (tag : List Char) (c : Char) (hc : c ≠ '<') (X : List Char) :
    sbGo tag (c :: X) (.seek 0 []) = c :: sbGo tag X (.seek 0 []) := by
  show sbGo tag (c :: X) (.seek 0 []) = _
  simp only [sbGo, List.get?, ciEq_lt_false c hc, Bool.false_eq_true, if_false,
    if_neg hc, List.reverse_nil, List.nil_append]

theorem sbGo_pass_noLt (tag : List Char) (s : List Char)
    (hs : ∀ c ∈ s, c ≠ '<') :
    ∀ X, sbGo tag (s ++ X) (.seek 0 []) = s ++ sbGo tag X (.seek 0 []) := by
  induction s with
  | nil => intro X; rfl
  | cons c t ih =>
    intro X
    rw [List.cons_append, sbGo_step_nonlt tag c (hs c (by simp)) (t ++ X),
      ih (fun c2 h2 => hs c2 (by simp [h2])) X]
    rfl

theorem sbGo_step_lt (tag : List Char) (d : Char) (ts : List Char)
    (htag : tag = d :: ts) (c : Char) (hc : ciEq c d = false) (hc2 : c ≠ '<')
    (X : List Char) :
    sbGo tag ('<' :: c :: X) (.seek 0 []) = '<' :: c :: sbGo tag X (.seek 0 []) := by
  subst htag
  show sbGo (d :: ts) ('<' :: c :: X) (.seek 0 []) = _
  simp only [sbGo, List.get?, List.length_cons]
  simp [show ciEq '<' '<' = true from rfl, hc, hc2,
    show ¬((0 : Nat) + 1 = ts.length + 1 + 1) from by omega]

theorem sbGo_close_pass (tag : List Char) (s : List Char)
    (hs : ∀ c ∈ s, c ≠ '<') :
    ∀ X pending, sbGo tag (s ++ X) (.closeSt 0 pending) =
      sbGo tag X (.closeSt 0 (s.reverse ++ pending)) := by
  induction s with
  | nil => intro X pending; rfl
  | cons c t ih =>
    intro X pending
    have hc := hs c (by simp)
    rw [List.cons_append]
    show sbGo tag (c :: (t ++ X)) (.closeSt 0 pending) = _
    simp only [sbGo, List.get?, ciEq_lt_false c hc, Bool.false_eq_true, if_false,
      if_neg hc]
    rw [ih (fun c2 h2 => hs c2 (by simp [h2])) X (c :: pending)]
    simp

theorem capGo_step_nonlt (tag : List Char) (c : Char) (hc : c ≠ '<') (X : List Char) :
    capGo tag (c :: X) (.seekC 0) = capGo tag X (.seekC 0) := by
  show capGo tag (c :: X) (.seekC 0) = _
  simp only [capGo, List.get?, ciEq_lt_false c hc, Bool.false_eq_true, if_false,
    if_neg hc]

theorem capGo_pass_noLt (tag : List Char) (s : List Char)
    (hs : ∀ c ∈ s, c ≠ '<') :
    ∀ X, capGo tag (s ++ X) (.seekC 0) = capGo tag X (.seekC 0) := by
  induction s with
  | nil => intro X; rfl
  | cons c t ih =>
    intro X
    rw [List.cons_append, capGo_step_nonlt tag c (hs c (by simp)) (t ++ X),
      ih (fun c2 h2 => hs c2 (by simp [h2])) X]

theorem capGo_body_pass (tag : List Char) (s : List Char)
    (hs : ∀ c ∈ s, c ≠ '<') :
    ∀ X acc, capGo tag (s ++ X) (.bodyC 0 [] acc) =
      capGo tag X (.bodyC 0 [] (s.reverse ++ acc)) := by
  induction s with
  | nil => intro X acc; rfl
  | cons c t ih =>
    intro X acc
    have hc := hs c (by simp)
    rw [List.cons_append]
    show capGo tag (c :: (t ++ X)) (.bodyC 0 [] acc) = _
    simp only [capGo, List.get?, ciEq_lt_false c hc, Bool.false_eq_true, if_false,
      if_neg hc, List.nil_append]
    rw [ih (fun c2 h2 => hs c2 (by simp [h2])) X (c :: acc)]
    simp

theorem capGo_step_lt (d : Char) (ts : List Char) (c : Char)
    (hc : ciEq c d = false) (hc2 : c ≠ '<') (X : List Char) :
    capGo (d :: ts) ('<' :: c :: X) (.seekC 0) = capGo (d :: ts) X (.seekC 0) := by
  show capGo (d :: ts) ('<' :: c :: X) (.seekC 0) = _
  simp only [capGo, List.get?, List.length_cons]
  simp [show ciEq '<' '<' = true from rfl, hc, hc2,
    show ¬((0 : Nat) + 1 = ts.length + 1 + 1) from by omega]

theorem fpcg_mk (l : List Char) :
    fetchPageContentGeneric (String.mk l) = String.mk (fetchPageContentGenericL l) :=
  rfl

/-! ### The YouTube extraction path of background.js -/

/-- `String.prototype.includes`: whether the needle occurs as a
contiguous substring of the haystack. -/
def containsSub : List Char → List Char → Bool
  | needle, [] => needle.isEmpty
  | needle, c :: t => needle.isPrefixOf (c :: t) || containsSub needle t

/-- Leftmost match of `[?&]v=([^&]+)`: the capture group. -/
def vParamGo : List Char → Option (List Char)
  | [] => none
  | c :: rest =>
    if c = '?' || c = '&' then
      match rest with
      | 'v' :: '=' :: r2 =>
        let cap := r2.takeWhile (fun d => d ≠ '&')
        if cap = [] then vParamGo rest else some cap
      | _ => vParamGo rest
    else vParamGo rest

/-- Leftmost match of the escaped-dot pattern for a youtu.be short link:
the capture group of `([^?]+)` after the literal host and slash. -/
def ytbeGo : List Char → Option (List Char)
  | [] => none
  | c :: rest =>
    if c = 'y' && ['o', 'u', 't', 'u', '.', 'b', 'e', '/'].isPrefixOf rest then
      let cap := (rest.drop 8).takeWhile (fun d => d ≠ '?')
      if cap = [] then ytbeGo rest else some cap
    else ytbeGo rest

/-- The video id extraction of `extractYouTubeContent`: the first match
of the watch-parameter pattern, else of the short-link pattern. -/
def extractVideoId (url : List Char) : Option (List Char) :=
  match vParamGo url with
  | some c => some c
  | none => ytbeGo url

/-- Symmetric ASCII case folding to a code point, for the `i` flag on
patterns that themselves contain uppercase letters. -/
def lowerN (c : Char) : Nat :=
  if 65 ≤ c.toNat && c.toNat ≤ 90 then c.toNat + 32 else c.toNat

/-- Case-insensitive character equality (symmetric ASCII folding). -/
def ciEqG (c d : Char) : Bool :=
  (lowerN c = lowerN d : Bool)

/-- Match a literal pattern case-insensitively, returning the remaining
input. -/
def matchLitCi : List Char → List Char → Option (List Char)
  | [], s => some s
  | _ :: _, [] => none
  | p :: pt, c :: ct => if ciEqG c p then matchLitCi pt ct else none

/-- Greedy one-or-more whitespace. -/
def ws1 : List Char → Option (List Char)
  | [] => none
  | c :: t => if jsWhitespace c then some (t.dropWhile jsWhitespace) else none

/-- Greedy zero-or-more whitespace. -/
def ws0 (s : List Char) : List Char :=
  s.dropWhile jsWhitespace

/-- Capture a nonempty run of characters other than the stop character,
followed by the stop character itself. -/
def capTill (stop : Char) (s : List Char) : Option (List Char) :=
  let cap := s.takeWhile (fun d => d ≠ stop)
  if cap = [] then none
  else if s.drop cap.length = [] then none
  else some cap

/-- Try the attempt function at every start position, leftmost first. -/
def scanFirst (att : List Char → Option (List Char)) : List Char → Option (List Char)
  | [] => att []
  | c :: t =>
    match att (c :: t) with
    | some r => some r
    | none => scanFirst att t

/-- One attempt of the meta-title pattern at the current position. -/
def metaTitleAt (s : List Char) : Option (List Char) :=
  (matchLitCi ['<', 'm', 'e', 't', 'a'] s).bind (fun r1 =>
  (ws1 r1).bind (fun r2 =>
  (matchLitCi ['n', 'a', 'm', 'e', '=', '"', 't', 'i', 't', 'l', 'e', '"'] r2).bind (fun r3 =>
  (ws1 r3).bind (fun r4 =>
  (matchLitCi ['c', 'o', 'n', 't', 'e', 'n', 't', '=', '"'] r4).bind (fun r5 =>
  capTill '"' r5)))))

/-- One attempt of the title-element pattern at the current position. -/
def titleTagAt (s : List Char) : Option (List Char) :=
  (matchLitCi ['<', 't', 'i', 't', 'l', 'e', '>'] s).bind (fun r1 =>
    let cap := r1.takeWhile (fun d => d ≠ '<')
    if cap = [] then none
    else (matchLitCi ['<', '/', 't', 'i', 't', 'l', 'e', '>'] (r1.drop cap.length)).map
      (fun _ => cap))

/-- One attempt of the quoted ownerChannelName pattern. -/
def ownerChannelAt (s : List Char) : Option (List Char) :=
  (matchLitCi juxta s).bind (fun r1 =>
  match ws0 r1 with
  | ':' :: r2 =>
    match ws0 r2 with
    | '"' :: r3 => capTill '"' r3
    | _ => none
  | _ => none)
where juxta : List Char :=
  ['"', 'o', 'w', 'n', 'e', 'r', 'C', 'h', 'a', 'n', 'n', 'e', 'l', 'N', 'a', 'm', 'e', '"']

/-- One attempt of the link-itemprop-name pattern. -/
def linkNameAt (s : List Char) : Option (List Char) :=
  (matchLitCi ['<', 'l', 'i', 'n', 'k'] s).bind (fun r1 =>
  (ws1 r1).bind (fun r2 =>
  (matchLitCi ['i', 't', 'e', 'm', 'p', 'r', 'o', 'p', '=', '"', 'n', 'a', 'm', 'e', '"'] r2).bind (fun r3 =>
  (ws1 r3).bind (fun r4 =>
  (matchLitCi ['c', 'o', 'n', 't', 'e', 'n', 't', '=', '"'] r4).bind (fun r5 =>
  capTill '"' r5)))))

/-- One attempt of the quoted description pattern, whose capture must be
at least fifty characters long. -/
def descJsonAt (s : List Char) : Option (List Char) :=
  (matchLitCi ['"', 'd', 'e', 's', 'c', 'r', 'i', 'p', 't', 'i', 'o', 'n', '"'] s).bind (fun r1 =>
  match ws0 r1 with
  | ':' :: r2 =>
    match ws0 r2 with
    | '"' :: r3 =>
      let cap := r3.takeWhile (fun d => d ≠ '"')
      if cap.length < 50 then none
      else if r3.drop cap.length = [] then none
      else some cap
    | _ => none
  | _ => none)

/-- One attempt of the meta-description pattern. -/
def metaDescAt (s : List Char) : Option (List Char) :=
  (matchLitCi ['<', 'm', 'e', 't', 'a'] s).bind (fun r1 =>
  (ws1 r1).bind (fun r2 =>
  (matchLitCi ['n', 'a', 'm', 'e', '=', '"', 'd', 'e', 's', 'c', 'r', 'i', 'p', 't', 'i', 'o', 'n', '"'] r2).bind (fun r3 =>
  (ws1 r3).bind (fun r4 =>
  (matchLitCi ['c', 'o', 'n', 't', 'e', 'n', 't', '=', '"'] r4).bind (fun r5 =>
  capTill '"' r5)))))

/-- The manual unescape chain of the catch branch: replace escaped
newline, return, tab, quote and backslash pairs in source order. -/
def manualUnescape (d : List Char) : List Char :=
  replaceLit ['\\', '\\'] ['\\']
    (replaceLit ['\\', '"'] ['"']
      (replaceLit ['\\', 't'] [' ']
        (replaceLit ['\\', 'r'] []
          (replaceLit ['\\', 'n'] ['\n'] d))))

/-- `JSON.parse` applied to the re-quoted description capture: succeeds
exactly when the capture followed by a closing quote is a complete JSON
string body. -/
def descJsonParse (d : List Char) : Option (List Char) :=
  match parseStrBody (d.length + 2) (d ++ ['"']) with
  | some (s, []) => some s
  | _ => none

/-- The description-based fallback extractor
`extractYouTubeDescriptionFromHtml` on the fetched document text. -/
def extractYouTubeDescriptionFromHtmlL (html : List Char) : List Char :=
  let title :=
    match scanFirst metaTitleAt html with
    | some t => t
    | none =>
      match scanFirst titleTagAt html with
      | some t => t
      | none => "Unknown Title".toList
  let channel :=
    match scanFirst ownerChannelAt html with
    | some c => c
    | none =>
      match scanFirst linkNameAt html with
      | some c => c
      | none => []
  let description0 :=
    match scanFirst descJsonAt html with
    | some d => d
    | none => []
  let description1 :=
    if description0 = [] then description0
    else
      match descJsonParse description0 with
      | some s => s
      | none => manualUnescape description0
  let description :=
    if description1 = [] then
      match scanFirst metaDescAt html with
      | some d => d
      | none => []
    else description1
  let content :=
    "YouTube Video: ".toList ++ title ++ ['\n'] ++
    (if channel = [] then [] else "Channel: ".toList ++ channel ++ ['\n']) ++
    "\nDescription:\n".toList ++ description
  let content2 :=
    if content.length < 100 then
      content ++
        "\n\n[Note: Could not extract transcript. Try clicking \"Show transcript\" on the video, then refresh.]".toList
    else content
  content2.take 30000

/-- The outcome of the in-page transcript probe as observed by the
caller: no usable result object, an explicit failure object, or
transcript data (title, channel, transcript). -/
inductive ProbeResult where
  | noResult : ProbeResult
  | failed : String → ProbeResult
  | ok : String → String → String → ProbeResult

/-- The external collaborators of `extractYouTubeContent`: the tab query
(resolving to tab ids with optional urls), the in-page script execution,
and the network fetch of the watch page, each able to reject. -/
structure YtEnv where
  tabsQuery : Except String (List (Nat × Option String))
  execScript : Except String ProbeResult
  fetchHtml : Except String String

/-- `tabs.find` of a tab whose url is present and includes the video
id. -/
def findTab (vid : List Char) : List (Nat × Option String) → Option Nat
  | [] => none
  | (i, u) :: t =>
    match u with
    | some s => if containsSub vid s.toList then some i else findTab vid t
    | none => findTab vid t

/-- The transcript-path content assembly of `extractYouTubeContent`. -/
def transcriptContent (title channel transcript : String) : List Char :=
  "YouTube Video: ".toList ++ title.toList ++ ['\n'] ++
  (if channel.toList = [] then [] else "Channel: ".toList ++ channel.toList ++ ['\n']) ++
  "\nTranscript:\n".toList ++ transcript.toList

/-- The video extraction path `extractYouTubeContent`, with collaborators
supplied by the environment; an `Except.error` outcome models a thrown
or propagated rejection. -/
def extractYouTubeContent (url : String) (env : YtEnv) : Except String String :=
  match extractVideoId url.toList with
  | none => Except.error "Could not extract video ID from URL"
  | some vid =>
    match env.tabsQuery with
    | Except.error e => Except.error e
    | Except.ok tabs =>
      match findTab vid tabs with
      | none =>
        match env.fetchHtml with
        | Except.error e => Except.error e
        | Except.ok html =>
          Except.ok (String.mk (extractYouTubeDescriptionFromHtmlL html.toList))
      | some _ =>
        match env.execScript with
        | Except.error e => Except.error e
        | Except.ok pr =>
          match pr with
          | ProbeResult.ok title channel transcript =>
            Except.ok (String.mk ((transcriptContent title channel transcript).take 30000))
          | _ =>
            match env.fetchHtml with
            | Except.error e => Except.error e
            | Except.ok html =>
              Except.ok (String.mk (extractYouTubeDescriptionFromHtmlL html.toList))

/-- An environment in which every collaborator resolves. -/
def c7env : YtEnv :=
  ⟨Except.ok [], Except.ok ProbeResult.noResult, Except.ok ""⟩

/-- C7: the claim that every video-host watch URL always yields some
text fails: the watch URL without a video id parameter is routed to the
YouTube path (it includes the watch-host marker) yet the extraction
throws, even though every collaborator resolves. -/
theorem C7_counterexample :
    containsSub "youtube.com/watch".toList "https://www.youtube.com/watch".toList = true ∧
    extractYouTubeContent "https://www.youtube.com/watch" c7env =
      Except.error "Could not extract video ID from URL" :=
  ⟨by decide, rfl⟩

/-- C7 (amended): when the watch URL carries an extractable video id and
the tab query, script execution and network fetch collaborators all
resolve, `extractYouTubeContent` always succeeds with some text; in
particular a failed transcript probe degrades to the description-based
result rather than erroring. -/
theorem C7_amended (url : String) (env : YtEnv) (vid : List Char)
    (tabs : List (Nat × Option String)) (pr : ProbeResult) (html : String)
    (hv : extractVideoId url.toList = some vid)
    (ht : env.tabsQuery = Except.ok tabs)
    (hp : env.execScript = Except.ok pr)
    (hf : env.fetchHtml = Except.ok html) :
    (∃ s, extractYouTubeContent url env = Except.ok s) ∧
    (∀ e, pr = ProbeResult.failed e →
      extractYouTubeContent url env =
        Except.ok (String.mk (extractYouTubeDescriptionFromHtmlL html.toList))) := by
  unfold extractYouTubeContent
  rw [hv, ht, hp, hf]
  dsimp only
  constructor
  · cases findTab vid tabs with
    | none => exact ⟨_, rfl⟩
    | some i =>
      cases pr with
      | noResult => exact ⟨_, rfl⟩
      | failed e => exact ⟨_, rfl⟩
      | ok t c tr => exact ⟨_, rfl⟩
  · intro e he
    subst he
    cases findTab vid tabs with
    | none => rfl
    | some i => rfl

/-- An environment with a matching tab whose probe reports failure. -/
def c7wenv : YtEnv :=
  ⟨Except.ok [(1, some "https://www.youtube.com/watch?v=abc123")],
   Except.ok (ProbeResult.failed "NO_TRANSCRIPT_DOM"),
   Except.ok "<title>T</title>"⟩

theorem C7_amended_witness :
    (∃ s, extractYouTubeContent "https://www.youtube.com/watch?v=abc123" c7wenv =
        Except.ok s) ∧
    (∀ e, ProbeResult.failed "NO_TRANSCRIPT_DOM" = ProbeResult.failed e →
      extractYouTubeContent "https://www.youtube.com/watch?v=abc123" c7wenv =
        Except.ok (String.mk
          (extractYouTubeDescriptionFromHtmlL "<title>T</title>".toList))) :=
  C7_amended "https://www.youtube.com/watch?v=abc123" c7wenv ("abc123".toList)
    [(1, some "https://www.youtube.com/watch?v=abc123")]
    (ProbeResult.failed "NO_TRANSCRIPT_DOM") "<title>T</title>"
    (by decide) rfl rfl rfl

/-! ### The orchestrator `getSummary` of useAISummary.js -/

/-- A provider or cache result as stored and returned by the hook:
either a bullet list or an error object. -/
inductive GsResult where
  | bullets : List String → GsResult
  | error : String → GsResult
deriving DecidableEq

/-- The stored configuration read inside the try block. -/
structure GsSettings where
  aiProvider : Option String
  apiKey : Option String
deriving DecidableEq

/-- JavaScript truthiness of an optional string: absent and empty are
both falsy. -/
def optTruthy : Option String → Bool
  | none => false
  | some s => !s.isEmpty

/-- Association-list lookup (Map.get / object indexing). -/
def alookup (k : String) : List (String × GsResult) → Option GsResult
  | [] => none
  | (k2, v) :: t => if k2 = k then some v else alookup k t

/-- Association-list insert-or-overwrite (Map.set / object assign). -/
def ainsert (k : String) (v : GsResult) :
    List (String × GsResult) → List (String × GsResult)
  | [] => [(k, v)]
  | (k2, v2) :: t => if k2 = k then (k, v) :: t else (k2, v2) :: ainsert k v t

/-- The cache key: a selection-prefixed key for truthy raw text, else
the url itself. -/
def cacheKey (url : String) (rawText : Option String) : String :=
  match rawText with
  | some t =>
    if t.isEmpty then url
    else "selection:" ++ url ++ ":" ++ String.mk (t.toList.take 100)
  | none => url

/-- The provider selection `settings.aiProvider || 'chrome-builtin'`. -/
def resolveProvider (s : GsSettings) : String :=
  match s.aiProvider with
  | some p => if p.isEmpty then "chrome-builtin" else p
  | none => "chrome-builtin"

/-- The switch over the selected provider: the three hosted cases call
their own API, any other value falls through to the built-in one. -/
def implOf (p : String) : String :=
  if p = "openai" || p = "gemini" || p = "claude" then p else "chrome-builtin"

/-- The configuration error message. -/
def cfgMsg : String := "Please configure your API key in settings."

/-- The catch-clause conversion `error.message || 'Failed to generate
summary.'`. -/
def catchMsg (e : String) : String :=
  if e.isEmpty then "Failed to generate summary." else e

/-- The collaborators and ambient state of one `getSummary` call: the
in-process summaries map, the durable summaryCache map, and the outcome
of each awaited collaborator (storage reads and writes, the page fetch,
and the provider call by implementation name), where an `Except.error`
is a rejection. -/
structure GsEnv where
  mem : List (String × GsResult)
  durable : List (String × GsResult)
  preGet : Except String Unit
  settingsGet : Except String GsSettings
  fetchPage : Except String String
  callProvider : String → Except String GsResult
  postGet : Except String Unit
  setOp : Except String Unit

/-- The observable outcome of one `getSummary` call: the returned value
(`Except.error` models an exception escaping the hook), the two cache
layers afterwards, and which provider implementation was invoked, if
any. -/
structure GsOut where
  result : Except String GsResult
  mem : List (String × GsResult)
  durable : List (String × GsResult)
  called : Option String

/-- The body of the try/catch block of `getSummary`. -/
def gsBody (key : String) (rawText : Option String) (env : GsEnv) : GsOut :=
  match env.settingsGet with
  | Except.error e => ⟨Except.ok (GsResult.error (catchMsg e)), env.mem, env.durable, none⟩
  | Except.ok settings =>
    let provider := resolveProvider settings
    if !(provider == "chrome-builtin") && !optTruthy settings.apiKey then
      ⟨Except.ok (GsResult.error cfgMsg), env.mem, env.durable, none⟩
    else
      match (if optTruthy rawText then Except.ok (rawText.getD "") else env.fetchPage) with
      | Except.error e =>
        ⟨Except.ok (GsResult.error (catchMsg e)), env.mem, env.durable, none⟩
      | Except.ok content =>
        if content.isEmpty then
          ⟨Except.ok (GsResult.error "Could not fetch article content."), env.mem,
            env.durable, none⟩
        else
          let impl := implOf provider
          match env.callProvider impl with
          | Except.error e =>
            ⟨Except.ok (GsResult.error (catchMsg e)), env.mem, env.durable, some impl⟩
          | Except.ok result =>
            let mem2 := ainsert key result env.mem
            if optTruthy rawText then
              ⟨Except.ok result, mem2, env.durable, some impl⟩
            else
              match env.postGet with
              | Except.error e =>
                ⟨Except.ok (GsResult.error (catchMsg e)), mem2, env.durable, some impl⟩
              | Except.ok _ =>
                match env.setOp with
                | Except.error e =>
                  ⟨Except.ok (GsResult.error (catchMsg e)), mem2, env.durable, some impl⟩
                | Except.ok _ =>
                  ⟨Except.ok result, mem2, ainsert key result env.durable, some impl⟩

/-- One `getSummary` call: the cache-check section runs outside the
try/catch (a rejected storage read there escapes uncaught), the rest is
`gsBody`. -/
def getSummary (url : String) (forceRefresh : Bool) (rawText : Option String)
    (env : GsEnv) : GsOut :=
  let key := cacheKey url rawText
  if !forceRefresh && !optTruthy rawText then
    match alookup key env.mem with
    | some r => ⟨Except.ok r, env.mem, env.durable, none⟩
    | none =>
      match env.preGet with
      | Except.error e => ⟨Except.error e, env.mem, env.durable, none⟩
      | Except.ok _ =>
        match alookup key env.durable with
        | some r => ⟨Except.ok r, ainsert key r env.mem, env.durable, none⟩
        | none => gsBody key rawText env
  else gsBody key rawText env

theorem alookup_ainsert_self (k : String) (v : GsResult)
    (m : List (String × GsResult)) : alookup k (ainsert k v m) = some v := by
  induction m with
  | nil => simp [ainsert, alookup]
  | cons h t ih =>
    obtain ⟨k2, v2⟩ := h
    by_cases hk : k2 = k
    · subst hk
      simp [ainsert, alookup]
    · simp [ainsert, alookup, hk, ih]

theorem gsBody_ok (key : String) (raw : Option String) (env : GsEnv) :
    ∃ r, (gsBody key raw env).result = Except.ok r := by
  unfold gsBody
  dsimp only
  repeat' split
  all_goals exact ⟨_, rfl⟩

/-- An environment whose pre-try-block storage read rejects while every
other collaborator resolves. -/
def c5env : GsEnv :=
  ⟨[], [], Except.error "boom", Except.ok ⟨none, none⟩, Except.ok "text",
   fun _ => Except.ok (GsResult.bullets ["b"]), Except.ok (), Except.ok ()⟩

/-- C5: the claim that getSummary never throws past its boundary fails:
the cache-check storage read runs before the try block, so its rejection
escapes the hook uncaught instead of becoming an error result. -/
theorem C5_counterexample :
    (getSummary "https://ex.com/a" false none c5env).result =
      Except.error "boom" :=
  rfl

/-- C5 (amended): the pre-try cache-check storage read is the only
uncaught path: whenever it resolves (in particular also whenever it is
skipped by a force refresh or a raw-text override), the call returns a
result, with every stage failure converted to a returned value. -/
theorem C5_amended (url : String) (fr : Bool) (raw : Option String) (env : GsEnv)
    (h : env.preGet = Except.ok ()) :
    ∃ r, (getSummary url fr raw env).result = Except.ok r := by
  unfold getSummary
  dsimp only
  split
  · split
    · exact ⟨_, rfl⟩
    · rw [h]
      dsimp only
      split
      · exact ⟨_, rfl⟩
      · exact gsBody_ok _ _ _
  · exact gsBody_ok _ _ _

/-- An environment in which every collaborator resolves. -/
def c5wenv : GsEnv :=
  ⟨[], [], Except.ok (), Except.ok ⟨none, none⟩, Except.ok "text",
   fun _ => Except.ok (GsResult.bullets ["b"]), Except.ok (), Except.ok ()⟩

theorem C5_amended_witness :
    ∃ r, (getSummary "https://ex.com/a" false none c5wenv).result = Except.ok r :=
  C5_amended "https://ex.com/a" false none c5wenv rfl

theorem gsBody_durable (key : String) (raw : Option String) (env : GsEnv)
    (h : optTruthy raw = true) : (gsBody key raw env).durable = env.durable := by
  unfold gsBody
  dsimp only
  repeat' split
  all_goals rfl

/-- C9: a call carrying a truthy raw-text override leaves the durable
summaryCache mapping unchanged: selection-derived keys are never written
to durable storage. -/
theorem C9_selection_never_durable (url : String) (fr : Bool) (raw : Option String)
    (env : GsEnv) (h : optTruthy raw = true) :
    (getSummary url fr raw env).durable = env.durable := by
  unfold getSummary
  simp only [h, Bool.not_true, Bool.and_false]
  exact gsBody_durable _ _ _ h

theorem C9_selection_never_durable_witness :
    optTruthy (some "picked text") = true ∧
    (getSummary "https://ex.com/a" false (some "picked text") c5wenv).durable =
      c5wenv.durable :=
  ⟨by decide, C9_selection_never_durable "https://ex.com/a" false (some "picked text")
    c5wenv (by decide)⟩

/-- C8: a force refresh skips both cache layers even when an entry
exists, invokes the selected provider implementation, and overwrites the
entry for the url key with the new result in both the in-process and
durable layers. -/
theorem C8_force_refresh (url : String) (env : GsEnv) (settings : GsSettings)
    (content : String) (res : GsResult)
    (hs : env.settingsGet = Except.ok settings)
    (hcfg : resolveProvider settings = "chrome-builtin" ∨
      optTruthy settings.apiKey = true)
    (hf : env.fetchPage = Except.ok content)
    (hc : content.isEmpty = false)
    (hp : env.callProvider (implOf (resolveProvider settings)) = Except.ok res)
    (hg : env.postGet = Except.ok ())
    (hset : env.setOp = Except.ok ()) :
    (getSummary url true none env).result = Except.ok res ∧
    (getSummary url true none env).called =
      some (implOf (resolveProvider settings)) ∧
    alookup url (getSummary url true none env).mem = some res ∧
    alookup url (getSummary url true none env).durable = some res := by
  have e : getSummary url true none env = gsBody url none env := rfl
  have hcond : (!(resolveProvider settings == "chrome-builtin") &&
      !optTruthy settings.apiKey) = false := by
    rcases hcfg with h | h <;> simp [h]
  have e2 : gsBody url none env =
      ⟨Except.ok res, ainsert url res env.mem, ainsert url res env.durable,
        some (implOf (resolveProvider settings))⟩ := by
    have hnone : optTruthy none = false := rfl
    unfold gsBody
    simp only [hs, hf, hc, hp, hg, hset, hnone, Bool.false_eq_true, if_false]
    simp only [hcond, Bool.false_eq_true, if_false]
  rw [e, e2]
  exact ⟨rfl, rfl, alookup_ainsert_self _ _ _, alookup_ainsert_self _ _ _⟩

/-- An environment with an existing entry for the url key in both cache
layers, a hosted provider configured with a key, and a provider that
produces a fresh result. -/
def c8env : GsEnv :=
  ⟨[("u", GsResult.error "old")], [("u", GsResult.error "old")], Except.ok (),
   Except.ok ⟨some "openai", some "k"⟩, Except.ok "body text",
   fun _ => Except.ok (GsResult.bullets ["new"]), Except.ok (), Except.ok ()⟩

theorem C8_force_refresh_witness :
    alookup "u" c8env.mem = some (GsResult.error "old") ∧
    alookup "u" c8env.durable = some (GsResult.error "old") ∧
    ((getSummary "u" true none c8env).result =
        Except.ok (GsResult.bullets ["new"]) ∧
      (getSummary "u" true none c8env).called =
        some (implOf (resolveProvider ⟨some "openai", some "k"⟩)) ∧
      alookup "u" (getSummary "u" true none c8env).mem =
        some (GsResult.bullets ["new"]) ∧
      alookup "u" (getSummary "u" true none c8env).durable =
        some (GsResult.bullets ["new"])) :=
  ⟨rfl, rfl,
   C8_force_refresh "u" c8env ⟨some "openai", some "k"⟩ "body text"
     (GsResult.bullets ["new"]) rfl (Or.inr (by decide)) rfl (by decide)
     rfl rfl rfl⟩

theorem catchMsg_eq_cfg (e : String) (h : catchMsg e = cfgMsg) : e = cfgMsg := by
  unfold catchMsg at h
  split at h
  · exact absurd h (by decide)
  · exact h

/-- An environment none of whose collaborator failures or cached entries
happen to carry the configuration error message themselves. -/
structure GsFree (env : GsEnv) : Prop where
  settingsFree : ∀ e, env.settingsGet = Except.error e → e ≠ cfgMsg
  fetchFree : ∀ e, env.fetchPage = Except.error e → e ≠ cfgMsg
  providerErrFree : ∀ n e, env.callProvider n = Except.error e → e ≠ cfgMsg
  providerOkFree : ∀ n, env.callProvider n ≠ Except.ok (GsResult.error cfgMsg)
  postFree : ∀ e, env.postGet = Except.error e → e ≠ cfgMsg
  setFree : ∀ e, env.setOp = Except.error e → e ≠ cfgMsg
  memFree : ∀ k, alookup k env.mem ≠ some (GsResult.error cfgMsg)
  durableFree : ∀ k, alookup k env.durable ≠ some (GsResult.error cfgMsg)

theorem gsBody_cfg (key : String) (raw : Option String) (env : GsEnv)
    (hfree : GsFree env)
    (hres : (gsBody key raw env).result = Except.ok (GsResult.error cfgMsg)) :
    ∃ settings, env.settingsGet = Except.ok settings ∧
      settings.aiProvider ≠ none ∧
      resolveProvider settings ≠ "chrome-builtin" ∧
      optTruthy settings.apiKey = false := by
  unfold gsBody at hres
  dsimp only at hres
  split at hres
  next x e heq =>
    simp only [Except.ok.injEq, GsResult.error.injEq] at hres
    exact absurd (catchMsg_eq_cfg e hres) (hfree.settingsFree e heq)
  next x settings heq =>
    split at hres
    next hcond =>
      have hb : resolveProvider settings ≠ "chrome-builtin" := by
        intro hh
        rw [hh] at hcond
        simp at hcond
      have hk : optTruthy settings.apiKey = false := by
        cases hkk : optTruthy settings.apiKey
        · rfl
        · rw [hkk] at hcond
          simp at hcond
      refine ⟨settings, heq, ?_, hb, hk⟩
      intro hnone
      apply hb
      unfold resolveProvider
      rw [hnone]
    next hcond =>
      split at hres
      next x2 e heq2 =>
        have hfe : env.fetchPage = Except.error e := by
          cases htr2 : optTruthy raw
          · rw [htr2] at heq2
            simpa using heq2
          · rw [htr2] at heq2
            simp at heq2
        simp only [Except.ok.injEq, GsResult.error.injEq] at hres
        exact absurd (catchMsg_eq_cfg e hres) (hfree.fetchFree e hfe)
      next x2 content heq2 =>
        split at hres
        next hemp =>
          simp only [Except.ok.injEq, GsResult.error.injEq] at hres
          exact absurd hres (by decide)
        next hemp =>
          split at hres
          next x3 e heq3 =>
            simp only [Except.ok.injEq, GsResult.error.injEq] at hres
            exact absurd (catchMsg_eq_cfg e hres) (hfree.providerErrFree _ e heq3)
          next x3 result heq3 =>
            split at hres
            next htr =>
              simp only [Except.ok.injEq] at hres
              rw [hres] at heq3
              exact absurd heq3 (hfree.providerOkFree _)
            next htr =>
              split at hres
              next x4 e heq4 =>
                simp only [Except.ok.injEq, GsResult.error.injEq] at hres
                exact absurd (catchMsg_eq_cfg e hres) (hfree.postFree e heq4)
              next x4 u heq4 =>
                split at hres
                next x5 e heq5 =>
                  simp only [Except.ok.injEq, GsResult.error.injEq] at hres
                  exact absurd (catchMsg_eq_cfg e hres) (hfree.setFree e heq5)
                next x5 u2 heq5 =>
                  simp only [Except.ok.injEq] at hres
                  rw [hres] at heq3
                  exact absurd heq3 (hfree.providerOkFree _)

/-- C10: a missing aiProvider value selects the on-device provider, so
(in an environment whose own failures do not carry the configuration
message) the missing-API-key error can only be returned when a hosted
provider was explicitly configured and no api key is stored. -/
theorem C10_builtin_default (url : String) (fr : Bool) (raw : Option String)
    (env : GsEnv) (hfree : GsFree env)
    (hres : (getSummary url fr raw env).result =
      Except.ok (GsResult.error cfgMsg)) :
    (∃ settings, env.settingsGet = Except.ok settings ∧
      settings.aiProvider ≠ none ∧
      resolveProvider settings ≠ "chrome-builtin" ∧
      optTruthy settings.apiKey = false) ∧
    (∀ k, resolveProvider ⟨none, k⟩ = "chrome-builtin") := by
  refine ⟨?_, fun k => rfl⟩
  unfold getSummary at hres
  dsimp only at hres
  split at hres
  · split at hres
    next x r heqm =>
      simp only [Except.ok.injEq] at hres
      rw [hres] at heqm
      exact absurd heqm (hfree.memFree _)
    next x heqm =>
      split at hres
      next x2 e heqp =>
        simp at hres
      next x2 u heqp =>
        split at hres
        next x3 r heqd =>
          simp only [Except.ok.injEq] at hres
          rw [hres] at heqd
          exact absurd heqd (hfree.durableFree _)
        next x3 heqd =>
          exact gsBody_cfg _ _ _ hfree hres
  · exact gsBody_cfg _ _ _ hfree hres

/-- An environment with a hosted provider configured and no api key. -/
def c10env : GsEnv :=
  ⟨[], [], Except.ok (), Except.ok ⟨some "openai", none⟩, Except.ok "text",
   fun _ => Except.ok (GsResult.bullets ["b"]), Except.ok (), Except.ok ()⟩

theorem C10_builtin_default_witness :
    (∃ settings, c10env.settingsGet = Except.ok settings ∧
      settings.aiProvider ≠ none ∧
      resolveProvider settings ≠ "chrome-builtin" ∧
      optTruthy settings.apiKey = false) ∧
    (∀ k, resolveProvider ⟨none, k⟩ = "chrome-builtin") :=
  C10_builtin_default "https://ex.com/a" false none c10env
    ⟨fun e h => by simp [c10env] at h,
     fun e h => by simp [c10env] at h,
     fun n e h => by simp [c10env] at h,
     fun n h => by simp [c10env] at h,
     fun e h => by simp [c10env] at h,
     fun e h => by simp [c10env] at h,
     fun k h => by simp [c10env, alookup] at h,
     fun k h => by simp [c10env, alookup] at h⟩
    rfl

/-! ### A segment model of HTML documents for the extraction claim -/

theorem ciEq_false_of (c d : Char) (h1 : c ≠ d)
    (h2 : d.toNat < 97 ∨ 122 < d.toNat) : ciEq c d = false := by
  cases hc : ciEq c d
  · rfl
  · exfalso
    simp only [ciEq, Bool.or_eq_true, Bool.and_eq_true, decide_eq_true_eq] at hc
    rcases hc with hc | ⟨⟨hl, hu⟩, he⟩
    · exact h1 (char_eq_of_toNat_eq c d hc)
    · omega

/-- The block scanner passes over `u` from the initial state, emitting
it unchanged and returning to the initial state. -/
def SeekPass (tag : List Char) (u : List Char) : Prop :=
  ∀ X, sbGo tag (u ++ X) (.seek 0 []) = u ++ sbGo tag X (.seek 0 [])

theorem seekPass_append {tag u v : List Char} (hu : SeekPass tag u)
    (hv : SeekPass tag v) : SeekPass tag (u ++ v) := by
  intro X
  rw [List.append_assoc, hu, hv, ← List.append_assoc]

theorem seekPass_noLt (tag u : List Char) (h : ∀ c ∈ u, c ≠ '<') :
    SeekPass tag u :=
  fun X => sbGo_pass_noLt tag u h X

theorem seekPass_lt (d : Char) (ts : List Char) (c : Char)
    (hc : ciEq c d = false) (hc2 : c ≠ '<') : SeekPass (d :: ts) ['<', c] := by
  intro X
  simpa using sbGo_step_lt (d :: ts) d ts rfl c hc hc2 X

/-- The block scanner consumes `u` inside a still-open block, keeping
the close-tag search at its start and buffering `u`. -/
def ClosePass (tag : List Char) (u : List Char) : Prop :=
  ∀ X p, sbGo tag (u ++ X) (.closeSt 0 p) =
    sbGo tag X (.closeSt 0 (u.reverse ++ p))

theorem closePass_append {tag u v : List Char} (hu : ClosePass tag u)
    (hv : ClosePass tag v) : ClosePass tag (u ++ v) := by
  intro X p
  rw [List.append_assoc, hu, hv]
  simp [List.reverse_append, List.append_assoc]

theorem closePass_noLt (tag u : List Char) (h : ∀ c ∈ u, c ≠ '<') :
    ClosePass tag u :=
  fun X p => sbGo_close_pass tag u h X p

theorem closePass_step1 (tag : List Char) (c : Char) (hc : c ≠ '/')
    (hc2 : c ≠ '<') : ClosePass tag ['<', c] := by
  intro X p
  show sbGo tag ('<' :: c :: (X : List Char)) (.closeSt 0 p) = _
  simp only [sbGo, List.get?, List.length_cons, List.length_append]
  simp [show ciEq '<' '<' = true from rfl, ciEq_false_of c '/' hc (by decide),
    hc2, show ¬((0 : Nat) + 1 = tag.length + 1 + 1 + 1) from by omega]

theorem closePass_step2 (d : Char) (ts : List Char) (c : Char)
    (hc : ciEq c d = false) (hc2 : c ≠ '<') :
    ClosePass (d :: ts) ['<', '/', c] := by
  intro X p
  show sbGo (d :: ts) ('<' :: '/' :: c :: (X : List Char)) (.closeSt 0 p) = _
  simp only [sbGo, List.get?, List.length_cons, List.length_append]
  simp [show ciEq '<' '<' = true from rfl, show ciEq '/' '/' = true from rfl,
    hc, hc2, show ¬((0 : Nat) + 1 = ts.length + 1 + 1 + 1 + 1) from by omega,
    show ¬((1 : Nat) + 1 = ts.length + 1 + 1 + 1 + 1) from by omega]

theorem sbGo_inTag_pass (tag u : List Char) (h : ∀ c ∈ u, c ≠ '>') :
    ∀ X p, sbGo tag (u ++ X) (.inTag p) = sbGo tag X (.inTag (u.reverse ++ p)) := by
  induction u with
  | nil => intro X p; rfl
  | cons c t ih =>
    intro X p
    rw [List.cons_append]
    show sbGo tag (c :: (t ++ X)) (.inTag p) = _
    simp only [sbGo, if_neg (h c (by simp))]
    rw [ih (fun x hx => h x (by simp [hx])) X (c :: p)]
    simp

/-- The capture scanner passes over `u` while still seeking an opening
tag, with no effect. -/
def SeekCPass (tag : List Char) (u : List Char) : Prop :=
  ∀ X, capGo tag (u ++ X) (.seekC 0) = capGo tag X (.seekC 0)

theorem seekCPass_append {tag u v : List Char} (hu : SeekCPass tag u)
    (hv : SeekCPass tag v) : SeekCPass tag (u ++ v) := by
  intro X
  rw [List.append_assoc, hu, hv]

theorem seekCPass_noLt (tag u : List Char) (h : ∀ c ∈ u, c ≠ '<') :
    SeekCPass tag u :=
  fun X => capGo_pass_noLt tag u h X

theorem seekCPass_lt (d : Char) (ts : List Char) (c : Char)
    (hc : ciEq c d = false) (hc2 : c ≠ '<') : SeekCPass (d :: ts) ['<', c] := by
  intro X
  simpa using capGo_step_lt d ts c hc hc2 X

theorem capGo_inTagC_pass (tag u : List Char) (h : ∀ c ∈ u, c ≠ '>') :
    ∀ X, capGo tag (u ++ X) .inTagC = capGo tag X .inTagC := by
  induction u with
  | nil => intro X; rfl
  | cons c t ih =>
    intro X
    rw [List.cons_append]
    show capGo tag (c :: (t ++ X)) .inTagC = _
    simp only [capGo, if_neg (h c (by simp))]
    exact ih (fun x hx => h x (by simp [hx])) X

/-- The capture scanner consumes `u` inside an open block, accumulating
it into the captured body. -/
def BodyPass (tag : List Char) (u : List Char) : Prop :=
  ∀ X acc, capGo tag (u ++ X) (.bodyC 0 [] acc) =
    capGo tag X (.bodyC 0 [] (u.reverse ++ acc))

theorem bodyPass_append {tag u v : List Char} (hu : BodyPass tag u)
    (hv : BodyPass tag v) : BodyPass tag (u ++ v) := by
  intro X acc
  rw [List.append_assoc, hu, hv]
  simp [List.reverse_append, List.append_assoc]

theorem bodyPass_noLt (tag u : List Char) (h : ∀ c ∈ u, c ≠ '<') :
    BodyPass tag u :=
  fun X acc => capGo_body_pass tag u h X acc

theorem bodyPass_step1 (tag : List Char) (c : Char) (hc : c ≠ '/')
    (hc2 : c ≠ '<') : BodyPass tag ['<', c] := by
  intro X acc
  show capGo tag ('<' :: c :: (X : List Char)) (.bodyC 0 [] acc) = _
  simp only [capGo, List.get?, List.length_cons, List.length_append]
  simp [show ciEq '<' '<' = true from rfl, ciEq_false_of c '/' hc (by decide),
    hc2, show ¬((0 : Nat) + 1 = tag.length + 1 + 1 + 1) from by omega]

theorem bodyPass_step2 (d : Char) (ts : List Char) (c : Char)
    (hc : ciEq c d = false) (hc2 : c ≠ '<') :
    BodyPass (d :: ts) ['<', '/', c] := by
  intro X acc
  show capGo (d :: ts) ('<' :: '/' :: c :: (X : List Char)) (.bodyC 0 [] acc) = _
  simp only [capGo, List.get?, List.length_cons, List.length_append]
  simp [show ciEq '<' '<' = true from rfl, show ciEq '/' '/' = true from rfl,
    hc, hc2, show ¬((0 : Nat) + 1 = ts.length + 1 + 1 + 1 + 1) from by omega,
    show ¬((1 : Nat) + 1 = ts.length + 1 + 1 + 1 + 1) from by omega]

/-- The five tag names whose blocks the extractor strips, and the
article tag. -/
def scriptT : List Char := ['s', 'c', 'r', 'i', 'p', 't']

def styleT : List Char := ['s', 't', 'y', 'l', 'e']

def navT : List Char := ['n', 'a', 'v']

def headerT : List Char := ['h', 'e', 'a', 'd', 'e', 'r']

def footerT : List Char := ['f', 'o', 'o', 't', 'e', 'r']

def articleT : List Char := ['a', 'r', 't', 'i', 'c', 'l', 'e']

/-- A run of ordinary text characters (no tag opener). -/
def plainSeg (s : List Char) : Bool :=
  s.all (fun c => (c ≠ '<' : Bool))

/-- Characters allowed inside a tag (attributes, tag-name rest): neither
a tag opener nor a tag closer. -/
def attrSeg (s : List Char) : Bool :=
  s.all (fun c => (c ≠ '<' : Bool) && (c ≠ '>' : Bool))

/-- A first character of an ordinary element name: not tag punctuation
and (case-insensitively) none of the initials of the special tags
script, style, nav, header, footer, article. -/
def benignHead (c : Char) : Bool :=
  (c ≠ '<' : Bool) && (c ≠ '/' : Bool) && (c ≠ '>' : Bool) &&
  !(ciEq c 's') && !(ciEq c 'n') && !(ciEq c 'h') && !(ciEq c 'f') && !(ciEq c 'a')

/-- Markup allowed inside a special block's body or the article body:
text runs and ordinary elements `<t a>i</t>`. -/
inductive BItem where
  | btxt : List Char → BItem
  | bblk : Char → List Char → List Char → List Char → BItem

def renderB : BItem → List Char
  | .btxt s => s
  | .bblk t0 tr a i =>
    ('<' :: t0 :: (tr ++ a ++ ('>' :: i))) ++ ('<' :: '/' :: t0 :: (tr ++ ['>']))

def renderBs : List BItem → List Char
  | [] => []
  | b :: r => renderB b ++ renderBs r

def bitemOk : BItem → Bool
  | .btxt s => plainSeg s
  | .bblk t0 tr a i => benignHead t0 && attrSeg tr && plainSeg a && plainSeg i

def bitemsOk (L : List BItem) : Bool :=
  L.all bitemOk

/-- Whether a tag is one of the five stripped ones. -/
def stripTagB (t : List Char) : Bool :=
  (t = scriptT : Bool) || (t = styleT : Bool) || (t = navT : Bool) ||
  (t = headerT : Bool) || (t = footerT : Bool)

/-- Document content around the article element: text runs, ordinary
elements, and special blocks `<t a>body</t>` for the five stripped
tags, in any order and number. -/
inductive HItem where
  | txt : List Char → HItem
  | blk : Char → List Char → List Char → List Char → HItem
  | strip : List Char → List Char → List BItem → HItem

def renderH : HItem → List Char
  | .txt s => s
  | .blk t0 tr a i => renderB (.bblk t0 tr a i)
  | .strip t a b =>
    ('<' :: (t ++ a ++ ['>'])) ++ renderBs b ++ ('<' :: '/' :: (t ++ ['>']))

def renderHs : List HItem → List Char
  | [] => []
  | h :: r => renderH h ++ renderHs r

def hitemOk : HItem → Bool
  | .txt s => plainSeg s
  | .blk t0 tr a i => benignHead t0 && attrSeg tr && plainSeg a && plainSeg i
  | .strip t a b => stripTagB t && attrSeg a && bitemsOk b

def hitemsOk (L : List HItem) : Bool :=
  L.all hitemOk

/-- The rendered document: arbitrary well-formed content around one
article element with attributes. -/
def renderDoc (pre : List HItem) (aattrs : List Char) (abody : List BItem)
    (post : List HItem) : List Char :=
  renderHs pre ++
    (('<' :: (articleT ++ aattrs ++ ['>'])) ++ renderBs abody ++
      ('<' :: '/' :: (articleT ++ ['>']))) ++
    renderHs post

/-- Removing every special block of one tag from an item list. -/
def stripPass (t : List Char) : List HItem → List HItem
  | [] => []
  | .strip t2 a b :: r =>
    if t2 = t then stripPass t r else .strip t2 a b :: stripPass t r
  | h :: r => h :: stripPass t r

theorem plainSeg_iff (s : List Char) : plainSeg s = true ↔ ∀ c ∈ s, c ≠ '<' := by
  simp [plainSeg, List.all_eq_true]

theorem attrSeg_iff (s : List Char) :
    attrSeg s = true ↔ ∀ c ∈ s, c ≠ '<' ∧ c ≠ '>' := by
  simp [attrSeg, List.all_eq_true]

theorem benignHead_spec (c : Char) (h : benignHead c = true) :
    c ≠ '<' ∧ c ≠ '/' ∧ c ≠ '>' ∧ ciEq c 's' = false ∧ ciEq c 'n' = false ∧
    ciEq c 'h' = false ∧ ciEq c 'f' = false ∧ ciEq c 'a' = false := by
  simp only [benignHead, Bool.and_eq_true, Bool.not_eq_true', decide_eq_true_eq] at h
  exact ⟨h.1.1.1.1.1.1.1, h.1.1.1.1.1.1.2, h.1.1.1.1.1.2, h.1.1.1.1.2, h.1.1.1.2,
    h.1.1.2, h.1.2, h.2⟩

theorem mem_blkMid {tr a i : List Char} (htr : ∀ c ∈ tr, c ≠ '<')
    (ha : ∀ c ∈ a, c ≠ '<') (hi : ∀ c ∈ i, c ≠ '<') :
    ∀ c ∈ tr ++ a ++ ('>' :: i), c ≠ '<' := by
  intro c hc
  simp only [List.mem_append, List.mem_cons] at hc
  rcases hc with (hc | hc) | hc | hc
  · exact htr c hc
  · exact ha c hc
  · subst hc; decide
  · exact hi c hc

theorem mem_blkTail {t0 : Char} {tr : List Char} (h0 : t0 ≠ '<')
    (htr : ∀ c ∈ tr, c ≠ '<') : ∀ c ∈ t0 :: (tr ++ ['>']), c ≠ '<' := by
  intro c hc
  simp only [List.mem_cons, List.mem_append, List.mem_singleton,
    List.not_mem_nil, or_false] at hc
  rcases hc with hc | hc | hc
  · subst hc; exact h0
  · exact htr c hc
  · subst hc; decide

theorem seekPass_bblk (d : Char) (ts : List Char) (hslash : ciEq '/' d = false)
    (t0 : Char) (tr a i : List Char) (h0 : ciEq t0 d = false) (h0b : t0 ≠ '<')
    (htr : ∀ c ∈ tr, c ≠ '<') (ha : ∀ c ∈ a, c ≠ '<') (hi : ∀ c ∈ i, c ≠ '<') :
    SeekPass (d :: ts) (renderB (.bblk t0 tr a i)) := by
  have e : renderB (.bblk t0 tr a i) =
      ['<', t0] ++ ((tr ++ a ++ ('>' :: i)) ++
        (['<', '/'] ++ (t0 :: (tr ++ ['>'])))) := by
    simp [renderB]
  rw [e]
  exact seekPass_append (seekPass_lt d ts t0 h0 h0b)
    (seekPass_append (seekPass_noLt _ _ (mem_blkMid htr ha hi))
      (seekPass_append (seekPass_lt d ts '/' hslash (by decide))
        (seekPass_noLt _ _ (mem_blkTail h0b htr))))

theorem seekPass_block (d : Char) (ts : List Char) (hslash : ciEq '/' d = false)
    (t0 : Char) (tr a : List Char) (h0 : ciEq t0 d = false) (h0b : t0 ≠ '<')
    (htr : ∀ c ∈ tr, c ≠ '<') (ha : ∀ c ∈ a, c ≠ '<')
    (body : List Char) (hbody : SeekPass (d :: ts) body) :
    SeekPass (d :: ts)
      ((['<', t0] ++ (tr ++ a ++ ['>'])) ++
        (body ++ (['<', '/'] ++ ((t0 :: tr) ++ ['>'])))) := by
  refine seekPass_append (seekPass_append (seekPass_lt d ts t0 h0 h0b)
    (seekPass_noLt _ _ ?_))
    (seekPass_append hbody (seekPass_append (seekPass_lt d ts '/' hslash (by decide))
      (seekPass_noLt _ _ ?_)))
  · intro c hc
    simp only [List.mem_append, List.mem_singleton] at hc
    rcases hc with (hc | hc) | hc
    · exact htr c hc
    · exact ha c hc
    · subst hc; decide
  · intro c hc
    simp only [List.mem_append, List.mem_cons, List.mem_singleton,
      List.not_mem_nil, or_false] at hc
    rcases hc with (hc | hc) | hc
    · subst hc; exact h0b
    · exact htr c hc
    · subst hc; decide

theorem seekPass_bitems (d : Char) (ts : List Char) (hslash : ciEq '/' d = false)
    (hhead : ∀ c, benignHead c = true → ciEq c d = false)
    (L : List BItem) (hok : bitemsOk L = true) : SeekPass (d :: ts) (renderBs L) := by
  induction L with
  | nil => exact fun X => rfl
  | cons b r ih =>
    simp only [bitemsOk, List.all_cons, Bool.and_eq_true] at hok
    refine seekPass_append ?_ (ih hok.2)
    cases b with
    | btxt s => exact seekPass_noLt _ _ ((plainSeg_iff s).mp hok.1)
    | bblk t0 tr a i =>
      simp only [bitemOk, Bool.and_eq_true] at hok
      obtain ⟨⟨⟨hh, htr⟩, ha⟩, hi⟩ := hok.1
      obtain ⟨h1, _, _, _, _, _, _, _⟩ := benignHead_spec t0 hh
      exact seekPass_bblk d ts hslash t0 tr a i (hhead t0 hh) h1
        (fun c hc => ((attrSeg_iff tr).mp htr c hc).1)
        ((plainSeg_iff a).mp ha) ((plainSeg_iff i).mp hi)

theorem closePass_bblk (d : Char) (ts : List Char)
    (t0 : Char) (tr a i : List Char) (h0 : ciEq t0 d = false) (h0b : t0 ≠ '<')
    (h0c : t0 ≠ '/') (htr : ∀ c ∈ tr, c ≠ '<') (ha : ∀ c ∈ a, c ≠ '<')
    (hi : ∀ c ∈ i, c ≠ '<') :
    ClosePass (d :: ts) (renderB (.bblk t0 tr a i)) := by
  have e : renderB (.bblk t0 tr a i) =
      ['<', t0] ++ ((tr ++ a ++ ('>' :: i)) ++
        (['<', '/', t0] ++ (tr ++ ['>']))) := by
    simp [renderB]
  rw [e]
  refine closePass_append (closePass_step1 _ t0 h0c h0b)
    (closePass_append (closePass_noLt _ _ (mem_blkMid htr ha hi))
      (closePass_append (closePass_step2 d ts t0 h0 h0b)
        (closePass_noLt _ _ ?_)))
  intro c hc
  simp only [List.mem_append, List.mem_singleton] at hc
  rcases hc with hc | hc
  · exact htr c hc
  · subst hc; decide

theorem closePass_bitems (d : Char) (ts : List Char)
    (hhead : ∀ c, benignHead c = true → ciEq c d = false)
    (L : List BItem) (hok : bitemsOk L = true) : ClosePass (d :: ts) (renderBs L) := by
  induction L with
  | nil => exact fun X p => rfl
  | cons b r ih =>
    simp only [bitemsOk, List.all_cons, Bool.and_eq_true] at hok
    refine closePass_append ?_ (ih hok.2)
    cases b with
    | btxt s => exact closePass_noLt _ _ ((plainSeg_iff s).mp hok.1)
    | bblk t0 tr a i =>
      simp only [bitemOk, Bool.and_eq_true] at hok
      obtain ⟨⟨⟨hh, htr⟩, ha⟩, hi⟩ := hok.1
      obtain ⟨h1, h2, _, _, _, _, _, _⟩ := benignHead_spec t0 hh
      exact closePass_bblk d ts t0 tr a i (hhead t0 hh) h1 h2
        (fun c hc => ((attrSeg_iff tr).mp htr c hc).1)
        ((plainSeg_iff a).mp ha) ((plainSeg_iff i).mp hi)

theorem bodyPass_bblk (d : Char) (ts : List Char)
    (t0 : Char) (tr a i : List Char) (h0 : ciEq t0 d = false) (h0b : t0 ≠ '<')
    (h0c : t0 ≠ '/') (htr : ∀ c ∈ tr, c ≠ '<') (ha : ∀ c ∈ a, c ≠ '<')
    (hi : ∀ c ∈ i, c ≠ '<') :
    BodyPass (d :: ts) (renderB (.bblk t0 tr a i)) := by
  have e : renderB (.bblk t0 tr a i) =
      ['<', t0] ++ ((tr ++ a ++ ('>' :: i)) ++
        (['<', '/', t0] ++ (tr ++ ['>']))) := by
    simp [renderB]
  rw [e]
  refine bodyPass_append (bodyPass_step1 _ t0 h0c h0b)
    (bodyPass_append (bodyPass_noLt _ _ (mem_blkMid htr ha hi))
      (bodyPass_append (bodyPass_step2 d ts t0 h0 h0b)
        (bodyPass_noLt _ _ ?_)))
  intro c hc
  simp only [List.mem_append, List.mem_singleton] at hc
  rcases hc with hc | hc
  · exact htr c hc
  · subst hc; decide

theorem bodyPass_bitems (d : Char) (ts : List Char)
    (hhead : ∀ c, benignHead c = true → ciEq c d = false)
    (L : List BItem) (hok : bitemsOk L = true) : BodyPass (d :: ts) (renderBs L) := by
  induction L with
  | nil => exact fun X acc => rfl
  | cons b r ih =>
    simp only [bitemsOk, List.all_cons, Bool.and_eq_true] at hok
    refine bodyPass_append ?_ (ih hok.2)
    cases b with
    | btxt s => exact bodyPass_noLt _ _ ((plainSeg_iff s).mp hok.1)
    | bblk t0 tr a i =>
      simp only [bitemOk, Bool.and_eq_true] at hok
      obtain ⟨⟨⟨hh, htr⟩, ha⟩, hi⟩ := hok.1
      obtain ⟨h1, h2, _, _, _, _, _, _⟩ := benignHead_spec t0 hh
      exact bodyPass_bblk d ts t0 tr a i (hhead t0 hh) h1 h2
        (fun c hc => ((attrSeg_iff tr).mp htr c hc).1)
        ((plainSeg_iff a).mp ha) ((plainSeg_iff i).mp hi)

theorem seekCPass_bblk (d : Char) (ts : List Char) (hslash : ciEq '/' d = false)
    (t0 : Char) (tr a i : List Char) (h0 : ciEq t0 d = false) (h0b : t0 ≠ '<')
    (htr : ∀ c ∈ tr, c ≠ '<') (ha : ∀ c ∈ a, c ≠ '<') (hi : ∀ c ∈ i, c ≠ '<') :
    SeekCPass (d :: ts) (renderB (.bblk t0 tr a i)) := by
  have e : renderB (.bblk t0 tr a i) =
      ['<', t0] ++ ((tr ++ a ++ ('>' :: i)) ++
        (['<', '/'] ++ (t0 :: (tr ++ ['>'])))) := by
    simp [renderB]
  rw [e]
  exact seekCPass_append (seekCPass_lt d ts t0 h0 h0b)
    (seekCPass_append (seekCPass_noLt _ _ (mem_blkMid htr ha hi))
      (seekCPass_append (seekCPass_lt d ts '/' hslash (by decide))
        (seekCPass_noLt _ _ (mem_blkTail h0b htr))))

theorem benignHead_ci_s (c : Char) (h : benignHead c = true) : ciEq c 's' = false :=
  (benignHead_spec c h).2.2.2.1

theorem benignHead_ci_n (c : Char) (h : benignHead c = true) : ciEq c 'n' = false :=
  (benignHead_spec c h).2.2.2.2.1

theorem benignHead_ci_h (c : Char) (h : benignHead c = true) : ciEq c 'h' = false :=
  (benignHead_spec c h).2.2.2.2.2.1

theorem benignHead_ci_f (c : Char) (h : benignHead c = true) : ciEq c 'f' = false :=
  (benignHead_spec c h).2.2.2.2.2.2.1

theorem benignHead_ci_a (c : Char) (h : benignHead c = true) : ciEq c 'a' = false :=
  (benignHead_spec c h).2.2.2.2.2.2.2

theorem sbGo_inTag_gt (tag : List Char) :
    ∀ X p, sbGo tag ('>' :: X) (.inTag p) = sbGo tag X (.closeSt 0 ('>' :: p)) := by
  intro X p
  simp [sbGo]

theorem capGo_inTagC_gt (tag : List Char) :
    ∀ X, capGo tag ('>' :: X) .inTagC = capGo tag X (.bodyC 0 [] []) := by
  intro X
  simp [capGo]

theorem sbGo_open_script :
    ∀ X, sbGo scriptT (('<' :: scriptT) ++ X) (.seek 0 []) =
      sbGo scriptT X (.inTag (('<' :: scriptT).reverse)) := by
  intro X
  show sbGo scriptT ('<' :: 's' :: 'c' :: 'r' :: 'i' :: 'p' :: 't' :: X) (.seek 0 []) = _
  simp +decide [sbGo, List.get?, scriptT]

theorem sbGo_open_style :
    ∀ X, sbGo styleT (('<' :: styleT) ++ X) (.seek 0 []) =
      sbGo styleT X (.inTag (('<' :: styleT).reverse)) := by
  intro X
  show sbGo styleT ('<' :: 's' :: 't' :: 'y' :: 'l' :: 'e' :: X) (.seek 0 []) = _
  simp +decide [sbGo, List.get?, styleT]

theorem sbGo_open_nav :
    ∀ X, sbGo navT (('<' :: navT) ++ X) (.seek 0 []) =
      sbGo navT X (.inTag (('<' :: navT).reverse)) := by
  intro X
  show sbGo navT ('<' :: 'n' :: 'a' :: 'v' :: X) (.seek 0 []) = _
  simp +decide [sbGo, List.get?, navT]

theorem sbGo_open_header :
    ∀ X, sbGo headerT (('<' :: headerT) ++ X) (.seek 0 []) =
      sbGo headerT X (.inTag (('<' :: headerT).reverse)) := by
  intro X
  show sbGo headerT ('<' :: 'h' :: 'e' :: 'a' :: 'd' :: 'e' :: 'r' :: X) (.seek 0 []) = _
  simp +decide [sbGo, List.get?, headerT]

theorem sbGo_open_footer :
    ∀ X, sbGo footerT (('<' :: footerT) ++ X) (.seek 0 []) =
      sbGo footerT X (.inTag (('<' :: footerT).reverse)) := by
  intro X
  show sbGo footerT ('<' :: 'f' :: 'o' :: 'o' :: 't' :: 'e' :: 'r' :: X) (.seek 0 []) = _
  simp +decide [sbGo, List.get?, footerT]

theorem sbGo_close_script :
    ∀ X p, sbGo scriptT (('<' :: '/' :: (scriptT ++ ['>'])) ++ X) (.closeSt 0 p) =
      sbGo scriptT X (.seek 0 []) := by
  intro X p
  show sbGo scriptT
    ('<' :: '/' :: 's' :: 'c' :: 'r' :: 'i' :: 'p' :: 't' :: '>' :: X) (.closeSt 0 p) = _
  simp +decide [sbGo, List.get?]

theorem sbGo_close_style :
    ∀ X p, sbGo styleT (('<' :: '/' :: (styleT ++ ['>'])) ++ X) (.closeSt 0 p) =
      sbGo styleT X (.seek 0 []) := by
  intro X p
  show sbGo styleT
    ('<' :: '/' :: 's' :: 't' :: 'y' :: 'l' :: 'e' :: '>' :: X) (.closeSt 0 p) = _
  simp +decide [sbGo, List.get?]

theorem sbGo_close_nav :
    ∀ X p, sbGo navT (('<' :: '/' :: (navT ++ ['>'])) ++ X) (.closeSt 0 p) =
      sbGo navT X (.seek 0 []) := by
  intro X p
  show sbGo navT ('<' :: '/' :: 'n' :: 'a' :: 'v' :: '>' :: X) (.closeSt 0 p) = _
  simp +decide [sbGo, List.get?]

theorem sbGo_close_header :
    ∀ X p, sbGo headerT (('<' :: '/' :: (headerT ++ ['>'])) ++ X) (.closeSt 0 p) =
      sbGo headerT X (.seek 0 []) := by
  intro X p
  show sbGo headerT
    ('<' :: '/' :: 'h' :: 'e' :: 'a' :: 'd' :: 'e' :: 'r' :: '>' :: X) (.closeSt 0 p) = _
  simp +decide [sbGo, List.get?]

theorem sbGo_close_footer :
    ∀ X p, sbGo footerT (('<' :: '/' :: (footerT ++ ['>'])) ++ X) (.closeSt 0 p) =
      sbGo footerT X (.seek 0 []) := by
  intro X p
  show sbGo footerT
    ('<' :: '/' :: 'f' :: 'o' :: 'o' :: 't' :: 'e' :: 'r' :: '>' :: X) (.closeSt 0 p) = _
  simp +decide [sbGo, List.get?]

theorem seekPass_scriptStyle : SeekPass scriptT ['<', 's', 't'] := by
  intro X
  show sbGo scriptT ('<' :: 's' :: 't' :: X) (.seek 0 []) = _
  simp +decide [sbGo, List.get?]

theorem seekPass_styleScript : SeekPass styleT ['<', 's', 'c'] := by
  intro X
  show sbGo styleT ('<' :: 's' :: 'c' :: X) (.seek 0 []) = _
  simp +decide [sbGo, List.get?]

theorem capGo_open_article :
    ∀ X, capGo articleT (('<' :: articleT) ++ X) (.seekC 0) = capGo articleT X .inTagC := by
  intro X
  show capGo articleT
    ('<' :: 'a' :: 'r' :: 't' :: 'i' :: 'c' :: 'l' :: 'e' :: X) (.seekC 0) = _
  simp +decide [capGo, List.get?]

theorem capGo_close_article :
    ∀ X acc, capGo articleT (('<' :: '/' :: (articleT ++ ['>'])) ++ X)
      (.bodyC 0 [] acc) = some acc.reverse := by
  intro X acc
  show capGo articleT
    ('<' :: '/' :: 'a' :: 'r' :: 't' :: 'i' :: 'c' :: 'l' :: 'e' :: '>' :: X)
    (.bodyC 0 [] acc) = _
  simp +decide [capGo, List.get?]

theorem seekPass_stripItem (d : Char) (ts : List Char) (hslash : ciEq '/' d = false)
    (hhead : ∀ c, benignHead c = true → ciEq c d = false)
    (s0 : Char) (sr : List Char) (h0 : ciEq s0 d = false) (h0b : s0 ≠ '<')
    (hsr : ∀ c ∈ sr, c ≠ '<')
    (a : List Char) (ha : attrSeg a = true) (b : List BItem)
    (hb : bitemsOk b = true) :
    SeekPass (d :: ts) (renderH (.strip (s0 :: sr) a b)) := by
  have e : renderH (.strip (s0 :: sr) a b) =
      (['<', s0] ++ (sr ++ a ++ ['>'])) ++
        (renderBs b ++ (['<', '/'] ++ ((s0 :: sr) ++ ['>']))) := by
    simp [renderH]
  rw [e]
  exact seekPass_block d ts hslash s0 sr a h0 h0b hsr
    (fun c hc => ((attrSeg_iff a).mp ha c hc).1)
    (renderBs b) (seekPass_bitems d ts hslash hhead b hb)

theorem seekPass_styleUnderScript (a : List Char) (ha : attrSeg a = true)
    (b : List BItem) (hb : bitemsOk b = true) :
    SeekPass scriptT (renderH (.strip styleT a b)) := by
  have e : renderH (.strip styleT a b) =
      ['<', 's', 't'] ++ ((['y', 'l', 'e'] ++ a ++ ['>']) ++
        (renderBs b ++ (['<', '/'] ++ (styleT ++ ['>'])))) := by
    simp [renderH, styleT]
  rw [e]
  refine seekPass_append seekPass_scriptStyle
    (seekPass_append (seekPass_noLt _ _ ?_)
      (seekPass_append
        (seekPass_bitems 's' ['c', 'r', 'i', 'p', 't'] (by decide)
          benignHead_ci_s b hb)
        (seekPass_append (seekPass_lt 's' ['c', 'r', 'i', 'p', 't'] '/'
          (by decide) (by decide)) (seekPass_noLt _ _ ?_))))
  · intro c hc
    rcases List.mem_append.mp hc with hc2 | hc2
    · rcases List.mem_append.mp hc2 with hc3 | hc3
      · exact (by decide : ∀ x ∈ ['y', 'l', 'e'], x ≠ '<') c hc3
      · exact ((attrSeg_iff a).mp ha c hc3).1
    · exact (by decide : ∀ x ∈ ['>'], x ≠ '<') c hc2
  · exact (by decide : ∀ x ∈ styleT ++ ['>'], x ≠ '<')

theorem seekPass_scriptUnderStyle (a : List Char) (ha : attrSeg a = true)
    (b : List BItem) (hb : bitemsOk b = true) :
    SeekPass styleT (renderH (.strip scriptT a b)) := by
  have e : renderH (.strip scriptT a b) =
      ['<', 's', 'c'] ++ ((['r', 'i', 'p', 't'] ++ a ++ ['>']) ++
        (renderBs b ++ (['<', '/'] ++ (scriptT ++ ['>'])))) := by
    simp [renderH, scriptT]
  rw [e]
  refine seekPass_append seekPass_styleScript
    (seekPass_append (seekPass_noLt _ _ ?_)
      (seekPass_append
        (seekPass_bitems 's' ['t', 'y', 'l', 'e'] (by decide)
          benignHead_ci_s b hb)
        (seekPass_append (seekPass_lt 's' ['t', 'y', 'l', 'e'] '/'
          (by decide) (by decide)) (seekPass_noLt _ _ ?_))))
  · intro c hc
    rcases List.mem_append.mp hc with hc2 | hc2
    · rcases List.mem_append.mp hc2 with hc3 | hc3
      · exact (by decide : ∀ x ∈ ['r', 'i', 'p', 't'], x ≠ '<') c hc3
      · exact ((attrSeg_iff a).mp ha c hc3).1
    · exact (by decide : ∀ x ∈ ['>'], x ≠ '<') c hc2
  · exact (by decide : ∀ x ∈ scriptT ++ ['>'], x ≠ '<')


theorem sbGo_vanish_script (a : List Char) (b : List BItem)
    (ha : attrSeg a = true) (hb : bitemsOk b = true) :
    ∀ X, sbGo scriptT (renderH (.strip scriptT a b) ++ X) (.seek 0 []) =
      sbGo scriptT X (.seek 0 []) := by
  intro X
  have e : renderH (.strip scriptT a b) ++ X =
      ('<' :: scriptT) ++ (a ++ ('>' :: (renderBs b ++
        (('<' :: '/' :: (scriptT ++ ['>'])) ++ X)))) := by
    simp [renderH]
  have hcp : ClosePass scriptT (renderBs b) :=
    closePass_bitems 's' ['c','r','i','p','t'] benignHead_ci_s b hb
  rw [e, sbGo_open_script,
    sbGo_inTag_pass scriptT a (fun c hc => ((attrSeg_iff a).mp ha c hc).2),
    sbGo_inTag_gt, hcp, sbGo_close_script]


theorem sbGo_vanish_style (a : List Char) (b : List BItem)
    (ha : attrSeg a = true) (hb : bitemsOk b = true) :
    ∀ X, sbGo styleT (renderH (.strip styleT a b) ++ X) (.seek 0 []) =
      sbGo styleT X (.seek 0 []) := by
  intro X
  have e : renderH (.strip styleT a b) ++ X =
      ('<' :: styleT) ++ (a ++ ('>' :: (renderBs b ++
        (('<' :: '/' :: (styleT ++ ['>'])) ++ X)))) := by
    simp [renderH]
  have hcp : ClosePass styleT (renderBs b) :=
    closePass_bitems 's' ['t','y','l','e'] benignHead_ci_s b hb
  rw [e, sbGo_open_style,
    sbGo_inTag_pass styleT a (fun c hc => ((attrSeg_iff a).mp ha c hc).2),
    sbGo_inTag_gt, hcp, sbGo_close_style]


theorem sbGo_vanish_nav (a : List Char) (b : List BItem)
    (ha : attrSeg a = true) (hb : bitemsOk b = true) :
    ∀ X, sbGo navT (renderH (.strip navT a b) ++ X) (.seek 0 []) =
      sbGo navT X (.seek 0 []) := by
  intro X
  have e : renderH (.strip navT a b) ++ X =
      ('<' :: navT) ++ (a ++ ('>' :: (renderBs b ++
        (('<' :: '/' :: (navT ++ ['>'])) ++ X)))) := by
    simp [renderH]
  have hcp : ClosePass navT (renderBs b) :=
    closePass_bitems 'n' ['a','v'] benignHead_ci_n b hb
  rw [e, sbGo_open_nav,
    sbGo_inTag_pass navT a (fun c hc => ((attrSeg_iff a).mp ha c hc).2),
    sbGo_inTag_gt, hcp, sbGo_close_nav]


theorem sbGo_vanish_header (a : List Char) (b : List BItem)
    (ha : attrSeg a = true) (hb : bitemsOk b = true) :
    ∀ X, sbGo headerT (renderH (.strip headerT a b) ++ X) (.seek 0 []) =
      sbGo headerT X (.seek 0 []) := by
  intro X
  have e : renderH (.strip headerT a b) ++ X =
      ('<' :: headerT) ++ (a ++ ('>' :: (renderBs b ++
        (('<' :: '/' :: (headerT ++ ['>'])) ++ X)))) := by
    simp [renderH]
  have hcp : ClosePass headerT (renderBs b) :=
    closePass_bitems 'h' ['e','a','d','e','r'] benignHead_ci_h b hb
  rw [e, sbGo_open_header,
    sbGo_inTag_pass headerT a (fun c hc => ((attrSeg_iff a).mp ha c hc).2),
    sbGo_inTag_gt, hcp, sbGo_close_header]


theorem sbGo_vanish_footer (a : List Char) (b : List BItem)
    (ha : attrSeg a = true) (hb : bitemsOk b = true) :
    ∀ X, sbGo footerT (renderH (.strip footerT a b) ++ X) (.seek 0 []) =
      sbGo footerT X (.seek 0 []) := by
  intro X
  have e : renderH (.strip footerT a b) ++ X =
      ('<' :: footerT) ++ (a ++ ('>' :: (renderBs b ++
        (('<' :: '/' :: (footerT ++ ['>'])) ++ X)))) := by
    simp [renderH]
  have hcp : ClosePass footerT (renderBs b) :=
    closePass_bitems 'f' ['o','o','t','e','r'] benignHead_ci_f b hb
  rw [e, sbGo_open_footer,
    sbGo_inTag_pass footerT a (fun c hc => ((attrSeg_iff a).mp ha c hc).2),
    sbGo_inTag_gt, hcp, sbGo_close_footer]

theorem hpass_script : ∀ it, hitemOk it = true →
    (∀ a b, it ≠ HItem.strip scriptT a b) → SeekPass scriptT (renderH it) := by
  intro it hok hne
  cases it with
  | txt s => exact seekPass_noLt _ _ ((plainSeg_iff s).mp hok)
  | blk t0 tr a i =>
    simp only [hitemOk, Bool.and_eq_true] at hok
    obtain ⟨⟨⟨hhh, htr⟩, ha⟩, hi⟩ := hok
    obtain ⟨h1, _, _, _, _, _, _, _⟩ := benignHead_spec t0 hhh
    exact seekPass_bblk 's' ['c', 'r', 'i', 'p', 't'] (by decide) t0 tr a i
      (benignHead_ci_s t0 hhh) h1 (fun c hc => ((attrSeg_iff tr).mp htr c hc).1)
      ((plainSeg_iff a).mp ha) ((plainSeg_iff i).mp hi)
  | strip t a b =>
    simp only [hitemOk, Bool.and_eq_true] at hok
    obtain ⟨⟨hst, ha⟩, hb⟩ := hok
    simp only [stripTagB, Bool.or_eq_true, decide_eq_true_eq] at hst
    rcases hst with (((ht | ht) | ht) | ht) | ht
    · subst ht; exact absurd rfl (hne a b)
    · subst ht; exact seekPass_styleUnderScript a ha b hb
    · subst ht
      exact seekPass_stripItem 's' ['c', 'r', 'i', 'p', 't'] (by decide) benignHead_ci_s
        'n' ['a', 'v'] (by decide) (by decide) (by decide) a ha b hb
    · subst ht
      exact seekPass_stripItem 's' ['c', 'r', 'i', 'p', 't'] (by decide) benignHead_ci_s
        'h' ['e', 'a', 'd', 'e', 'r'] (by decide) (by decide) (by decide) a ha b hb
    · subst ht
      exact seekPass_stripItem 's' ['c', 'r', 'i', 'p', 't'] (by decide) benignHead_ci_s
        'f' ['o', 'o', 't', 'e', 'r'] (by decide) (by decide) (by decide) a ha b hb


theorem hpass_style : ∀ it, hitemOk it = true →
    (∀ a b, it ≠ HItem.strip styleT a b) → SeekPass styleT (renderH it) := by
  intro it hok hne
  cases it with
  | txt s => exact seekPass_noLt _ _ ((plainSeg_iff s).mp hok)
  | blk t0 tr a i =>
    simp only [hitemOk, Bool.and_eq_true] at hok
    obtain ⟨⟨⟨hhh, htr⟩, ha⟩, hi⟩ := hok
    obtain ⟨h1, _, _, _, _, _, _, _⟩ := benignHead_spec t0 hhh
    exact seekPass_bblk 's' ['t', 'y', 'l', 'e'] (by decide) t0 tr a i
      (benignHead_ci_s t0 hhh) h1 (fun c hc => ((attrSeg_iff tr).mp htr c hc).1)
      ((plainSeg_iff a).mp ha) ((plainSeg_iff i).mp hi)
  | strip t a b =>
    simp only [hitemOk, Bool.and_eq_true] at hok
    obtain ⟨⟨hst, ha⟩, hb⟩ := hok
    simp only [stripTagB, Bool.or_eq_true, decide_eq_true_eq] at hst
    rcases hst with (((ht | ht) | ht) | ht) | ht
    · subst ht; exact seekPass_scriptUnderStyle a ha b hb
    · subst ht; exact absurd rfl (hne a b)
    · subst ht
      exact seekPass_stripItem 's' ['t', 'y', 'l', 'e'] (by decide) benignHead_ci_s
        'n' ['a', 'v'] (by decide) (by decide) (by decide) a ha b hb
    · subst ht
      exact seekPass_stripItem 's' ['t', 'y', 'l', 'e'] (by decide) benignHead_ci_s
        'h' ['e', 'a', 'd', 'e', 'r'] (by decide) (by decide) (by decide) a ha b hb
    · subst ht
      exact seekPass_stripItem 's' ['t', 'y', 'l', 'e'] (by decide) benignHead_ci_s
        'f' ['o', 'o', 't', 'e', 'r'] (by decide) (by decide) (by decide) a ha b hb


theorem hpass_nav : ∀ it, hitemOk it = true →
    (∀ a b, it ≠ HItem.strip navT a b) → SeekPass navT (renderH it) := by
  intro it hok hne
  cases it with
  | txt s => exact seekPass_noLt _ _ ((plainSeg_iff s).mp hok)
  | blk t0 tr a i =>
    simp only [hitemOk, Bool.and_eq_true] at hok
    obtain ⟨⟨⟨hhh, htr⟩, ha⟩, hi⟩ := hok
    obtain ⟨h1, _, _, _, _, _, _, _⟩ := benignHead_spec t0 hhh
    exact seekPass_bblk 'n' ['a', 'v'] (by decide) t0 tr a i
      (benignHead_ci_n t0 hhh) h1 (fun c hc => ((attrSeg_iff tr).mp htr c hc).1)
      ((plainSeg_iff a).mp ha) ((plainSeg_iff i).mp hi)
  | strip t a b =>
    simp only [hitemOk, Bool.and_eq_true] at hok
    obtain ⟨⟨hst, ha⟩, hb⟩ := hok
    simp only [stripTagB, Bool.or_eq_true, decide_eq_true_eq] at hst
    rcases hst with (((ht | ht) | ht) | ht) | ht
    · subst ht
      exact seekPass_stripItem 'n' ['a', 'v'] (by decide) benignHead_ci_n
        's' ['c', 'r', 'i', 'p', 't'] (by decide) (by decide) (by decide) a ha b hb
    · subst ht
      exact seekPass_stripItem 'n' ['a', 'v'] (by decide) benignHead_ci_n
        's' ['t', 'y', 'l', 'e'] (by decide) (by decide) (by decide) a ha b hb
    · subst ht; exact absurd rfl (hne a b)
    · subst ht
      exact seekPass_stripItem 'n' ['a', 'v'] (by decide) benignHead_ci_n
        'h' ['e', 'a', 'd', 'e', 'r'] (by decide) (by decide) (by decide) a ha b hb
    · subst ht
      exact seekPass_stripItem 'n' ['a', 'v'] (by decide) benignHead_ci_n
        'f' ['o', 'o', 't', 'e', 'r'] (by decide) (by decide) (by decide) a ha b hb


theorem hpass_header : ∀ it, hitemOk it = true →
    (∀ a b, it ≠ HItem.strip headerT a b) → SeekPass headerT (renderH it) := by
  intro it hok hne
  cases it with
  | txt s => exact seekPass_noLt _ _ ((plainSeg_iff s).mp hok)
  | blk t0 tr a i =>
    simp only [hitemOk, Bool.and_eq_true] at hok
    obtain ⟨⟨⟨hhh, htr⟩, ha⟩, hi⟩ := hok
    obtain ⟨h1, _, _, _, _, _, _, _⟩ := benignHead_spec t0 hhh
    exact seekPass_bblk 'h' ['e', 'a', 'd', 'e', 'r'] (by decide) t0 tr a i
      (benignHead_ci_h t0 hhh) h1 (fun c hc => ((attrSeg_iff tr).mp htr c hc).1)
      ((plainSeg_iff a).mp ha) ((plainSeg_iff i).mp hi)
  | strip t a b =>
    simp only [hitemOk, Bool.and_eq_true] at hok
    obtain ⟨⟨hst, ha⟩, hb⟩ := hok
    simp only [stripTagB, Bool.or_eq_true, decide_eq_true_eq] at hst
    rcases hst with (((ht | ht) | ht) | ht) | ht
    · subst ht
      exact seekPass_stripItem 'h' ['e', 'a', 'd', 'e', 'r'] (by decide) benignHead_ci_h
        's' ['c', 'r', 'i', 'p', 't'] (by decide) (by decide) (by decide) a ha b hb
    · subst ht
      exact seekPass_stripItem 'h' ['e', 'a', 'd', 'e', 'r'] (by decide) benignHead_ci_h
        's' ['t', 'y', 'l', 'e'] (by decide) (by decide) (by decide) a ha b hb
    · subst ht
      exact seekPass_stripItem 'h' ['e', 'a', 'd', 'e', 'r'] (by decide) benignHead_ci_h
        'n' ['a', 'v'] (by decide) (by decide) (by decide) a ha b hb
    · subst ht; exact absurd rfl (hne a b)
    · subst ht
      exact seekPass_stripItem 'h' ['e', 'a', 'd', 'e', 'r'] (by decide) benignHead_ci_h
        'f' ['o', 'o', 't', 'e', 'r'] (by decide) (by decide) (by decide) a ha b hb


theorem hpass_footer : ∀ it, hitemOk it = true →
    (∀ a b, it ≠ HItem.strip footerT a b) → SeekPass footerT (renderH it) := by
  intro it hok hne
  cases it with
  | txt s => exact seekPass_noLt _ _ ((plainSeg_iff s).mp hok)
  | blk t0 tr a i =>
    simp only [hitemOk, Bool.and_eq_true] at hok
    obtain ⟨⟨⟨hhh, htr⟩, ha⟩, hi⟩ := hok
    obtain ⟨h1, _, _, _, _, _, _, _⟩ := benignHead_spec t0 hhh
    exact seekPass_bblk 'f' ['o', 'o', 't', 'e', 'r'] (by decide) t0 tr a i
      (benignHead_ci_f t0 hhh) h1 (fun c hc => ((attrSeg_iff tr).mp htr c hc).1)
      ((plainSeg_iff a).mp ha) ((plainSeg_iff i).mp hi)
  | strip t a b =>
    simp only [hitemOk, Bool.and_eq_true] at hok
    obtain ⟨⟨hst, ha⟩, hb⟩ := hok
    simp only [stripTagB, Bool.or_eq_true, decide_eq_true_eq] at hst
    rcases hst with (((ht | ht) | ht) | ht) | ht
    · subst ht
      exact seekPass_stripItem 'f' ['o', 'o', 't', 'e', 'r'] (by decide) benignHead_ci_f
        's' ['c', 'r', 'i', 'p', 't'] (by decide) (by decide) (by decide) a ha b hb
    · subst ht
      exact seekPass_stripItem 'f' ['o', 'o', 't', 'e', 'r'] (by decide) benignHead_ci_f
        's' ['t', 'y', 'l', 'e'] (by decide) (by decide) (by decide) a ha b hb
    · subst ht
      exact seekPass_stripItem 'f' ['o', 'o', 't', 'e', 'r'] (by decide) benignHead_ci_f
        'n' ['a', 'v'] (by decide) (by decide) (by decide) a ha b hb
    · subst ht
      exact seekPass_stripItem 'f' ['o', 'o', 't', 'e', 'r'] (by decide) benignHead_ci_f
        'h' ['e', 'a', 'd', 'e', 'r'] (by decide) (by decide) (by decide) a ha b hb
    · subst ht; exact absurd rfl (hne a b)


theorem sbGo_items (tag : List Char)
    (hvanish : ∀ a b, attrSeg a = true → bitemsOk b = true →
      ∀ X, sbGo tag (renderH (.strip tag a b) ++ X) (.seek 0 []) =
        sbGo tag X (.seek 0 []))
    (hpass : ∀ it, hitemOk it = true → (∀ a b, it ≠ HItem.strip tag a b) →
      SeekPass tag (renderH it)) :
    ∀ L, hitemsOk L = true → ∀ X,
      sbGo tag (renderHs L ++ X) (.seek 0 []) =
        renderHs (stripPass tag L) ++ sbGo tag X (.seek 0 []) := by
  intro L
  induction L with
  | nil => intro _ X; rfl
  | cons it r ih =>
    intro hok X
    simp only [hitemsOk, List.all_cons, Bool.and_eq_true] at hok
    have hok2 : hitemsOk r = true := hok.2
    have e1 : renderHs (it :: r) ++ X = renderH it ++ (renderHs r ++ X) := by
      simp [renderHs]
    cases it with
    | txt s =>
      rw [e1, hpass (.txt s) hok.1 (fun a b h => nomatch h) (renderHs r ++ X),
        ih hok2 X]
      show _ = renderHs (HItem.txt s :: stripPass tag r) ++ _
      simp [renderHs, List.append_assoc]
    | blk t0 tr a i =>
      rw [e1, hpass (.blk t0 tr a i) hok.1 (fun a b h => nomatch h)
        (renderHs r ++ X), ih hok2 X]
      show _ = renderHs (HItem.blk t0 tr a i :: stripPass tag r) ++ _
      simp [renderHs, List.append_assoc]
    | strip t2 a b =>
      by_cases ht2 : t2 = tag
      · subst ht2
        have hok1 := hok.1
        simp only [hitemOk, Bool.and_eq_true] at hok1
        rw [e1, hvanish a b hok1.1.2 hok1.2 (renderHs r ++ X), ih hok2 X]
        show _ = renderHs (stripPass t2 (HItem.strip t2 a b :: r)) ++ _
        simp [stripPass]
      · rw [e1, hpass (.strip t2 a b) hok.1
          (fun a2 b2 h => by injection h with h1 _ _; exact ht2 h1)
          (renderHs r ++ X), ih hok2 X]
        show _ = renderHs (stripPass tag (HItem.strip t2 a b :: r)) ++ _
        simp [stripPass, ht2, renderHs, List.append_assoc]

theorem seekPass_article (d : Char) (ts : List Char) (hslash : ciEq '/' d = false)
    (hhead : ∀ c, benignHead c = true → ciEq c d = false)
    (ha0 : ciEq 'a' d = false)
    (aattrs : List Char) (haa : attrSeg aattrs = true)
    (abody : List BItem) (hab : bitemsOk abody = true) :
    SeekPass (d :: ts)
      (('<' :: (articleT ++ aattrs ++ ['>'])) ++ renderBs abody ++
        ('<' :: '/' :: (articleT ++ ['>']))) := by
  have e : ('<' :: (articleT ++ aattrs ++ ['>'])) ++ renderBs abody ++
      ('<' :: '/' :: (articleT ++ ['>'])) =
      (['<', 'a'] ++ (['r', 't', 'i', 'c', 'l', 'e'] ++ aattrs ++ ['>'])) ++
        (renderBs abody ++
          (['<', '/'] ++ (('a' :: ['r', 't', 'i', 'c', 'l', 'e']) ++ ['>']))) := by
    simp [articleT]
  rw [e]
  exact seekPass_block d ts hslash 'a' ['r', 't', 'i', 'c', 'l', 'e'] aattrs ha0
    (by decide) (by decide) (fun c hc => ((attrSeg_iff aattrs).mp haa c hc).1)
    (renderBs abody) (seekPass_bitems d ts hslash hhead abody hab)


theorem stripBlock_doc_script (pre post : List HItem) (aattrs : List Char)
    (abody : List BItem) (hp : hitemsOk pre = true) (hq : hitemsOk post = true)
    (haa : attrSeg aattrs = true) (hab : bitemsOk abody = true) :
    stripBlock scriptT (renderDoc pre aattrs abody post) =
      renderDoc (stripPass scriptT pre) aattrs abody (stripPass scriptT post) := by
  have hart : SeekPass scriptT
      (('<' :: (articleT ++ aattrs ++ ['>'])) ++ renderBs abody ++
        ('<' :: '/' :: (articleT ++ ['>']))) :=
    seekPass_article 's' ['c', 'r', 'i', 'p', 't'] (by decide) benignHead_ci_s (by decide) aattrs haa abody hab
  have e : renderDoc pre aattrs abody post =
      renderHs pre ++
        ((('<' :: (articleT ++ aattrs ++ ['>'])) ++ renderBs abody ++
          ('<' :: '/' :: (articleT ++ ['>']))) ++ (renderHs post ++ [])) := by
    simp [renderDoc]
  unfold stripBlock
  rw [e, sbGo_items scriptT sbGo_vanish_script hpass_script pre hp, hart,
    sbGo_items scriptT sbGo_vanish_script hpass_script post hq]
  show _ = renderDoc (stripPass scriptT pre) aattrs abody (stripPass scriptT post)
  simp [renderDoc, List.append_assoc, sbGo]


theorem stripBlock_doc_style (pre post : List HItem) (aattrs : List Char)
    (abody : List BItem) (hp : hitemsOk pre = true) (hq : hitemsOk post = true)
    (haa : attrSeg aattrs = true) (hab : bitemsOk abody = true) :
    stripBlock styleT (renderDoc pre aattrs abody post) =
      renderDoc (stripPass styleT pre) aattrs abody (stripPass styleT post) := by
  have hart : SeekPass styleT
      (('<' :: (articleT ++ aattrs ++ ['>'])) ++ renderBs abody ++
        ('<' :: '/' :: (articleT ++ ['>']))) :=
    seekPass_article 's' ['t', 'y', 'l', 'e'] (by decide) benignHead_ci_s (by decide) aattrs haa abody hab
  have e : renderDoc pre aattrs abody post =
      renderHs pre ++
        ((('<' :: (articleT ++ aattrs ++ ['>'])) ++ renderBs abody ++
          ('<' :: '/' :: (articleT ++ ['>']))) ++ (renderHs post ++ [])) := by
    simp [renderDoc]
  unfold stripBlock
  rw [e, sbGo_items styleT sbGo_vanish_style hpass_style pre hp, hart,
    sbGo_items styleT sbGo_vanish_style hpass_style post hq]
  show _ = renderDoc (stripPass styleT pre) aattrs abody (stripPass styleT post)
  simp [renderDoc, List.append_assoc, sbGo]


theorem stripBlock_doc_nav (pre post : List HItem) (aattrs : List Char)
    (abody : List BItem) (hp : hitemsOk pre = true) (hq : hitemsOk post = true)
    (haa : attrSeg aattrs = true) (hab : bitemsOk abody = true) :
    stripBlock navT (renderDoc pre aattrs abody post) =
      renderDoc (stripPass navT pre) aattrs abody (stripPass navT post) := by
  have hart : SeekPass navT
      (('<' :: (articleT ++ aattrs ++ ['>'])) ++ renderBs abody ++
        ('<' :: '/' :: (articleT ++ ['>']))) :=
    seekPass_article 'n' ['a', 'v'] (by decide) benignHead_ci_n (by decide) aattrs haa abody hab
  have e : renderDoc pre aattrs abody post =
      renderHs pre ++
        ((('<' :: (articleT ++ aattrs ++ ['>'])) ++ renderBs abody ++
          ('<' :: '/' :: (articleT ++ ['>']))) ++ (renderHs post ++ [])) := by
    simp [renderDoc]
  unfold stripBlock
  rw [e, sbGo_items navT sbGo_vanish_nav hpass_nav pre hp, hart,
    sbGo_items navT sbGo_vanish_nav hpass_nav post hq]
  show _ = renderDoc (stripPass navT pre) aattrs abody (stripPass navT post)
  simp [renderDoc, List.append_assoc, sbGo]


theorem stripBlock_doc_header (pre post : List HItem) (aattrs : List Char)
    (abody : List BItem) (hp : hitemsOk pre = true) (hq : hitemsOk post = true)
    (haa : attrSeg aattrs = true) (hab : bitemsOk abody = true) :
    stripBlock headerT (renderDoc pre aattrs abody post) =
      renderDoc (stripPass headerT pre) aattrs abody (stripPass headerT post) := by
  have hart : SeekPass headerT
      (('<' :: (articleT ++ aattrs ++ ['>'])) ++ renderBs abody ++
        ('<' :: '/' :: (articleT ++ ['>']))) :=
    seekPass_article 'h' ['e', 'a', 'd', 'e', 'r'] (by decide) benignHead_ci_h (by decide) aattrs haa abody hab
  have e : renderDoc pre aattrs abody post =
      renderHs pre ++
        ((('<' :: (articleT ++ aattrs ++ ['>'])) ++ renderBs abody ++
          ('<' :: '/' :: (articleT ++ ['>']))) ++ (renderHs post ++ [])) := by
    simp [renderDoc]
  unfold stripBlock
  rw [e, sbGo_items headerT sbGo_vanish_header hpass_header pre hp, hart,
    sbGo_items headerT sbGo_vanish_header hpass_header post hq]
  show _ = renderDoc (stripPass headerT pre) aattrs abody (stripPass headerT post)
  simp [renderDoc, List.append_assoc, sbGo]


theorem stripBlock_doc_footer (pre post : List HItem) (aattrs : List Char)
    (abody : List BItem) (hp : hitemsOk pre = true) (hq : hitemsOk post = true)
    (haa : attrSeg aattrs = true) (hab : bitemsOk abody = true) :
    stripBlock footerT (renderDoc pre aattrs abody post) =
      renderDoc (stripPass footerT pre) aattrs abody (stripPass footerT post) := by
  have hart : SeekPass footerT
      (('<' :: (articleT ++ aattrs ++ ['>'])) ++ renderBs abody ++
        ('<' :: '/' :: (articleT ++ ['>']))) :=
    seekPass_article 'f' ['o', 'o', 't', 'e', 'r'] (by decide) benignHead_ci_f (by decide) aattrs haa abody hab
  have e : renderDoc pre aattrs abody post =
      renderHs pre ++
        ((('<' :: (articleT ++ aattrs ++ ['>'])) ++ renderBs abody ++
          ('<' :: '/' :: (articleT ++ ['>']))) ++ (renderHs post ++ [])) := by
    simp [renderDoc]
  unfold stripBlock
  rw [e, sbGo_items footerT sbGo_vanish_footer hpass_footer pre hp, hart,
    sbGo_items footerT sbGo_vanish_footer hpass_footer post hq]
  show _ = renderDoc (stripPass footerT pre) aattrs abody (stripPass footerT post)
  simp [renderDoc, List.append_assoc, sbGo]

/-- No special block among the items. -/
def noStrip (L : List HItem) : Bool :=
  L.all (fun it => match it with
    | HItem.strip _ _ _ => false
    | _ => true)

theorem stripPass_txt (t s : List Char) (M : List HItem) :
    stripPass t (.txt s :: M) = .txt s :: stripPass t M := rfl

theorem stripPass_blk (t : List Char) (t0 : Char) (tr a i : List Char)
    (M : List HItem) :
    stripPass t (.blk t0 tr a i :: M) = .blk t0 tr a i :: stripPass t M := rfl

theorem stripPass_strip_eq (t a : List Char) (b : List BItem) (M : List HItem) :
    stripPass t (.strip t a b :: M) = stripPass t M := by
  simp [stripPass]

theorem stripPass_strip_ne (t t2 a : List Char) (b : List BItem) (M : List HItem)
    (h : t2 ≠ t) :
    stripPass t (.strip t2 a b :: M) = .strip t2 a b :: stripPass t M := by
  simp [stripPass, h]

theorem hitemsOk_stripPass (t : List Char) (L : List HItem)
    (h : hitemsOk L = true) : hitemsOk (stripPass t L) = true := by
  induction L with
  | nil => rfl
  | cons it r ih =>
    simp only [hitemsOk, List.all_cons, Bool.and_eq_true] at h
    cases it with
    | txt s =>
      rw [stripPass_txt]
      simp only [hitemsOk, List.all_cons, Bool.and_eq_true]
      exact ⟨h.1, ih h.2⟩
    | blk t0 tr a i =>
      rw [stripPass_blk]
      simp only [hitemsOk, List.all_cons, Bool.and_eq_true]
      exact ⟨h.1, ih h.2⟩
    | strip t2 a b =>
      by_cases ht2 : t2 = t
      · subst ht2
        rw [stripPass_strip_eq]
        exact ih h.2
      · rw [stripPass_strip_ne t t2 a b r ht2]
        simp only [hitemsOk, List.all_cons, Bool.and_eq_true]
        exact ⟨h.1, ih h.2⟩

/-- The five passes in source order remove every special block. -/
theorem noStrip_scrub (L : List HItem) (h : hitemsOk L = true) :
    noStrip (stripPass footerT (stripPass headerT (stripPass navT
      (stripPass styleT (stripPass scriptT L))))) = true := by
  induction L with
  | nil => rfl
  | cons it r ih =>
    simp only [hitemsOk, List.all_cons, Bool.and_eq_true] at h
    have ihr := ih h.2
    cases it with
    | txt s =>
      simp only [stripPass_txt, noStrip, List.all_cons, Bool.and_eq_true]
      exact ⟨trivial, ihr⟩
    | blk t0 tr a i =>
      simp only [stripPass_blk, noStrip, List.all_cons, Bool.and_eq_true]
      exact ⟨trivial, ihr⟩
    | strip t2 a b =>
      have h1 := h.1
      simp only [hitemOk, Bool.and_eq_true, stripTagB, Bool.or_eq_true,
        decide_eq_true_eq] at h1
      rcases h1.1.1 with (((ht | ht) | ht) | ht) | ht
      · subst ht
        rw [stripPass_strip_eq]
        exact ihr
      · subst ht
        rw [stripPass_strip_ne scriptT styleT a b r (by decide),
          stripPass_strip_eq]
        exact ihr
      · subst ht
        rw [stripPass_strip_ne scriptT navT a b r (by decide),
          stripPass_strip_ne styleT navT a b _ (by decide), stripPass_strip_eq]
        exact ihr
      · subst ht
        rw [stripPass_strip_ne scriptT headerT a b r (by decide),
          stripPass_strip_ne styleT headerT a b _ (by decide),
          stripPass_strip_ne navT headerT a b _ (by decide), stripPass_strip_eq]
        exact ihr
      · subst ht
        rw [stripPass_strip_ne scriptT footerT a b r (by decide),
          stripPass_strip_ne styleT footerT a b _ (by decide),
          stripPass_strip_ne navT footerT a b _ (by decide),
          stripPass_strip_ne headerT footerT a b _ (by decide),
          stripPass_strip_eq]
        exact ihr

theorem seekCPass_hitems (L : List HItem) (hok : hitemsOk L = true)
    (hns : noStrip L = true) : SeekCPass articleT (renderHs L) := by
  induction L with
  | nil => exact fun X => rfl
  | cons it r ih =>
    simp only [hitemsOk, List.all_cons, Bool.and_eq_true] at hok
    simp only [noStrip, List.all_cons, Bool.and_eq_true] at hns
    refine seekCPass_append ?_ (ih hok.2 hns.2)
    cases it with
    | txt s => exact seekCPass_noLt _ _ ((plainSeg_iff s).mp hok.1)
    | blk t0 tr a i =>
      have h1 := hok.1
      simp only [hitemOk, Bool.and_eq_true] at h1
      obtain ⟨⟨⟨hhh, htr⟩, ha⟩, hi⟩ := h1
      obtain ⟨hne, _, _, _, _, _, _, _⟩ := benignHead_spec t0 hhh
      exact seekCPass_bblk 'a' ['r', 't', 'i', 'c', 'l', 'e'] (by decide) t0 tr a i
        (benignHead_ci_a t0 hhh) hne (fun c hc => ((attrSeg_iff tr).mp htr c hc).1)
        ((plainSeg_iff a).mp ha) ((plainSeg_iff i).mp hi)
    | strip t2 a b => exact absurd hns.1 (by simp)

theorem tagCapture_doc (pre post : List HItem) (aattrs : List Char)
    (abody : List BItem) (hp : hitemsOk pre = true) (hnp : noStrip pre = true)
    (haa : attrSeg aattrs = true) (hab : bitemsOk abody = true) :
    tagCapture articleT (renderDoc pre aattrs abody post) =
      some (renderBs abody) := by
  have hbp : BodyPass articleT (renderBs abody) :=
    bodyPass_bitems 'a' ['r', 't', 'i', 'c', 'l', 'e'] benignHead_ci_a abody hab
  have e : renderDoc pre aattrs abody post =
      renderHs pre ++ (('<' :: articleT) ++ (aattrs ++ ('>' ::
        (renderBs abody ++ (('<' :: '/' :: (articleT ++ ['>'])) ++
          renderHs post))))) := by
    simp [renderDoc, List.append_assoc]
  unfold tagCapture
  rw [e, seekCPass_hitems pre hp hnp, capGo_open_article,
    capGo_inTagC_pass articleT aattrs
      (fun c hc => ((attrSeg_iff aattrs).mp haa c hc).2),
    capGo_inTagC_gt, hbp, capGo_close_article]
  simp

/-- The tail of the generic extraction pipeline applied after content
selection: strip remaining tags, decode the six named entities in
source order, collapse whitespace, trim, truncate. -/
def postPipeline (text : List Char) : List Char :=
  let u1 := tagStrip text
  let u2 := replaceLit ['&', 'n', 'b', 's', 'p', ';'] [' '] u1
  let u3 := replaceLit ['&', 'a', 'm', 'p', ';'] ['&'] u2
  let u4 := replaceLit ['&', 'l', 't', ';'] ['<'] u3
  let u5 := replaceLit ['&', 'g', 't', ';'] ['>'] u4
  let u6 := replaceLit ['&', 'q', 'u', 'o', 't', ';'] ['"'] u5
  let u7 := replaceLit ['&', '#', '3', '9', ';'] ['\''] u6
  (jsTrimL (wsCollapse u7)).take 30000

theorem fetchPageContentGenericL_doc (pre post : List HItem) (aattrs : List Char)
    (abody : List BItem) (hp : hitemsOk pre = true) (hq : hitemsOk post = true)
    (haa : attrSeg aattrs = true) (hab : bitemsOk abody = true) :
    fetchPageContentGenericL (renderDoc pre aattrs abody post) =
      postPipeline (renderBs abody) := by
  have hp1 := hitemsOk_stripPass scriptT pre hp
  have hq1 := hitemsOk_stripPass scriptT post hq
  have hp2 := hitemsOk_stripPass styleT _ hp1
  have hq2 := hitemsOk_stripPass styleT _ hq1
  have hp3 := hitemsOk_stripPass navT _ hp2
  have hq3 := hitemsOk_stripPass navT _ hq2
  have hp4 := hitemsOk_stripPass headerT _ hp3
  have hq4 := hitemsOk_stripPass headerT _ hq3
  have hp5 := hitemsOk_stripPass footerT _ hp4
  have h1 : stripBlock ['s', 'c', 'r', 'i', 'p', 't']
      (renderDoc pre aattrs abody post) =
      renderDoc (stripPass scriptT pre) aattrs abody (stripPass scriptT post) :=
    stripBlock_doc_script pre post aattrs abody hp hq haa hab
  have h2 : stripBlock ['s', 't', 'y', 'l', 'e']
      (renderDoc (stripPass scriptT pre) aattrs abody (stripPass scriptT post)) =
      renderDoc (stripPass styleT (stripPass scriptT pre)) aattrs abody
        (stripPass styleT (stripPass scriptT post)) :=
    stripBlock_doc_style _ _ aattrs abody hp1 hq1 haa hab
  have h3 : stripBlock ['n', 'a', 'v']
      (renderDoc (stripPass styleT (stripPass scriptT pre)) aattrs abody
        (stripPass styleT (stripPass scriptT post))) =
      renderDoc (stripPass navT (stripPass styleT (stripPass scriptT pre)))
        aattrs abody
        (stripPass navT (stripPass styleT (stripPass scriptT post))) :=
    stripBlock_doc_nav _ _ aattrs abody hp2 hq2 haa hab
  have h4 : stripBlock ['h', 'e', 'a', 'd', 'e', 'r']
      (renderDoc (stripPass navT (stripPass styleT (stripPass scriptT pre)))
        aattrs abody
        (stripPass navT (stripPass styleT (stripPass scriptT post)))) =
      renderDoc
        (stripPass headerT (stripPass navT (stripPass styleT
          (stripPass scriptT pre)))) aattrs abody
        (stripPass headerT (stripPass navT (stripPass styleT
          (stripPass scriptT post)))) :=
    stripBlock_doc_header _ _ aattrs abody hp3 hq3 haa hab
  have h5 : stripBlock ['f', 'o', 'o', 't', 'e', 'r']
      (renderDoc
        (stripPass headerT (stripPass navT (stripPass styleT
          (stripPass scriptT pre)))) aattrs abody
        (stripPass headerT (stripPass navT (stripPass styleT
          (stripPass scriptT post))))) =
      renderDoc
        (stripPass footerT (stripPass headerT (stripPass navT (stripPass styleT
          (stripPass scriptT pre))))) aattrs abody
        (stripPass footerT (stripPass headerT (stripPass navT (stripPass styleT
          (stripPass scriptT post))))) :=
    stripBlock_doc_footer _ _ aattrs abody hp4 hq4 haa hab
  have hcap : tagCapture ['a', 'r', 't', 'i', 'c', 'l', 'e']
      (renderDoc
        (stripPass footerT (stripPass headerT (stripPass navT (stripPass styleT
          (stripPass scriptT pre))))) aattrs abody
        (stripPass footerT (stripPass headerT (stripPass navT (stripPass styleT
          (stripPass scriptT post)))))) = some (renderBs abody) :=
    tagCapture_doc _ _ aattrs abody hp5 (noStrip_scrub pre hp) haa hab
  simp only [fetchPageContentGenericL]
  rw [h1, h2, h3, h4, h5, hcap]
  rfl

/-- C6: on every document assembled from text runs, ordinary elements
and script, style, nav, header or footer blocks — with attributes, in
any order and number, with text and ordinary markup inside the special
blocks — surrounding one article element, the generic extraction path
computes its output from the article body alone; so text appearing only
inside a sibling nav or script block never reaches the output, which is
invariant under replacing the surrounding content entirely. -/
theorem C6_generic_extract_article_only (pre post : List HItem)
    (aattrs : List Char) (abody : List BItem)
    (hpre : hitemsOk pre = true) (hpost : hitemsOk post = true)
    (haa : attrSeg aattrs = true) (hab : bitemsOk abody = true) :
    fetchPageContentGeneric (String.mk (renderDoc pre aattrs abody post)) =
      String.mk (postPipeline (renderBs abody)) ∧
    (∀ pre2 post2, hitemsOk pre2 = true → hitemsOk post2 = true →
      fetchPageContentGeneric (String.mk (renderDoc pre2 aattrs abody post2)) =
        fetchPageContentGeneric (String.mk (renderDoc pre aattrs abody post))) := by
  have key : ∀ (p q : List HItem), hitemsOk p = true → hitemsOk q = true →
      fetchPageContentGeneric (String.mk (renderDoc p aattrs abody q)) =
        String.mk (postPipeline (renderBs abody)) := by
    intro p q h1 h2
    rw [fpcg_mk]
    exact congrArg String.mk
      (fetchPageContentGenericL_doc p q aattrs abody h1 h2 haa hab)
  exact ⟨key pre post hpre hpost,
    fun pre2 post2 h1 h2 => (key pre2 post2 h1 h2).trans
      (key pre post hpre hpost).symm⟩

/-- A concrete page: greeting text, a nav block with markup, an intro
paragraph, then the article, then a script block, a footer block and
trailing text. -/
def c6preW : List HItem :=
  [.txt "Welcome! ".toList,
   .strip navT " class=\"menu\"".toList
     [.btxt "Home ".toList, .bblk 'b' [] [] "About".toList],
   .blk 'p' [] [] "An intro. ".toList]

def c6postW : List HItem :=
  [.strip scriptT " type=\"text/javascript\"".toList
     [.btxt "var x = 1;".toList],
   .strip footerT [] [.btxt "Copyright 2026".toList],
   .txt " Goodbye.".toList]

def c6bodyW : List BItem :=
  [.btxt "Real ".toList, .bblk 'b' [] [] "content".toList,
   .btxt " here.".toList]

theorem C6_generic_extract_article_only_witness :
    (fetchPageContentGeneric
        (String.mk (renderDoc c6preW " id=\"main\"".toList c6bodyW c6postW)) =
      String.mk (postPipeline (renderBs c6bodyW)) ∧
    (∀ pre2 post2, hitemsOk pre2 = true → hitemsOk post2 = true →
      fetchPageContentGeneric
          (String.mk (renderDoc pre2 " id=\"main\"".toList c6bodyW post2)) =
        fetchPageContentGeneric
          (String.mk (renderDoc c6preW " id=\"main\"".toList c6bodyW c6postW)))) ∧
    String.mk (postPipeline (renderBs c6bodyW)) = "Real content here." :=
  ⟨C6_generic_extract_article_only c6preW c6postW " id=\"main\"".toList c6bodyW
     (by decide) (by decide) (by decide) (by decide),
   by decide⟩
